import Mathlib

/-!
# Verification of the playwise in-memory playlist engine

A shallow embedding, in Lean 4, of the core data structures and engine
operations of the playwise repository (Go):

* `models.Song`                     → `Playwise.Song` / `Playwise.SongData`
* `datastructures.DoublyLinkedList` → `Playwise.DoublyLinkedList`
* `datastructures.PlaybackHistoryStack` → `Playwise.PlaybackHistoryStack`
* `datastructures.SongRatingBST`    → `Playwise.SongRatingBST`
* `datastructures.SongHashMap`      → `Playwise.SongHashMap`
* `datastructures.PlaylistExplorerTree` → `Playwise.PlaylistExplorerTree`
* `datastructures.PlaylistSorter`   → `Playwise.compareSongs`, `Playwise.MergeSort`,
                                      `Playwise.QuickSort`, `Playwise.HeapSort`
* `services.PlaylistEngine`         → `Playwise.Engine`

Modelling conventions:

* Go `int` is modelled as `Int` (64-bit overflow is made explicit with
  `wrap64` exactly where the source can overflow, in the djb2 hash).
* Go pointers `*models.Song` are modelled by the song's `id : String`
  (pointer identity); the mutable fields of the pointed-to record live in
  an explicit heap `Store` (`List (String × SongData)`) that the engine
  operations thread through, so that a field update made through one
  structure is visible through every structure, as in the source.
  Immutable identity fields that the hash-map code reads (`ID`, `Title`)
  are carried in `SongRef`.
* Go slices are Lean lists; in-place index mutation is explicit state
  passing of the list (`setIdx`, `swapIdx`).
* Go maps `map[string]*Node` are association lists keyed by the (unique)
  name; Go's unspecified map iteration order means only the key *set* of
  a listing is significant, which is what the theorems use.
* `fmt.Errorf` failures are `Option`-valued errors.
* Unicode-dependent Go helpers (`strings.ToLower`, `strings.Title`,
  `strings.TrimSpace`) are modelled exactly on the ASCII range, which is
  what every theorem below exercises.
-/

namespace Playwise

/-! ## String helpers (Go `strings` package, ASCII-exact) -/

/-- Go `unicode.IsSpace` restricted to ASCII: the characters trimmed by
`strings.TrimSpace`. -/
def goIsSpace (c : Char) : Bool :=
  c = ' ' || c = '\t' || c = '\n' || c = '\x0b' || c = '\x0c' || c = '\r'

/-- Go `strings.TrimSpace`: drop leading and trailing white space. -/
def goTrimSpace (s : String) : String :=
  ⟨((s.data.dropWhile goIsSpace).reverse.dropWhile goIsSpace).reverse⟩

/-- Go `strings.ToLower` (ASCII case mapping). -/
def goToLower (s : String) : String :=
  ⟨s.data.map Char.toLower⟩

/-- The separator predicate used by Go `strings.Title` to find word
boundaries, ASCII branch: ASCII letters, digits and underscore are
non-separators, every other ASCII character is a separator. -/
def goIsSeparator (c : Char) : Bool :=
  !(('0' ≤ c && c ≤ '9') || ('a' ≤ c && c ≤ 'z') || ('A' ≤ c && c ≤ 'Z') || c = '_')

/-- Character list worker for `strings.Title`: upper-case each character
that follows a separator (the start of the string counts as one). -/
def goTitleAux : Bool → List Char → List Char
  | _, [] => []
  | prevSep, c :: cs =>
    (if prevSep then c.toUpper else c) :: goTitleAux (goIsSeparator c) cs

/-- Go `strings.Title`: map the first letter of every word to title case. -/
def goTitle (s : String) : String :=
  ⟨goTitleAux true s.data⟩

/-- Go `strings.ReplaceAll s " " "-"` (the only replacement the source
performs, in `generateSongID`). -/
def goReplaceSpaceDash (s : String) : String :=
  ⟨s.data.map (fun c => if c = ' ' then '-' else c)⟩

/-- Go `strings.Compare` (and direct `<` on strings): -1 / 0 / 1 by
lexicographic comparison. -/
def strCompare (a b : String) : Int :=
  if a < b then -1 else if b < a then 1 else 0

/-! ## `models.Song` -/

/-- The full `models.Song` record (`song.go`).  `AddedAt` and `LastPlayed`
timestamps are abstract integers.  This value form of the record is used
by the sorter, which only reads fields.  -/
structure Song where
  id : String
  title : String
  artist : String
  album : String
  duration : Int
  genre : String
  subGenre : String
  mood : String
  bpm : Int
  rating : Int
  playCount : Int
  addedAt : Int
  deriving Repr, DecidableEq

instance : Inhabited Song :=
  ⟨⟨"", "", "", "", 0, "", "", "", 0, 0, 0, 0⟩⟩

/-- `models.NewSong`: ratings and play counts start at zero; `addedAt` is
the creation time (`time.Now()`), passed in explicitly. -/
def NewSong (id title artist album genre subgenre mood : String)
    (duration bpm now : Int) : Song :=
  { id := id, title := title, artist := artist, album := album,
    duration := duration, genre := genre, subGenre := subgenre, mood := mood,
    bpm := bpm, rating := 0, playCount := 0, addedAt := now }

/-- `Song.SetRating`: only ratings 1–5 are stored. -/
def songSetRating (s : Song) (rating : Int) : Song :=
  if 1 ≤ rating ∧ rating ≤ 5 then { s with rating := rating } else s

/-- `Song.IsSimilar`: same genre and mood, duration within 30 seconds. -/
def songIsSimilar (s other : Song) : Bool :=
  s.genre = other.genre && s.mood = other.mood &&
    (s.duration - other.duration ≤ 30 && other.duration - s.duration ≤ 30)

/-! ## `datastructures.DoublyLinkedList`

The list of songs reachable from `Head` by `Next` (what `ToSlice`
observes) is the model state; the node/pointer manipulations of the
source are translated branch by branch into their effect on that
sequence.  The element type is abstract (the Go code never inspects the
`*models.Song` payload except in `GetTotalDuration`, modelled at the
engine level). -/

structure DoublyLinkedList (α : Type) where
  items : List α
  deriving Repr, DecidableEq

namespace DoublyLinkedList

/-- `NewDoublyLinkedList`. -/
def empty : DoublyLinkedList α := ⟨[]⟩

/-- `AddSong`: append at the tail. -/
def AddSong (dll : DoublyLinkedList α) (song : α) : DoublyLinkedList α :=
  ⟨dll.items ++ [song]⟩

/-- `AddSongToBeginning`. -/
def AddSongToBeginning (dll : DoublyLinkedList α) (song : α) : DoublyLinkedList α :=
  ⟨song :: dll.items⟩

/-- `Size` (the `Length` field; the source keeps it equal to the number of
reachable nodes). -/
def Size (dll : DoublyLinkedList α) : Int := dll.items.length

/-- `AddSongAtIndex`: bounds check, then one of three splice branches. -/
def AddSongAtIndex (dll : DoublyLinkedList α) (song : α) (index : Int) :
    Option (DoublyLinkedList α) :=
  if index < 0 ∨ index > dll.Size then none
  else if index = dll.Size then some (dll.AddSong song)
  else if index = 0 then some (dll.AddSongToBeginning song)
  else
    -- link the new node in before the node at `index`
    some ⟨dll.items.take index.toNat ++ song :: dll.items.drop index.toNat⟩

/-- `DeleteSong`: bounds check, then the single-node / head / tail /
middle unlink branches; returns the removed element. -/
def DeleteSong (dll : DoublyLinkedList α) (index : Int) :
    Option (α × DoublyLinkedList α) :=
  if index < 0 ∨ index ≥ dll.Size then none
  else
    match dll.items with
    | [] => none   -- unreachable: 0 ≤ index < 0 is absurd
    | x :: xs =>
      if dll.items.length = 1 then some (x, ⟨[]⟩)
      else if index = 0 then some (x, ⟨xs⟩)                     -- delete head
      else if index = dll.Size - 1 then                         -- delete tail
        some (dll.items.getLastD x, ⟨dll.items.dropLast⟩)
      else                                                      -- middle node
        some (dll.items.getD index.toNat x,
              ⟨dll.items.take index.toNat ++ dll.items.drop (index.toNat + 1)⟩)

/-- `MoveSong`: bounds check both indices, no-op on equality, else
remove-then-reinsert with the target index decremented when moving
forward. -/
def MoveSong (dll : DoublyLinkedList α) (fromIndex toIndex : Int) :
    Option (DoublyLinkedList α) :=
  if fromIndex < 0 ∨ fromIndex ≥ dll.Size ∨ toIndex < 0 ∨ toIndex ≥ dll.Size then
    none
  else if fromIndex = toIndex then some dll
  else
    match dll.DeleteSong fromIndex with
    | none => none
    | some (song, dll') =>
      let toIndex := if toIndex > fromIndex then toIndex - 1 else toIndex
      dll'.AddSongAtIndex song toIndex

/-- `ReversePlaylist`: the pointer-swapping pass reverses the reachable
sequence; empty and single-node lists are returned untouched by the
guard. -/
def ReversePlaylist (dll : DoublyLinkedList α) : DoublyLinkedList α :=
  if dll.items.length ≤ 1 then dll else ⟨dll.items.reverse⟩

/-- `GetSong`. -/
def GetSong [Inhabited α] (dll : DoublyLinkedList α) (index : Int) : Option α :=
  if index < 0 ∨ index ≥ dll.Size then none
  else some (dll.items.getD index.toNat default)

/-- `ToSlice`. -/
def ToSlice (dll : DoublyLinkedList α) : List α := dll.items

end DoublyLinkedList

/-! ## `datastructures.PlaybackHistoryStack` (stack.go)

`items` is the chain of nodes from `Top` downwards (most recent first);
`size` is the explicit `Size` field the source maintains alongside it. -/

structure PlaybackHistoryStack (α : Type) where
  items : List α
  size : Int
  maxSize : Int
  deriving Repr, DecidableEq

namespace PlaybackHistoryStack

/-- `NewPlaybackHistoryStack`: non-positive capacities fall back to 50. -/
def new (α : Type) (maxSize : Int) : PlaybackHistoryStack α :=
  ⟨[], 0, if maxSize ≤ 0 then 50 else maxSize⟩

/-- `Clear`. -/
def Clear (phs : PlaybackHistoryStack α) : PlaybackHistoryStack α :=
  { phs with items := [], size := 0 }

/-- `removeBottom`: drop the oldest (bottom) entry; sizes ≤ 1 just clear. -/
def removeBottom (phs : PlaybackHistoryStack α) : PlaybackHistoryStack α :=
  if phs.size ≤ 1 then phs.Clear
  else { phs with items := phs.items.dropLast, size := phs.size - 1 }

/-- `Push`: new node on top, then evict the bottom if `maxSize` is
exceeded. -/
def Push (phs : PlaybackHistoryStack α) (song : α) : PlaybackHistoryStack α :=
  let phs := { phs with items := song :: phs.items, size := phs.size + 1 }
  if phs.size > phs.maxSize then phs.removeBottom else phs

/-- `GetRecentSongs`: up to `n` entries walking from the top. -/
def GetRecentSongs (phs : PlaybackHistoryStack α) (n : Int) : List α :=
  if n ≤ 0 then [] else phs.items.take n.toNat

/-- States reachable from the constructor by any sequence of pushes. -/
inductive Reach : PlaybackHistoryStack α → Prop
  | new (maxSize : Int) : Reach (new α maxSize)
  | push {phs : PlaybackHistoryStack α} (song : α) :
      Reach phs → Reach (phs.Push song)

end PlaybackHistoryStack

/-! ## The shared heap of song records

A Go `*models.Song` is identified by the song's `id`; the mutable fields
of the record live in this explicit heap, so a mutation made through one
structure (e.g. `SetRating` during `RateSong`) is observed by every other
structure holding the same pointer. -/

/-- The mutable part of a heap-allocated `models.Song` record that the
engine-level claims read (`Rating`, plus the fields `DeleteSong`,
`GetSmartRecommendations` and the explorer tree consult). -/
structure SongData where
  title : String
  artist : String
  genre : String
  subGenre : String
  mood : String
  duration : Int
  rating : Int
  deriving Repr, DecidableEq

instance : Inhabited SongData := ⟨⟨"", "", "", "", "", 0, 0⟩⟩

/-- The heap: ids mapped to record contents (each id bound at most once). -/
def Store := List (String × SongData)

instance : Repr Store := inferInstanceAs (Repr (List (String × SongData)))
instance : DecidableEq Store := inferInstanceAs (DecidableEq (List (String × SongData)))

/-- Dereference a pointer. -/
def storeGet (store : Store) (id : String) : Option SongData :=
  match store.find? (fun p => p.1 = id) with
  | some p => some p.2
  | none => none

/-- Read `song.Rating` through a pointer (a valid pointer in every state
the theorems quantify over). -/
def storeRating (store : Store) (id : String) : Int :=
  ((storeGet store id).getD default).rating

/-- Write the record bound to `id` (allocate if absent). -/
def storeSet (store : Store) (id : String) (d : SongData) : Store :=
  match store with
  | [] => [(id, d)]
  | (i, v) :: rest =>
    if i = id then (i, d) :: rest else (i, v) :: storeSet rest id d

/-- `song.SetRating(rating)` through a pointer. -/
def storeSetRating (store : Store) (id : String) (rating : Int) : Store :=
  match storeGet store id with
  | some d => storeSet store id (songSetRating' d rating)
  | none => store
where
  /-- `Song.SetRating` on the heap record: only 1–5 are stored. -/
  songSetRating' (d : SongData) (rating : Int) : SongData :=
    if 1 ≤ rating ∧ rating ≤ 5 then { d with rating := rating } else d

/-! ## `datastructures.SongRatingBST` (bst.go)

Nodes carry a `RatingBucket` (its key and its list of song pointers);
pointers are ids.  `findSongByID` reads `song.Rating` through the found
pointer, so the BST operations that need it take the heap as an
argument. -/

inductive BSTNode where
  | leaf
  | node (left : BSTNode) (rating : Int) (songs : List String) (right : BSTNode)
  deriving Repr, DecidableEq

namespace BSTNode

/-- `RatingBucket.RemoveSong`: find the song by id, overwrite it with the
last element of the bucket and shrink the slice by one; reports whether a
removal happened. -/
def bucketRemoveSong (songs : List String) (songID : String) :
    List String × Bool :=
  match songs.findIdx? (fun s => s = songID) with
  | none => (songs, false)
  | some i => ((songs.set i (songs.getLastD "")).dropLast, true)

/-- `insertNode`: standard BST descent; a fresh node gets a fresh bucket,
an existing key appends to its bucket.  Also returns how many nodes were
created (0 or 1) so the wrapper can maintain `NodeCount`. -/
def insertNode : BSTNode → String → Int → BSTNode × Int
  | leaf, song, rating => (node leaf rating [song] leaf, 1)
  | node l r songs rt, song, rating =>
    if rating = r then (node l r (songs ++ [song]) rt, 0)
    else if rating < r then
      let res := insertNode l song rating
      (node res.1 r songs rt, res.2)
    else
      let res := insertNode rt song rating
      (node l r songs res.1, res.2)

/-- `searchNode`: return the bucket of the node keyed `rating`, if any. -/
def searchNode : BSTNode → Int → Option (List String)
  | leaf, _ => none
  | node l r songs rt, rating =>
    if rating = r then some songs
    else if rating < r then searchNode l rating
    else searchNode rt rating

/-- `findSongInSubtree`: look for the pointer with `ID = songID`, bucket
first, then left, then right.  Pointers being ids, the result is the id
itself when present. -/
def findSongInSubtree : BSTNode → String → Option String
  | leaf, _ => none
  | node l _ songs rt, songID =>
    match songs.find? (fun s => s = songID) with
    | some s => some s
    | none =>
      match findSongInSubtree l songID with
      | some s => some s
      | none => findSongInSubtree rt songID

/-- `findMinNode`: the bucket of the leftmost node of a non-empty tree
(the `(0, [])` result is unreachable: callers pass non-empty trees). -/
def findMinNode : BSTNode → Int × List String
  | leaf => (0, [])
  | node leaf r songs _ => (r, songs)
  | node (node ll lr ls lrt) _ _ _ => findMinNode (node ll lr ls lrt)

/-- `deleteNode`: standard BST deletion of the node keyed `rating`, with
successor promotion (the whole successor bucket, key included, is copied
into the doomed node) in the two-child case. -/
def deleteNode : BSTNode → Int → BSTNode
  | leaf, _ => leaf
  | node l r songs rt, rating =>
    if rating < r then node (deleteNode l rating) r songs rt
    else if r < rating then node l r songs (deleteNode rt rating)
    else
      match l, rt with
      | leaf, _ => rt
      | node ll lr ls lrt, leaf => node ll lr ls lrt
      | node ll lr ls lrt, node rl rr rs rrt =>
        let succ := findMinNode (node rl rr rs rrt)
        node (node ll lr ls lrt) succ.1 succ.2
          (deleteNode (node rl rr rs rrt) succ.1)

/-- Replace the bucket of the node keyed `rating` by the result of
`RemoveSong` (the source mutates the found node in place); returns the
new tree, whether a song was removed, and whether the mutated bucket is
now empty. -/
def removeFromBucket : BSTNode → Int → String → BSTNode × Bool × Bool
  | leaf, _, _ => (leaf, false, false)
  | node l r songs rt, rating, songID =>
    if rating = r then
      let res := bucketRemoveSong songs songID
      (node l r res.1 rt, res.2, res.1.isEmpty)
    else if rating < r then
      let res := removeFromBucket l rating songID
      (node res.1 r songs rt, res.2.1, res.2.2)
    else
      let res := removeFromBucket rt rating songID
      (node l r songs res.1, res.2.1, res.2.2)

end BSTNode

/-- The `SongRatingBST` wrapper: root plus the `NodeCount` field. -/
structure SongRatingBST where
  root : BSTNode
  nodeCount : Int
  deriving Repr, DecidableEq

namespace SongRatingBST

/-- `NewSongRatingBST`. -/
def new : SongRatingBST := ⟨.leaf, 0⟩

/-- `InsertSong`: ignore ratings outside 1–5, otherwise set the song's
rating through the pointer and insert it into the tree. -/
def InsertSong (bst : SongRatingBST) (store : Store) (songId : String)
    (rating : Int) : SongRatingBST × Store :=
  if rating < 1 ∨ rating > 5 then (bst, store)
  else
    let store := storeSetRating store songId rating
    let res := BSTNode.insertNode bst.root songId rating
    (⟨res.1, bst.nodeCount + res.2⟩, store)

/-- `SearchByRating`: the bucket's song list, or empty for an invalid or
absent rating. -/
def SearchByRating (bst : SongRatingBST) (rating : Int) : List String :=
  if rating < 1 ∨ rating > 5 then []
  else (BSTNode.searchNode bst.root rating).getD []

/-- `DeleteSong`: locate the song anywhere in the tree, read its current
rating through the pointer, remove it from that bucket, and remove the
whole node if the bucket is now empty. -/
def DeleteSong (bst : SongRatingBST) (store : Store) (songID : String) :
    SongRatingBST × Bool :=
  match BSTNode.findSongInSubtree bst.root songID with
  | none => (bst, false)
  | some sid =>
    let rating := storeRating store sid
    match BSTNode.searchNode bst.root rating with
    | none => (bst, false)
    | some _ =>
      let res := BSTNode.removeFromBucket bst.root rating songID
      if res.2.1 ∧ res.2.2 then
        (⟨BSTNode.deleteNode res.1 rating, bst.nodeCount - 1⟩, res.2.1)
      else
        (⟨res.1, bst.nodeCount⟩, res.2.1)

end SongRatingBST

/-! ## `datastructures.SongHashMap` (hash_map.go)

Separate chaining over a bucket slice.  Values are song pointers; the
fields the hash-map code itself reads through them (`song.ID`,
`song.Title`) are immutable, so a pointer is modelled by the pair
`SongRef` of those two fields. -/

/-- The identity fields of a `*models.Song` that the hash map keys on. -/
structure SongRef where
  id : String
  title : String
  deriving Repr, DecidableEq

/-- `HashMapEntry` (the chain is the bucket list, front = chain head). -/
structure HashMapEntry where
  key : String
  value : SongRef
  deriving Repr, DecidableEq

structure SongHashMap where
  buckets : List (List HashMapEntry)
  size : Int
  capacity : Int
  deriving Repr, DecidableEq

namespace SongHashMap

/-- Wrap into the signed 64-bit range (Go `int` overflow). -/
def wrap64 (x : Int) : Int := (x + 2 ^ 63) % 2 ^ 64 - 2 ^ 63

/-- One step of the djb2 loop: `hash = hash*33 + int(c)` on Go `int`. -/
def hashStep (h : Int) (c : Char) : Int := wrap64 (h * 33 + c.toNat)

/-- The djb2 `hash` function: fold over the key's runes starting from
5381, negate if negative (with 64-bit wrap, as in Go, where negating
`MinInt64` is a no-op), then reduce modulo the capacity with Go's
truncated `%`. -/
def hashRaw (key : String) : Int :=
  let h := key.data.foldl hashStep 5381
  if h < 0 then wrap64 (-h) else h

/-- The bucket index as a `Nat`.  For every key whose (wrapped, negated)
hash is non-negative — all keys except those folding to exactly
`MinInt64` — this is Go's `hash % capacity`; Go would index the bucket
slice with a negative value (and panic, unless the capacity divides
`2^63`, e.g. the powers of two the engine uses, where the remainder is 0
as here) in the remaining case. -/
def hashIdx (key : String) (capacity : Int) : Nat :=
  ((hashRaw key).tmod capacity).toNat

/-- `NewSongHashMap`: non-positive capacities fall back to 16. -/
def new (capacity : Int) : SongHashMap :=
  let capacity := if capacity ≤ 0 then 16 else capacity
  ⟨List.replicate capacity.toNat [], 0, capacity⟩

/-- Walk a chain as `Put`/`PutByTitle` do: update the value of the first
entry carrying the key, or append a fresh entry at the end of the chain.
The flag reports whether a new entry was created (`Size++`). -/
def chainPut : List HashMapEntry → String → SongRef → List HashMapEntry × Bool
  | [], key, v => ([⟨key, v⟩], true)
  | e :: rest, key, v =>
    if e.key = key then (⟨e.key, v⟩ :: rest, false)
    else
      let (rest', added) := chainPut rest key v
      (e :: rest', added)

/-- First entry of a chain carrying the key. -/
def chainGet : List HashMapEntry → String → Option SongRef
  | [], _ => none
  | e :: rest, key => if e.key = key then some e.value else chainGet rest key

/-- Unlink the first entry of a chain carrying the key. -/
def chainDelete : List HashMapEntry → String → Option (SongRef × List HashMapEntry)
  | [], _ => none
  | e :: rest, key =>
    if e.key = key then some (e.value, rest)
    else
      match chainDelete rest key with
      | none => none
      | some (v, rest') => some (v, e :: rest')

/-- The insertion logic of `Put` (everything but the trailing resize
check), keyed by `song.ID`; `nil`/empty-id guard included. -/
def putNR (shm : SongHashMap) (song : SongRef) : SongHashMap :=
  if song.id = "" then shm
  else
    let index := hashIdx song.id shm.capacity
    let put := chainPut (shm.buckets.getD index []) song.id song
    { shm with buckets := shm.buckets.set index put.1,
               size := if put.2 then shm.size + 1 else shm.size }

/-- The insertion logic of `PutByTitle` (everything but the trailing
resize check), keyed by `song.Title`. -/
def putByTitleNR (shm : SongHashMap) (song : SongRef) : SongHashMap :=
  if song.title = "" then shm
  else
    let index := hashIdx song.title shm.capacity
    let put := chainPut (shm.buckets.getD index []) song.title song
    { shm with buckets := shm.buckets.set index put.1,
               size := if put.2 then shm.size + 1 else shm.size }

/-- `resize`: double the capacity, fresh buckets, size zero, then re-add
every entry's *value* through `Put` — i.e. keyed by `song.ID`, whatever
key the entry previously had.  (The source's `Put` call inside `resize`
performs its own trailing resize check; the check only runs on an append
to a non-empty chain and only fires when the rebuilt size exceeds
`4 × capacity`, so it can never fire again while the old table holds at
most `4·capacity` entries — the case in every state the theorems below
consider, where the table is at its `2·capacity` threshold before the
triggering put.  `putNR` is therefore used for the re-adds.) -/
def resize (shm : SongHashMap) : SongHashMap :=
  let oldEntries := shm.buckets.flatten
  let base : SongHashMap :=
    ⟨List.replicate (shm.capacity * 2).toNat [], 0, shm.capacity * 2⟩
  oldEntries.foldl (fun m e => m.putNR e.value) base

/-- `Put`: insert keyed by id.  The source's empty-bucket branch and the
update-in-chain branch return early; only an append to the end of a
non-empty chain falls through to the trailing `Size > 2 × Capacity`
resize check.  (`(chainPut …).2 = false` is exactly the update branch:
the key already had an entry in its chain.) -/
def Put (shm : SongHashMap) (song : SongRef) : SongHashMap :=
  let bucket := shm.buckets.getD (hashIdx song.id shm.capacity) []
  let shm' := shm.putNR song
  if song.id = "" ∨ bucket = [] ∨ (chainPut bucket song.id song).2 = false then
    shm'
  else if shm'.size > shm'.capacity * 2 then shm'.resize
  else shm'

/-- `PutByTitle`: insert keyed by title, with the same early returns: an
empty-bucket insert and an in-chain update skip the resize check, an
append to a non-empty chain runs it. -/
def PutByTitle (shm : SongHashMap) (song : SongRef) : SongHashMap :=
  let bucket := shm.buckets.getD (hashIdx song.title shm.capacity) []
  let shm' := shm.putByTitleNR song
  if song.title = "" ∨ bucket = [] ∨
      (chainPut bucket song.title song).2 = false then
    shm'
  else if shm'.size > shm'.capacity * 2 then shm'.resize
  else shm'

/-- `Get`: chain lookup by id (`none` models the `NotFound` error). -/
def Get (shm : SongHashMap) (songID : String) : Option SongRef :=
  if songID = "" then none
  else chainGet (shm.buckets.getD (hashIdx songID shm.capacity) []) songID

/-- `GetByTitle`: chain lookup by title. -/
def GetByTitle (shm : SongHashMap) (title : String) : Option SongRef :=
  if title = "" then none
  else chainGet (shm.buckets.getD (hashIdx title shm.capacity) []) title

/-- `Delete`: unlink by id, returning the removed value. -/
def Delete (shm : SongHashMap) (songID : String) :
    Option SongRef × SongHashMap :=
  if songID = "" then (none, shm)
  else
    let index := hashIdx songID shm.capacity
    match chainDelete (shm.buckets.getD index []) songID with
    | none => (none, shm)
    | some (v, bucket') =>
      (some v, { shm with buckets := shm.buckets.set index bucket',
                          size := shm.size - 1 })

/-- `Contains`. -/
def Contains (shm : SongHashMap) (songID : String) : Bool :=
  (shm.Get songID).isSome

/-- `UpdateSong`: overwrite the value of an existing id-keyed entry in
place; an absent id is an error and leaves the map unchanged. -/
def UpdateSong (shm : SongHashMap) (song : SongRef) : SongHashMap :=
  if song.id = "" then shm
  else
    let index := hashIdx song.id shm.capacity
    let bucket' := chainUpdate (shm.buckets.getD index []) song.id song
    { shm with buckets := shm.buckets.set index bucket' }
where
  /-- Overwrite the first entry carrying the key, if any. -/
  chainUpdate : List HashMapEntry → String → SongRef → List HashMapEntry
    | [], _, _ => []
    | e :: rest, key, v =>
      if e.key = key then ⟨e.key, v⟩ :: rest else e :: chainUpdate rest key v

/-- All entries, bucket by bucket, chain order within a bucket. -/
def entries (shm : SongHashMap) : List HashMapEntry := shm.buckets.flatten

end SongHashMap

/-! ## `datastructures.PlaylistExplorerTree` (playlist_tree.go)

Every node the source ever creates sits on the fixed 4-level path
genre → subgenre → mood → artist (only `AddSong` creates nodes), so the
tree is modelled level by level.  A Go `map[string]*PlaylistTreeNode` is
an association list keyed by the (unique) child name; `AddChild` appends,
and a listing's key *set* is the observable (Go map iteration order is
unspecified). -/

/-- First binding of a key in an association list (Go map lookup). -/
def alistGet (l : List (String × α)) (k : String) : Option α :=
  match l.find? (fun p => p.1 = k) with
  | some p => some p.2
  | none => none

/-- Overwrite the first binding of a key, or append a fresh one
(Go map assignment). -/
def alistPut (l : List (String × α)) (k : String) (v : α) : List (String × α) :=
  match l with
  | [] => [(k, v)]
  | (k', v') :: rest =>
    if k' = k then (k', v) :: rest else (k', v') :: alistPut rest k v

structure ArtistNodeT where
  songs : List String
  deriving Repr, DecidableEq

structure MoodNodeT where
  artists : List (String × ArtistNodeT)
  deriving Repr, DecidableEq

structure SubgenreNodeT where
  moods : List (String × MoodNodeT)
  deriving Repr, DecidableEq

structure GenreNodeT where
  subgenres : List (String × SubgenreNodeT)
  deriving Repr, DecidableEq

structure PlaylistExplorerTree where
  genres : List (String × GenreNodeT)
  totalSongs : Int
  statGenres : Int
  statSubgenres : Int
  statMoods : Int
  statArtists : Int
  deriving Repr, DecidableEq

namespace PlaylistExplorerTree

/-- `NewPlaylistExplorerTree`. -/
def new : PlaylistExplorerTree := ⟨[], 0, 0, 0, 0, 0⟩

/-- The normalisation `AddSong` applies to each category string:
`strings.Title(strings.ToLower(strings.TrimSpace(s)))`, with the
level-specific `Unknown …` fallback for the empty result. -/
def normalizeCat (s : String) (unknown : String) : String :=
  let n := goTitle (goToLower (goTrimSpace s))
  if n = "" then unknown else n

/-- `AddSong`: normalise the four category names, walk/create the path
`Root → genre → subgenre → mood → artist` (bumping the per-level
statistics for freshly created nodes), and append the song pointer at
the artist leaf. -/
def AddSong (pet : PlaylistExplorerTree) (id : String) (d : SongData) :
    PlaylistExplorerTree :=
  let genre := normalizeCat d.genre "Unknown Genre"
  let subgenre := normalizeCat d.subGenre "Unknown Subgenre"
  let mood := normalizeCat d.mood "Unknown Mood"
  let artist := normalizeCat d.artist "Unknown Artist"
  -- `GetChild == nil` checks: an absent child is created (and counted),
  -- modelled as the `⟨[]⟩` fallback plus an `isNone` statistics bump
  let gOld := alistGet pet.genres genre
  let gNode := gOld.getD ⟨[]⟩
  let sOld := alistGet gNode.subgenres subgenre
  let sNode := sOld.getD ⟨[]⟩
  let mOld := alistGet sNode.moods mood
  let mNode := mOld.getD ⟨[]⟩
  let aOld := alistGet mNode.artists artist
  let aNode := aOld.getD ⟨[]⟩
  let aNode' : ArtistNodeT := ⟨aNode.songs ++ [id]⟩
  let mNode' : MoodNodeT := ⟨alistPut mNode.artists artist aNode'⟩
  let sNode' : SubgenreNodeT := ⟨alistPut sNode.moods mood mNode'⟩
  let gNode' : GenreNodeT := ⟨alistPut gNode.subgenres subgenre sNode'⟩
  { genres := alistPut pet.genres genre gNode',
    totalSongs := pet.totalSongs + 1,
    statGenres := pet.statGenres + if gOld.isNone then 1 else 0,
    statSubgenres := pet.statSubgenres + if sOld.isNone then 1 else 0,
    statMoods := pet.statMoods + if mOld.isNone then 1 else 0,
    statArtists := pet.statArtists + if aOld.isNone then 1 else 0 }

/-- `GetGenres`: the root's child names. -/
def GetGenres (pet : PlaylistExplorerTree) : List String :=
  pet.genres.map Prod.fst

/-- `GetSubgenres`. -/
def GetSubgenres (pet : PlaylistExplorerTree) (genre : String) : List String :=
  match alistGet pet.genres genre with
  | none => []
  | some g => g.subgenres.map Prod.fst

/-- `GetMoods`. -/
def GetMoods (pet : PlaylistExplorerTree) (genre subgenre : String) : List String :=
  match alistGet pet.genres genre with
  | none => []
  | some g =>
    match alistGet g.subgenres subgenre with
    | none => []
    | some s => s.moods.map Prod.fst

/-- `GetArtists`. -/
def GetArtists (pet : PlaylistExplorerTree) (genre subgenre mood : String) :
    List String :=
  match alistGet pet.genres genre with
  | none => []
  | some g =>
    match alistGet g.subgenres subgenre with
    | none => []
    | some s =>
      match alistGet s.moods mood with
      | none => []
      | some m => m.artists.map Prod.fst

/-- `GetSongs`: the artist leaf's songs, or empty on a missing path. -/
def GetSongs (pet : PlaylistExplorerTree) (genre subgenre mood artist : String) :
    List String :=
  match alistGet pet.genres genre with
  | none => []
  | some g =>
    match alistGet g.subgenres subgenre with
    | none => []
    | some s =>
      match alistGet s.moods mood with
      | none => []
      | some m =>
        match alistGet m.artists artist with
        | none => []
        | some a => a.songs

/-- Remove the first occurrence of an element from a list (the slice
splice `append(songs[:i], songs[i+1:]...)` at the first matching index). -/
def listEraseFirst : List String → String → List String × Bool
  | [], _ => ([], false)
  | x :: xs, id =>
    if x = id then (xs, true)
    else
      let (xs', removed) := listEraseFirst xs id
      (x :: xs', removed)

/-- `RemoveSong` within one mood node: try each artist leaf in order,
stopping at the first removal (the `!removed` flag of the source DFS). -/
def removeFromArtists : List (String × ArtistNodeT) → String →
    List (String × ArtistNodeT) × Bool
  | [], _ => ([], false)
  | (name, a) :: rest, id =>
    let (songs', removed) := listEraseFirst a.songs id
    if removed then ((name, ⟨songs'⟩) :: rest, true)
    else
      let (rest', removed') := removeFromArtists rest id
      ((name, a) :: rest', removed')

def removeFromMoods : List (String × MoodNodeT) → String →
    List (String × MoodNodeT) × Bool
  | [], _ => ([], false)
  | (name, m) :: rest, id =>
    let (artists', removed) := removeFromArtists m.artists id
    if removed then ((name, ⟨artists'⟩) :: rest, true)
    else
      let (rest', removed') := removeFromMoods rest id
      ((name, m) :: rest', removed')

def removeFromSubgenres : List (String × SubgenreNodeT) → String →
    List (String × SubgenreNodeT) × Bool
  | [], _ => ([], false)
  | (name, s) :: rest, id =>
    let (moods', removed) := removeFromMoods s.moods id
    if removed then ((name, ⟨moods'⟩) :: rest, true)
    else
      let (rest', removed') := removeFromSubgenres rest id
      ((name, s) :: rest', removed')

def removeFromGenres : List (String × GenreNodeT) → String →
    List (String × GenreNodeT) × Bool
  | [], _ => ([], false)
  | (name, g) :: rest, id =>
    let (subs', removed) := removeFromSubgenres g.subgenres id
    if removed then ((name, ⟨subs'⟩) :: rest, true)
    else
      let (rest', removed') := removeFromGenres rest id
      ((name, g) :: rest', removed')

/-- `RemoveSong`: depth-first search for the song pointer, remove the
first occurrence found, decrement `TotalSongs`; empty ancestor nodes are
*not* pruned.  Returns `false` (an error) if the id is nowhere in the
tree. -/
def RemoveSong (pet : PlaylistExplorerTree) (id : String) :
    PlaylistExplorerTree × Bool :=
  let (genres', removed) := removeFromGenres pet.genres id
  if removed then
    ({ pet with genres := genres', totalSongs := pet.totalSongs - 1 }, true)
  else (pet, false)

end PlaylistExplorerTree

/-! ## `datastructures.PlaylistSorter` (sorting.go)

The three algorithms are index-mutating array programs over a copied
slice; mutation of `songs[...]` is explicit state passing of the list,
and an index subrange `[left..right]` is passed as the sublist it holds.
The comparator only reads (never mutates) the records, so the sorter
works on `Song` values.  `Duration`/`Rating`/`PlayCount` differences are
mathematical `Int` subtraction (Go's `int64` wraparound is unreachable
for the bounded field values the data model admits). -/

inductive SortCriteria where
  | SortByTitle
  | SortByArtist
  | SortByDurationAsc
  | SortByDurationDesc
  | SortByRecentlyAdded
  | SortByOldestAdded
  | SortByRating
  | SortByPlayCount
  deriving Repr, DecidableEq

/-- `PlaylistSorter.compare`: negative / zero / positive three-way
comparison for each criterion, with the source's tie-breaks. -/
def compareSongs (c : SortCriteria) (s1 s2 : Song) : Int :=
  match c with
  | .SortByTitle => strCompare (goToLower s1.title) (goToLower s2.title)
  | .SortByArtist =>
    let artistCmp := strCompare (goToLower s1.artist) (goToLower s2.artist)
    if artistCmp = 0 then strCompare (goToLower s1.title) (goToLower s2.title)
    else artistCmp
  | .SortByDurationAsc => s1.duration - s2.duration
  | .SortByDurationDesc => s2.duration - s1.duration
  | .SortByRecentlyAdded =>
    if s1.addedAt > s2.addedAt then -1 else if s1.addedAt < s2.addedAt then 1 else 0
  | .SortByOldestAdded =>
    if s1.addedAt < s2.addedAt then -1 else if s1.addedAt > s2.addedAt then 1 else 0
  | .SortByRating =>
    let ratingDiff := s2.rating - s1.rating
    if ratingDiff = 0 then strCompare (goToLower s1.title) (goToLower s2.title)
    else ratingDiff
  | .SortByPlayCount =>
    let playCountDiff := s2.playCount - s1.playCount
    if playCountDiff = 0 then strCompare (goToLower s1.title) (goToLower s2.title)
    else playCountDiff

/-- A song comparator (the sorter with its criterion fixed). -/
abbrev Cmp := Song → Song → Int

/-- `merge`: the two-pointer merge of the copied halves back into the
segment, preferring the left element on `compare ≤ 0` (the three copy
loops of the source). -/
def mergeLists (cmp : Cmp) : List Song → List Song → List Song
  | [], r => r
  | l, [] => l
  | a :: l, b :: r =>
    if cmp a b ≤ 0 then a :: mergeLists cmp l (b :: r)
    else b :: mergeLists cmp (a :: l) r
  termination_by l r => l.length + r.length

/-- `mergeSortHelper` on the segment `[left..right]`: split at
`mid = left + (right-left)/2` (the left half holds `(n-1)/2 + 1`
elements), sort both halves, merge. -/
def mergeSortSeg (cmp : Cmp) (l : List Song) : List Song :=
  if l.length ≤ 1 then l
  else
    let leftLen := (l.length - 1) / 2 + 1
    mergeLists cmp (mergeSortSeg cmp (l.take leftLen)) (mergeSortSeg cmp (l.drop leftLen))
  termination_by l.length
  decreasing_by
  · simp only [List.length_take]; omega
  · simp only [List.length_drop]; omega

/-- `MergeSort`: length ≤ 1 inputs are returned as-is, otherwise the copy
is sorted over its full range. -/
def MergeSort (cmp : Cmp) (songs : List Song) : List Song :=
  if songs.length ≤ 1 then songs else mergeSortSeg cmp songs

/-- `songs[i], songs[j] = songs[j], songs[i]`. -/
def swapIdx (a : List Song) (i j : Nat) : List Song :=
  (a.set i (a.getD j default)).set j (a.getD i default)

/-- The `partition` scan: `j` walks the segment left of the pivot; `i1`
is one past the last low element (`i + 1` for the source's `i`); `k`
counts the remaining iterations (`high - j`). -/
def lomutoLoop (cmp : Cmp) (pivot : Song) :
    Nat → List Song → Nat → Nat → List Song × Nat
  | 0, a, i1, _ => (a, i1)
  | k + 1, a, i1, j =>
    if cmp (a.getD j default) pivot ≤ 0 then
      lomutoLoop cmp pivot k (swapIdx a i1 j) (i1 + 1) (j + 1)
    else lomutoLoop cmp pivot k a i1 (j + 1)

/-- `partition` over a whole segment (`low = 0`, `high = n - 1`): pivot
is the last element; after the scan the pivot is swapped into place and
its index returned. -/
def partitionSeg (cmp : Cmp) (a : List Song) : List Song × Nat :=
  let n := a.length
  let pivot := a.getD (n - 1) default
  let (a', i1) := lomutoLoop cmp pivot (n - 1) a 0 0
  (swapIdx a' i1 (n - 1), i1)

/-- `quickSortHelper` on a segment, with a recursion-depth fuel: each
level recurses on strictly shorter segments (the pivot index is within
the segment), so `fuel = length` — what `QuickSort` passes — always
suffices; the theorems below only evaluate it with sufficient fuel. -/
def quickSortFuel (cmp : Cmp) : Nat → List Song → List Song
  | 0, a => a
  | fuel + 1, a =>
    if a.length ≤ 1 then a
    else
      let p := partitionSeg cmp a
      quickSortFuel cmp fuel (p.1.take p.2) ++
        p.1.getD p.2 default :: quickSortFuel cmp fuel (p.1.drop (p.2 + 1))

/-- `QuickSort`: length ≤ 1 inputs as-is, else Lomuto quicksort of the
copy over its full range. -/
def QuickSort (cmp : Cmp) (songs : List Song) : List Song :=
  if songs.length ≤ 1 then songs else quickSortFuel cmp songs.length songs

/-- `heapify` on the size-`n` prefix rooted at `i`: bubble the root down
below its larger child. -/
def heapify (cmp : Cmp) (a : List Song) (n i : Nat) : List Song :=
  let l1 :=
    if 2 * i + 1 < n ∧ cmp (a.getD (2 * i + 1) default) (a.getD i default) > 0
    then 2 * i + 1 else i
  let l2 :=
    if 2 * i + 2 < n ∧ cmp (a.getD (2 * i + 2) default) (a.getD l1 default) > 0
    then 2 * i + 2 else l1
  if l2 ≠ i then heapify cmp (swapIdx a i l2) n l2 else a
  termination_by n - i
  decreasing_by
    simp only [l2, l1] at *
    split_ifs at * <;> omega

/-- The heap-construction loop `for i := n/2 - 1; i >= 0; i--`: the
counter is `i + 1`. -/
def buildLoop (cmp : Cmp) (n : Nat) : Nat → List Song → List Song
  | 0, a => a
  | k + 1, a => buildLoop cmp n k (heapify cmp a n k)

/-- The extraction loop `for i := n - 1; i > 0; i--`: swap the root with
slot `i`, then re-heapify the `i`-prefix. -/
def extractLoop (cmp : Cmp) : Nat → List Song → List Song
  | 0, a => a
  | i + 1, a => extractLoop cmp i (heapify cmp (swapIdx a 0 (i + 1)) (i + 1) 0)

/-- `HeapSort`: length ≤ 1 inputs as-is, else build a max-heap on the
copy and repeatedly extract the maximum. -/
def HeapSort (cmp : Cmp) (songs : List Song) : List Song :=
  if songs.length ≤ 1 then songs
  else extractLoop cmp (songs.length - 1) (buildLoop cmp songs.length (songs.length / 2) songs)

/-- `IsStableSorted`: every adjacent pair respects the comparator (the
source's sortedness check, used as the sortedness observable). -/
def IsStableSorted (cmp : Cmp) : List Song → Bool
  | [] => true
  | [_] => true
  | a :: b :: rest => cmp a b ≤ 0 && IsStableSorted cmp (b :: rest)

/-! ## `services.PlaylistEngine` (playlist_engine.go)

The coordinator owns one instance of each structure plus the heap of
song records.  Song pointers are ids; every structure stores ids and the
operations read mutable fields through the heap. -/

inductive EngineError where
  | validationError   -- "title and artist are required" / invalid rating
  | duplicateError    -- "song already exists in playlist"
  | indexOutOfRange   -- "index out of bounds"
  | notFoundError     -- "song not found"
  deriving Repr, DecidableEq

structure Engine where
  currentPlaylist : DoublyLinkedList String
  playbackHistory : PlaybackHistoryStack String
  ratingTree : SongRatingBST
  songLookup : SongHashMap
  titleLookup : SongHashMap
  playlistTree : PlaylistExplorerTree
  playlistName : String
  totalPlayTime : Int
  store : Store
  deriving Repr, DecidableEq

namespace Engine

/-- `NewPlaylistEngine`. -/
def new (playlistName : String) : Engine :=
  { currentPlaylist := DoublyLinkedList.empty,
    playbackHistory := PlaybackHistoryStack.new String 100,
    ratingTree := SongRatingBST.new,
    songLookup := SongHashMap.new 64,
    titleLookup := SongHashMap.new 64,
    playlistTree := PlaylistExplorerTree.new,
    playlistName := playlistName,
    totalPlayTime := 0,
    store := [] }

/-- `generateSongID`: lowered, dash-joined title and artist plus the
current `UnixNano` timestamp (passed in explicitly). -/
def generateSongID (title artist : String) (now : Int) : String :=
  goReplaceSpaceDash (goToLower title) ++ "-" ++
    goReplaceSpaceDash (goToLower artist) ++ "-" ++ toString now

/-- Read `song.Duration` through a pointer. -/
def durationOf (store : Store) (id : String) : Int :=
  ((storeGet store id).getD default).duration

/-- `AddSong`: validate, generate the id, allocate the record, reject a
duplicate id, then propagate to playlist, both lookup maps, the explorer
tree and (only for a pre-rated record, which a fresh `NewSong` never is)
the rating tree, and accumulate the duration. -/
def AddSong (e : Engine) (title artist album genre subgenre mood : String)
    (duration bpm now : Int) : Engine × Option EngineError :=
  if goTrimSpace title = "" ∨ goTrimSpace artist = "" then
    (e, some .validationError)
  else
    let songID := generateSongID title artist now
    -- models.NewSong: fresh record, rating 0 (album and bpm are carried
    -- by the Go record but read by no modelled operation)
    let d : SongData := ⟨title, artist, genre, subgenre, mood, duration, 0⟩
    if e.songLookup.Contains songID then (e, some .duplicateError)
    else
      let store := storeSet e.store songID d
      let pl := e.currentPlaylist.AddSong songID
      let sl := e.songLookup.Put ⟨songID, title⟩
      let tl := e.titleLookup.PutByTitle ⟨songID, title⟩
      let pt := e.playlistTree.AddSong songID d
      let ins :=
        if storeRating store songID > 0 then
          e.ratingTree.InsertSong store songID (storeRating store songID)
        else (e.ratingTree, store)
      ({ e with currentPlaylist := pl, songLookup := sl, titleLookup := tl,
                playlistTree := pt, ratingTree := ins.1, store := ins.2,
                totalPlayTime := e.totalPlayTime + duration },
       none)

/-- `DeleteSong` (engine): remove from the playlist by index (the only
failure point), then from the id lookup — deliberately *not* from the
title lookup — then (if rated) from the rating tree and from the
explorer tree; subtract the duration.  Returns the removed pointer. -/
def DeleteSong (e : Engine) (index : Int) : Engine × Option String :=
  match e.currentPlaylist.DeleteSong index with
  | none => (e, none)
  | some (songID, pl) =>
    let sl := (e.songLookup.Delete songID).2
    -- Note: the title-lookup entry is not removed (source comment:
    -- multiple songs may share a title)
    let rt :=
      if storeRating e.store songID > 0 then
        (e.ratingTree.DeleteSong e.store songID).1
      else e.ratingTree
    let pt := (e.playlistTree.RemoveSong songID).1
    ({ e with currentPlaylist := pl, songLookup := sl, ratingTree := rt,
              playlistTree := pt,
              totalPlayTime := e.totalPlayTime - durationOf e.store songID },
     some songID)

/-- `RateSong`: validate the rating, look the pointer up by id, remove
the song from its old bucket if it was rated, set the new rating through
the pointer, insert into the new bucket, refresh both lookup maps. -/
def RateSong (e : Engine) (songID : String) (rating : Int) :
    Engine × Option EngineError :=
  if rating < 1 ∨ rating > 5 then (e, some .validationError)
  else
    match e.songLookup.Get songID with
    | none => (e, some .notFoundError)
    | some song =>
      let oldRating := storeRating e.store song.id
      let rt1 :=
        if oldRating > 0 then (e.ratingTree.DeleteSong e.store songID).1
        else e.ratingTree
      let store1 := storeSetRating e.store song.id rating
      let ins := rt1.InsertSong store1 song.id rating
      let sl := e.songLookup.UpdateSong song
      let tl := e.titleLookup.UpdateSong song
      ({ e with ratingTree := ins.1, store := ins.2,
                songLookup := sl, titleLookup := tl },
       none)

/-- `GetSongsByRating`. -/
def GetSongsByRating (e : Engine) (rating : Int) : List String :=
  e.ratingTree.SearchByRating rating

/-- `Song.IsSimilar` read through two pointers. -/
def sdIsSimilar (a b : SongData) : Bool :=
  a.genre = b.genre && a.mood = b.mood &&
    (a.duration - b.duration ≤ 30 && b.duration - a.duration ≤ 30)

/-- The first scan of `GetSmartRecommendations`: collect, in sequence
order and up to `count`, songs that are not recently played and are
similar to at least one recent song. -/
def similarLoop (store : Store) (recent : List String) (count : Int) :
    List String → List String → List String
  | [], acc => acc
  | id :: rest, acc =>
    if (acc.length : Int) ≥ count then acc
    else if recent.contains id then similarLoop store recent count rest acc
    else if recent.any (fun rid =>
        sdIsSimilar ((storeGet store id).getD default)
          ((storeGet store rid).getD default)) then
      similarLoop store recent count rest (acc ++ [id])
    else similarLoop store recent count rest acc

/-- The backfill scan: append any remaining non-recent, not yet selected
songs in sequence order until `count` is reached. -/
def backfillLoop (recent : List String) (count : Int) :
    List String → List String → List String
  | [], acc => acc
  | id :: rest, acc =>
    if (acc.length : Int) ≥ count then acc
    else if !recent.contains id && !acc.contains id then
      backfillLoop recent count rest (acc ++ [id])
    else backfillLoop recent count rest acc

/-- `GetSmartRecommendations`: `count ≤ 0` defaults to 10; with no play
history, the first `min(count, length)` playlist songs in sequence
order; otherwise the similarity scan over the last 20 history entries
followed by the backfill scan. -/
def GetSmartRecommendations (e : Engine) (count : Int) : List String :=
  let count := if count ≤ 0 then 10 else count
  let recentSongs := e.playbackHistory.GetRecentSongs 20
  if recentSongs.length = 0 then
    let allSongs := e.currentPlaylist.ToSlice
    let maxReturn := min count (allSongs.length : Int)
    allSongs.take maxReturn.toNat
  else
    let allSongs := e.currentPlaylist.ToSlice
    let recommendations := similarLoop e.store recentSongs count allSongs []
    if (recommendations.length : Int) < count then
      backfillLoop recentSongs count allSongs recommendations
    else recommendations

/-- Engine states reachable by any sequence of `AddSong` / `RateSong` /
`DeleteSong` calls (failed calls leave the state unchanged, so the
returned state is used either way). -/
inductive Reach : Engine → Prop
  | new (name : String) : Reach (new name)
  | addSong {e : Engine} (title artist album genre subgenre mood : String)
      (duration bpm now : Int) : Reach e →
      Reach (e.AddSong title artist album genre subgenre mood duration bpm now).1
  | rateSong {e : Engine} (songID : String) (rating : Int) : Reach e →
      Reach (e.RateSong songID rating).1
  | deleteSong {e : Engine} (index : Int) : Reach e →
      Reach (e.DeleteSong index).1

end Engine

/-! ## Well-formedness predicates used by the theorems

These hold of every structure the engine can actually build and are the
hypotheses under which the universally-quantified theorems run. -/

/-- Key sets at every level of the explorer tree are duplicate-free
(Go maps cannot hold a key twice). -/
def TreeWF (pet : PlaylistExplorerTree) : Prop :=
  (pet.genres.map Prod.fst).Nodup ∧
  (∀ p ∈ pet.genres, (p.2.subgenres.map Prod.fst).Nodup) ∧
  (∀ p ∈ pet.genres, ∀ q ∈ p.2.subgenres, (q.2.moods.map Prod.fst).Nodup) ∧
  (∀ p ∈ pet.genres, ∀ q ∈ p.2.subgenres, ∀ r ∈ q.2.moods,
    (r.2.artists.map Prod.fst).Nodup)

/-- Well-formedness of a hash map: positive capacity matching the bucket
slice, every entry chained in the bucket its key hashes to, globally
duplicate-free and non-empty keys. -/
def HMWf (m : SongHashMap) : Prop :=
  0 < m.capacity ∧
  m.buckets.length = m.capacity.toNat ∧
  (∀ i < m.buckets.length, ∀ e ∈ m.buckets.getD i [],
    SongHashMap.hashIdx e.key m.capacity = i) ∧
  (m.entries.map HashMapEntry.key).Nodup ∧
  (∀ e ∈ m.entries, e.key ≠ "")

/-- The by-id keying discipline of the engine's `songLookup` instance. -/
def ById (m : SongHashMap) : Prop :=
  ∀ e ∈ m.entries, e.key = e.value.id

/-! Abbreviations for the node updates `PlaylistExplorerTree.AddSong`
performs at each level (used to state its characterisation). -/

def updArtist (a0 : ArtistNodeT) (id : String) : ArtistNodeT :=
  ⟨a0.songs ++ [id]⟩

def updMood (m0 : MoodNodeT) (artist id : String) : MoodNodeT :=
  ⟨alistPut m0.artists artist (updArtist ((alistGet m0.artists artist).getD ⟨[]⟩) id)⟩

def updSubgenre (s0 : SubgenreNodeT) (mood artist id : String) : SubgenreNodeT :=
  ⟨alistPut s0.moods mood (updMood ((alistGet s0.moods mood).getD ⟨[]⟩) artist id)⟩

def updGenre (g0 : GenreNodeT) (subgenre mood artist id : String) : GenreNodeT :=
  ⟨alistPut g0.subgenres subgenre
    (updSubgenre ((alistGet g0.subgenres subgenre).getD ⟨[]⟩) mood artist id)⟩

/-! Abstractions of the rating BST used by the invariant theorems: the
in-order association list of (rating, bucket) pairs, its key list, and
the search-tree ordering property. -/

/-- In-order traversal of the tree as an association list. -/
def BSTNode.toAssoc : BSTNode → List (Int × List String)
  | .leaf => []
  | .node l r songs rt => BSTNode.toAssoc l ++ (r, songs) :: BSTNode.toAssoc rt

/-- The in-order key list. -/
def BSTNode.tkeys (t : BSTNode) : List Int := (BSTNode.toAssoc t).map Prod.fst

/-- The binary-search-tree ordering property. -/
inductive BSTNode.TSorted : BSTNode → Prop
  | leaf : BSTNode.TSorted .leaf
  | node {l rt : BSTNode} {r : Int} {songs : List String} :
      (∀ k ∈ BSTNode.tkeys l, k < r) → (∀ k ∈ BSTNode.tkeys rt, r < k) →
      BSTNode.TSorted l → BSTNode.TSorted rt →
      BSTNode.TSorted (.node l r songs rt)

/-- The engine invariant behind the rating-bucket claim: the by-id index
is well-formed and keyed by id, every indexed id dereferences on the
heap, heap ratings stay within 0–5, and the rating tree is a search tree
whose buckets hold exactly the indexed songs carrying the bucket's
rating, each at most once per bucket. -/
def EngineInv (e : Engine) : Prop :=
  HMWf e.songLookup ∧ ById e.songLookup ∧
  (∀ k, e.songLookup.Get k ≠ none → storeGet e.store k ≠ none) ∧
  (∀ k, 0 ≤ storeRating e.store k ∧ storeRating e.store k ≤ 5) ∧
  BSTNode.TSorted e.ratingTree.root ∧
  (∀ r b, BSTNode.searchNode e.ratingTree.root r = some b →
    (1 ≤ r ∧ r ≤ 5) ∧ b.Nodup ∧
    ∀ s ∈ b, storeRating e.store s = r ∧ e.songLookup.Get s ≠ none) ∧
  (∀ s, e.songLookup.Get s ≠ none → 0 < storeRating e.store s →
    ∃ b, BSTNode.searchNode e.ratingTree.root (storeRating e.store s) = some b ∧
      s ∈ b)

/-- Heap-shape predicate for the heapsort theorems: the max-heap
condition (child not after parent under the comparator) holds at every
parent index at or above `k`, within the length-`n` prefix. -/
def HeapAbove (cmp : Cmp) (a : List Song) (n k : Nat) : Prop :=
  ∀ j c, k ≤ j → (c = 2 * j + 1 ∨ c = 2 * j + 2) → c < n →
    cmp (a.getD c default) (a.getD j default) ≤ 0

/-! # Theorems -/

/-! ## C10: a failed `AddSong` leaves the whole engine state unchanged -/

/-- **C10**.  Whenever the engine's `AddSong` returns an error (empty or
whitespace-only title or artist, or a duplicate generated id already in
the by-id index), the entire engine state — ordered sequence, both
lookup indexes, rating tree, explorer tree, heap, running duration — is
exactly as before the call: both error exits precede every mutation. -/
theorem addSong_error_frame (e : Engine) (title artist album genre subgenre mood : String)
    (duration bpm now : Int) (err : EngineError)
    (h : (e.AddSong title artist album genre subgenre mood duration bpm now).2 = some err) :
    (e.AddSong title artist album genre subgenre mood duration bpm now).1 = e := by
  by_cases h1 : goTrimSpace title = "" ∨ goTrimSpace artist = ""
  · simp [Engine.AddSong, h1]
  · by_cases h2 : e.songLookup.Contains (Engine.generateSongID title artist now) = true
    · simp [Engine.AddSong, h1, h2]
    · exfalso
      simp [Engine.AddSong, h1, h2] at h

/-- Witness for C10: adding a song with a whitespace-only title fails
with a validation error and leaves a concrete engine untouched. -/
theorem addSong_error_frame_witness :
    ((Engine.new "p").AddSong "  " "a" "al" "g" "s" "m" 7 1 1).2 =
      some .validationError ∧
    ((Engine.new "p").AddSong "  " "a" "al" "g" "s" "m" 7 1 1).1 = Engine.new "p" :=
  ⟨by decide,
   addSong_error_frame (Engine.new "p") "  " "a" "al" "g" "s" "m" 7 1 1
     .validationError (by decide)⟩

/-! ## C7: `ReversePlaylist` is an involution -/

/-- **C7**.  Applying `reverse()` twice restores the original entity
order exactly, and a single `reverse()` is a no-op on sequences of 0 or
1 elements. -/
theorem reversePlaylist_involution (dll : DoublyLinkedList α) :
    dll.ReversePlaylist.ReversePlaylist = dll ∧
    (dll.items.length ≤ 1 → dll.ReversePlaylist = dll) := by
  unfold DoublyLinkedList.ReversePlaylist
  by_cases h : dll.items.length ≤ 1
  · simp [h]
  · simp [h, List.length_reverse, List.reverse_reverse]

/-- Witness for C7 at a concrete three-element sequence (and a concrete
singleton for the inner no-op hypothesis). -/
theorem reversePlaylist_involution_witness :
    (DoublyLinkedList.mk [1, 2, 3]).ReversePlaylist.ReversePlaylist =
      DoublyLinkedList.mk [1, 2, 3] ∧
    (DoublyLinkedList.mk [5]).ReversePlaylist = DoublyLinkedList.mk [5] :=
  ⟨(reversePlaylist_involution ⟨[1, 2, 3]⟩).1,
   (reversePlaylist_involution ⟨[5]⟩).2 (by decide)⟩

/-! ## C8: `GetSmartRecommendations` with no play history -/

/-- **C8**.  With an empty play history, `getSmartRecommendations(count)`
returns exactly the first `min(count, length)` entities of the ordered
sequence in sequence order; and for every engine state, a `count ≤ 0`
behaves as if `count` were 10. -/
theorem getSmartRecommendations_spec (e : Engine) :
    (e.playbackHistory.items = [] → ∀ count : Int,
      e.GetSmartRecommendations count =
        e.currentPlaylist.items.take
          (min (if count ≤ 0 then 10 else count)
            (e.currentPlaylist.items.length : Int)).toNat) ∧
    (∀ count : Int, count ≤ 0 →
      e.GetSmartRecommendations count = e.GetSmartRecommendations 10) := by
  constructor
  · intro hh count
    unfold Engine.GetSmartRecommendations
    simp [PlaybackHistoryStack.GetRecentSongs, hh, DoublyLinkedList.ToSlice]
  · intro count hc
    unfold Engine.GetSmartRecommendations
    simp [if_pos hc]

set_option maxRecDepth 8000 in
/-- Witness for C8: a concrete two-song engine with empty history. -/
theorem getSmartRecommendations_spec_witness :
    (((Engine.new "p").AddSong "A" "x" "" "g" "s" "m" 10 1 1).1.AddSong
        "B" "y" "" "g" "s" "m" 20 1 2).1.GetSmartRecommendations 1 =
      (((Engine.new "p").AddSong "A" "x" "" "g" "s" "m" 10 1 1).1.AddSong
        "B" "y" "" "g" "s" "m" 20 1 2).1.currentPlaylist.items.take
          (min (1 : Int)
            ((((Engine.new "p").AddSong "A" "x" "" "g" "s" "m" 10 1 1).1.AddSong
              "B" "y" "" "g" "s" "m" 20 1 2).1.currentPlaylist.items.length : Int)).toNat ∧
    (((Engine.new "p").AddSong "A" "x" "" "g" "s" "m" 10 1 1).1.AddSong
        "B" "y" "" "g" "s" "m" 20 1 2).1.GetSmartRecommendations (-3) =
      (((Engine.new "p").AddSong "A" "x" "" "g" "s" "m" 10 1 1).1.AddSong
        "B" "y" "" "g" "s" "m" 20 1 2).1.GetSmartRecommendations 10 := by
  refine ⟨?_, ?_⟩
  · have h := (getSmartRecommendations_spec
      (((Engine.new "p").AddSong "A" "x" "" "g" "s" "m" 10 1 1).1.AddSong
        "B" "y" "" "g" "s" "m" 20 1 2).1).1 (by decide) 1
    simpa using h
  · exact (getSmartRecommendations_spec
      (((Engine.new "p").AddSong "A" "x" "" "g" "s" "m" 10 1 1).1.AddSong
        "B" "y" "" "g" "s" "m" 20 1 2).1).2 (-3) (by decide)

/-! ## C6: recency-stack boundary behaviour -/

/-- The stack invariant carried through pushes: a positive capacity, a
`Size` field that counts the nodes, and a size bounded by `maxSize`. -/
theorem stackReach_invariant {α : Type} {s : PlaybackHistoryStack α}
    (h : PlaybackHistoryStack.Reach s) :
    1 ≤ s.maxSize ∧ s.size = s.items.length ∧ s.size ≤ s.maxSize := by
  induction h with
  | new maxSize =>
    refine ⟨?_, rfl, ?_⟩
    · show (1 : Int) ≤ if maxSize ≤ 0 then 50 else maxSize
      split <;> omega
    · show (0 : Int) ≤ if maxSize ≤ 0 then 50 else maxSize
      split <;> omega
  | push song _ ih =>
    obtain ⟨hm, hsz, hle⟩ := ih
    unfold PlaybackHistoryStack.Push
    dsimp only
    split_ifs with h1
    · unfold PlaybackHistoryStack.removeBottom PlaybackHistoryStack.Clear
      dsimp only
      split_ifs with h2
      · exact ⟨hm, rfl, by dsimp only; omega⟩
      · refine ⟨hm, ?_, ?_⟩
        · dsimp only
          rw [List.length_dropLast, List.length_cons]
          omega
        · dsimp only; omega
    · refine ⟨hm, ?_, ?_⟩
      · dsimp only
        rw [List.length_cons]
        omega
      · dsimp only; omega

/-- **C6**.  For every recency-stack state reachable by pushes:
`recentN(0)` is empty; `recentN(n)` for `n` greater than the history
size returns exactly the history (most-recent first, hence history-size
elements); pushing beyond `maxSize` evicts the bottom entry, so the size
never exceeds `maxSize`. -/
theorem recencyStack_bounds {α : Type} (s : PlaybackHistoryStack α)
    (h : PlaybackHistoryStack.Reach s) :
    s.GetRecentSongs 0 = [] ∧
    (∀ n : Int, (s.items.length : Int) < n → s.GetRecentSongs n = s.items) ∧
    s.size ≤ s.maxSize ∧ s.size = s.items.length := by
  obtain ⟨hm, hsz, hle⟩ := stackReach_invariant h
  refine ⟨by simp [PlaybackHistoryStack.GetRecentSongs], ?_, hle, hsz⟩
  intro n hn
  unfold PlaybackHistoryStack.GetRecentSongs
  have h0 : ¬n ≤ 0 := by omega
  have hlen : s.items.length ≤ n.toNat := by omega
  simp [h0, List.take_of_length_le hlen]

/-- Witness for C6: three pushes on a capacity-2 stack. -/
theorem recencyStack_bounds_witness :
    ((((PlaybackHistoryStack.new Nat 2).Push 1).Push 2).Push 3).GetRecentSongs 0 = [] ∧
    ((((PlaybackHistoryStack.new Nat 2).Push 1).Push 2).Push 3).GetRecentSongs 5 =
      ((((PlaybackHistoryStack.new Nat 2).Push 1).Push 2).Push 3).items ∧
    ((((PlaybackHistoryStack.new Nat 2).Push 1).Push 2).Push 3).size ≤
      ((((PlaybackHistoryStack.new Nat 2).Push 1).Push 2).Push 3).maxSize := by
  have hr : PlaybackHistoryStack.Reach ((((PlaybackHistoryStack.new Nat 2).Push 1).Push 2).Push 3) :=
    .push 3 (.push 2 (.push 1 (.new 2)))
  have h := recencyStack_bounds _ hr
  exact ⟨h.1, h.2.1 5 (by decide), h.2.2.1⟩

/-! ## C5: `MoveSong` semantics -/

theorem insertIdx_eq_take_cons_drop (l : List α) (n : Nat) (x : α) (h : n ≤ l.length) :
    l.insertIdx n x = l.take n ++ x :: l.drop n := by
  induction l generalizing n with
  | nil =>
    have hn : n = 0 := Nat.le_zero.mp h
    subst hn
    simp
  | cons a as ih =>
    cases n with
    | zero => simp
    | succ m =>
      simp only [List.insertIdx_succ_cons, List.take_succ_cons, List.drop_succ_cons,
        List.cons_append, List.cons.injEq, true_and]
      exact ih m (by simpa using h)

/-- In-range `getD` does not depend on the fallback. -/
theorem getD_irrel (l : List α) (n : Nat) (d d' : α) (h : n < l.length) :
    l.getD n d = l.getD n d' := by
  rw [List.getD_eq_getElem _ _ h, List.getD_eq_getElem _ _ h]

theorem getLastD_eq_getD_length_sub_one (a : α) (l : List α) (d d' : α) :
    (a :: l).getLastD d = (a :: l).getD ((a :: l).length - 1) d' := by
  have hlt : (a :: l).length - 1 < (a :: l).length := by simp
  rw [List.getD_eq_getElem _ _ hlt, ← List.getLast_eq_getElem (a :: l) (by simp)]
  rfl

theorem dropLast_eq_eraseIdx_length_sub_one (l : List α) :
    l.dropLast = l.eraseIdx (l.length - 1) := by
  induction l with
  | nil => simp
  | cons a as ih =>
    cases has : as with
    | nil => simp
    | cons b bs =>
      rw [← has]
      have h1 : (a :: as).length - 1 = as.length - 1 + 1 := by
        cases as <;> simp_all
      rw [h1]
      simp only [List.eraseIdx_cons_succ, List.dropLast_cons_of_ne_nil (has ▸ List.cons_ne_nil b bs)]
      rw [ih]

/-- `DeleteSong` on an in-range index removes exactly the element at that
index. -/
theorem deleteSong_in_range [Inhabited α] (dll : DoublyLinkedList α) (i : Int)
    (h0 : 0 ≤ i) (h1 : i < dll.Size) :
    dll.DeleteSong i =
      some (dll.items.getD i.toNat default, ⟨dll.items.eraseIdx i.toNat⟩) := by
  obtain ⟨items⟩ := dll
  unfold DoublyLinkedList.DeleteSong DoublyLinkedList.Size at *
  dsimp only at h1 ⊢
  rw [if_neg (by omega)]
  match items, h1 with
  | x :: xs, h1 =>
    dsimp only at h1 ⊢
    by_cases hlen : (x :: xs).length = 1
    · rw [if_pos hlen]
      have hxs : xs = [] := by
        cases xs <;> simp_all
      have hi : i = 0 := by simp [hxs] at h1; omega
      subst hi hxs
      simp
    · rw [if_neg hlen]
      by_cases hi0 : i = 0
      · subst hi0
        simp
      · rw [if_neg hi0]
        by_cases hitail : i = (x :: xs).length - 1
        · rw [if_pos hitail]
          have hnat : i.toNat = (x :: xs).length - 1 := by omega
          rw [getLastD_eq_getD_length_sub_one x xs x default,
            dropLast_eq_eraseIdx_length_sub_one, hnat]
        · rw [if_neg hitail]
          have hlt : i.toNat < (x :: xs).length := by
            simp only [List.length_cons] at h1 ⊢
            omega
          rw [getD_irrel _ _ x default hlt, List.eraseIdx_eq_take_drop_succ]
  | [], h1 =>
    simp only [List.length_nil, Int.ofNat_zero] at h1
    omega

/-- `AddSongAtIndex` on an in-range index inserts exactly there. -/
theorem addSongAtIndex_in_range (dll : DoublyLinkedList α) (x : α) (i : Int)
    (h0 : 0 ≤ i) (h1 : i ≤ dll.Size) :
    dll.AddSongAtIndex x i = some ⟨dll.items.insertIdx i.toNat x⟩ := by
  obtain ⟨items⟩ := dll
  unfold DoublyLinkedList.AddSongAtIndex DoublyLinkedList.Size
    DoublyLinkedList.AddSong DoublyLinkedList.AddSongToBeginning at *
  dsimp only at h1 ⊢
  rw [if_neg (by omega)]
  by_cases hiend : i = items.length
  · rw [if_pos hiend]
    have hnat : i.toNat = items.length := by omega
    rw [hnat, List.insertIdx_length_self]
  · rw [if_neg hiend]
    by_cases hi0 : i = 0
    · subst hi0
      simp
    · rw [if_neg hi0]
      rw [insertIdx_eq_take_cons_drop _ _ _ (by omega)]

/-- **C5**.  `moveTo(from, to)` fails with `IndexOutOfRange` exactly when
either index is outside `[0, length)`; it is a no-op when `from == to`;
otherwise it produces the sequence obtained by removing the entity at
`from` and re-inserting it at `to - 1` when `to > from` (removal shifts
later indices down) and at `to` when `to < from`. -/
theorem moveSong_spec [Inhabited α] (dll : DoublyLinkedList α) (fromIndex toIndex : Int) :
    (dll.MoveSong fromIndex toIndex = none ↔
      (fromIndex < 0 ∨ fromIndex ≥ dll.Size ∨ toIndex < 0 ∨ toIndex ≥ dll.Size)) ∧
    (0 ≤ fromIndex → fromIndex < dll.Size → fromIndex = toIndex →
      dll.MoveSong fromIndex toIndex = some dll) ∧
    (0 ≤ fromIndex → fromIndex < dll.Size → 0 ≤ toIndex → toIndex < dll.Size →
      fromIndex ≠ toIndex →
      dll.MoveSong fromIndex toIndex = some
        ⟨(dll.items.eraseIdx fromIndex.toNat).insertIdx
          (if toIndex > fromIndex then toIndex - 1 else toIndex).toNat
          (dll.items.getD fromIndex.toNat default)⟩) := by
  have hsz : dll.Size = (dll.items.length : Int) := rfl
  by_cases hb : fromIndex < 0 ∨ fromIndex ≥ dll.Size ∨ toIndex < 0 ∨ toIndex ≥ dll.Size
  · refine ⟨⟨fun _ => hb, fun _ => ?_⟩, ?_, ?_⟩
    · unfold DoublyLinkedList.MoveSong
      rw [if_pos hb]
    · intro hf0 hf1 hfe
      subst hfe
      omega
    · intro hf0 hf1 ht0 ht1 hne
      omega
  · push_neg at hb
    obtain ⟨hf0, hf1, ht0, ht1⟩ := hb
    by_cases heq : fromIndex = toIndex
    · have hmove : dll.MoveSong fromIndex toIndex = some dll := by
        unfold DoublyLinkedList.MoveSong
        rw [if_neg (by omega), if_pos heq]
      refine ⟨?_, fun _ _ _ => hmove, fun _ _ _ _ hne => absurd heq hne⟩
      rw [hmove]
      simp only [Option.some_ne_none, false_iff]
      omega
    · have hsz' : (DoublyLinkedList.mk (dll.items.eraseIdx fromIndex.toNat)).Size =
          (dll.items.length : Int) - 1 := by
        unfold DoublyLinkedList.Size
        dsimp only
        rw [List.length_eraseIdx_of_lt (by omega)]
        omega
      have hmove : dll.MoveSong fromIndex toIndex = some
          ⟨(dll.items.eraseIdx fromIndex.toNat).insertIdx
            (if toIndex > fromIndex then toIndex - 1 else toIndex).toNat
            (dll.items.getD fromIndex.toNat default)⟩ := by
        unfold DoublyLinkedList.MoveSong
        rw [if_neg (by omega), if_neg heq,
          deleteSong_in_range dll fromIndex (by omega) (by omega)]
        dsimp only
        by_cases hgt : toIndex > fromIndex
        · rw [if_pos hgt, addSongAtIndex_in_range _ _ _ (by omega) (by omega)]
        · rw [if_neg hgt, addSongAtIndex_in_range _ _ _ (by omega) (by omega)]
      refine ⟨?_, fun _ _ hfe => absurd hfe heq, fun _ _ _ _ _ => hmove⟩
      rw [hmove]
      simp only [Option.some_ne_none, false_iff]
      omega

/-- Witness for C5: moving index 1 to 3 in a five-element sequence, plus
the concrete no-op and failure cases. -/
theorem moveSong_spec_witness :
    (DoublyLinkedList.mk [10, 20, 30, 40, 50]).MoveSong 1 3 =
      some ⟨(([10, 20, 30, 40, 50] : List Nat).eraseIdx 1).insertIdx 2 20⟩ ∧
    (DoublyLinkedList.mk [10, 20, 30, 40, 50]).MoveSong 2 2 =
      some (DoublyLinkedList.mk [10, 20, 30, 40, 50]) ∧
    ((DoublyLinkedList.mk [10, 20, 30, 40, 50]).MoveSong 1 5 = none ↔
      ((1 : Int) < 0 ∨ (1 : Int) ≥ (DoublyLinkedList.mk [10, 20, 30, 40, 50]).Size ∨
        (5 : Int) < 0 ∨ (5 : Int) ≥ (DoublyLinkedList.mk ([10, 20, 30, 40, 50] : List Nat)).Size)) := by
  refine ⟨?_, ?_, ?_⟩
  · have h := (moveSong_spec (DoublyLinkedList.mk [10, 20, 30, 40, 50]) 1 3).2.2
      (by decide) (by decide) (by decide) (by decide) (by decide)
    simpa using h
  · exact (moveSong_spec (DoublyLinkedList.mk [10, 20, 30, 40, 50]) 2 2).2.1
      (by decide) (by decide) rfl
  · exact (moveSong_spec (DoublyLinkedList.mk [10, 20, 30, 40, 50]) 1 5).1

/-! ## C9: category-name normalisation collapses variants -/

theorem alistGet_put_self (l : List (String × α)) (k : String) (v : α) :
    alistGet (alistPut l k v) k = some v := by
  induction l with
  | nil => simp [alistGet, alistPut]
  | cons p rest ih =>
    obtain ⟨k', v'⟩ := p
    by_cases h : k' = k
    · subst h
      simp [alistGet, alistPut]
    · simp [alistGet, alistPut, h, List.find?]
      exact ih

theorem alistGet_mem {l : List (String × α)} {k : String} {v : α}
    (h : alistGet l k = some v) : (k, v) ∈ l := by
  unfold alistGet at h
  match hf : l.find? (fun p => p.1 = k) with
  | none => rw [hf] at h; simp at h
  | some p =>
    rw [hf] at h
    simp only [Option.some.injEq] at h
    have hm := List.mem_of_find?_eq_some hf
    have hk := List.find?_some hf
    simp only [decide_eq_true_eq] at hk
    obtain ⟨p1, p2⟩ := p
    simp only at hk h
    subst hk h
    exact hm

theorem count_map_fst_alistPut (l : List (String × α)) (k : String) (v : α) :
    ((alistPut l k v).map Prod.fst).count k = max (((l.map Prod.fst).count k)) 1 := by
  induction l with
  | nil => simp [alistPut]
  | cons p rest ih =>
    obtain ⟨k', v'⟩ := p
    by_cases h : k' = k
    · subst h
      rw [Nat.max_eq_left (by simp only [List.map_cons, List.count_cons_self]; omega)]
      simp only [alistPut, if_pos rfl, ite_true, List.map_cons, List.count_cons_self]
    · simp only [alistPut, if_neg h, List.map_cons]
      rw [List.count_cons_of_ne (by simpa using Ne.symm h),
        List.count_cons_of_ne (by simpa using Ne.symm h)]
      exact ih

/-- `AddSong` characterised as a four-level association-list update at
the normalised category names. -/
theorem addSong_genres_eq (pet : PlaylistExplorerTree) (id : String) (d : SongData) :
    (pet.AddSong id d).genres =
      alistPut pet.genres (PlaylistExplorerTree.normalizeCat d.genre "Unknown Genre")
        (updGenre
          ((alistGet pet.genres
            (PlaylistExplorerTree.normalizeCat d.genre "Unknown Genre")).getD ⟨[]⟩)
          (PlaylistExplorerTree.normalizeCat d.subGenre "Unknown Subgenre")
          (PlaylistExplorerTree.normalizeCat d.mood "Unknown Mood")
          (PlaylistExplorerTree.normalizeCat d.artist "Unknown Artist") id) :=
  rfl

/-- **C9**.  Two `AddSong` calls whose genre (and subgenre, mood, artist)
strings differ only by surrounding whitespace and/or letter case — i.e.
agree after trimming and lowering — produce a single node per level,
named with the normalised (trimmed, title-cased) form: each listing
afterwards contains exactly one entry for that name. -/
theorem tree_category_normalization (pet : PlaylistExplorerTree)
    (id1 id2 : String) (d1 d2 : SongData) (hwf : TreeWF pet)
    (hg : goToLower (goTrimSpace d1.genre) = goToLower (goTrimSpace d2.genre))
    (hs : goToLower (goTrimSpace d1.subGenre) = goToLower (goTrimSpace d2.subGenre))
    (hm : goToLower (goTrimSpace d1.mood) = goToLower (goTrimSpace d2.mood))
    (ha : goToLower (goTrimSpace d1.artist) = goToLower (goTrimSpace d2.artist)) :
    ((pet.AddSong id1 d1).AddSong id2 d2).GetGenres.count
        (PlaylistExplorerTree.normalizeCat d2.genre "Unknown Genre") = 1 ∧
    (((pet.AddSong id1 d1).AddSong id2 d2).GetSubgenres
        (PlaylistExplorerTree.normalizeCat d2.genre "Unknown Genre")).count
        (PlaylistExplorerTree.normalizeCat d2.subGenre "Unknown Subgenre") = 1 ∧
    (((pet.AddSong id1 d1).AddSong id2 d2).GetMoods
        (PlaylistExplorerTree.normalizeCat d2.genre "Unknown Genre")
        (PlaylistExplorerTree.normalizeCat d2.subGenre "Unknown Subgenre")).count
        (PlaylistExplorerTree.normalizeCat d2.mood "Unknown Mood") = 1 ∧
    (((pet.AddSong id1 d1).AddSong id2 d2).GetArtists
        (PlaylistExplorerTree.normalizeCat d2.genre "Unknown Genre")
        (PlaylistExplorerTree.normalizeCat d2.subGenre "Unknown Subgenre")
        (PlaylistExplorerTree.normalizeCat d2.mood "Unknown Mood")).count
        (PlaylistExplorerTree.normalizeCat d2.artist "Unknown Artist") = 1 := by
  obtain ⟨hwf1, hwf2, hwf3, hwf4⟩ := hwf
  set g := PlaylistExplorerTree.normalizeCat d2.genre "Unknown Genre" with hgd
  set s := PlaylistExplorerTree.normalizeCat d2.subGenre "Unknown Subgenre" with hsd
  set m := PlaylistExplorerTree.normalizeCat d2.mood "Unknown Mood" with hmd
  set a := PlaylistExplorerTree.normalizeCat d2.artist "Unknown Artist" with had
  have hg' : PlaylistExplorerTree.normalizeCat d1.genre "Unknown Genre" = g := by
    rw [hgd]; unfold PlaylistExplorerTree.normalizeCat; rw [hg]
  have hs' : PlaylistExplorerTree.normalizeCat d1.subGenre "Unknown Subgenre" = s := by
    rw [hsd]; unfold PlaylistExplorerTree.normalizeCat; rw [hs]
  have hm' : PlaylistExplorerTree.normalizeCat d1.mood "Unknown Mood" = m := by
    rw [hmd]; unfold PlaylistExplorerTree.normalizeCat; rw [hm]
  have ha' : PlaylistExplorerTree.normalizeCat d1.artist "Unknown Artist" = a := by
    rw [had]; unfold PlaylistExplorerTree.normalizeCat; rw [ha]
  -- the pre-existing nodes along the path (empty fallbacks if absent)
  set g0 : GenreNodeT := (alistGet pet.genres g).getD ⟨[]⟩ with hg0
  set s0 : SubgenreNodeT := (alistGet g0.subgenres s).getD ⟨[]⟩ with hs0
  set m0 : MoodNodeT := (alistGet s0.moods m).getD ⟨[]⟩ with hm0
  -- the nodes after the first and after the second insertion
  set G1 : GenreNodeT := updGenre g0 s m a id1 with hG1
  set G2 : GenreNodeT := updGenre G1 s m a id2 with hG2
  have E1 : (pet.AddSong id1 d1).genres = alistPut pet.genres g G1 := by
    have h := addSong_genres_eq pet id1 d1
    rw [hg', hs', hm', ha'] at h
    exact h
  have hget1 : alistGet (pet.AddSong id1 d1).genres g = some G1 := by
    rw [E1]; exact alistGet_put_self _ _ _
  have E2 : ((pet.AddSong id1 d1).AddSong id2 d2).genres =
      alistPut (pet.AddSong id1 d1).genres g G2 := by
    have h := addSong_genres_eq (pet.AddSong id1 d1) id2 d2
    rw [hget1] at h
    simpa using h
  have hget2 : alistGet ((pet.AddSong id1 d1).AddSong id2 d2).genres g = some G2 := by
    rw [E2]; exact alistGet_put_self _ _ _
  -- counting bounds coming from well-formedness of the original tree
  have hcg : (pet.genres.map Prod.fst).count g ≤ 1 :=
    List.nodup_iff_count_le_one.mp hwf1 g
  have hcs : (g0.subgenres.map Prod.fst).count s ≤ 1 := by
    rw [hg0]
    rcases hga : alistGet pet.genres g with - | gv
    · simp [alistGet]
    · exact List.nodup_iff_count_le_one.mp (hwf2 (g, gv) (alistGet_mem hga)) s
  have hcm : (s0.moods.map Prod.fst).count m ≤ 1 := by
    rw [hs0, hg0]
    rcases hga : alistGet pet.genres g with - | gv
    · simp [alistGet]
    · simp only [Option.getD_some]
      rcases hsa : alistGet gv.subgenres s with - | sv
      · simp [alistGet]
      · simp only [Option.getD_some]
        exact List.nodup_iff_count_le_one.mp
          (hwf3 (g, gv) (alistGet_mem hga) (s, sv) (alistGet_mem hsa)) m
  have hca : (m0.artists.map Prod.fst).count a ≤ 1 := by
    rw [hm0, hs0, hg0]
    rcases hga : alistGet pet.genres g with - | gv
    · simp [alistGet]
    · simp only [Option.getD_some]
      rcases hsa : alistGet gv.subgenres s with - | sv
      · simp [alistGet]
      · simp only [Option.getD_some]
        rcases hma : alistGet sv.moods m with - | mv
        · simp [alistGet]
        · simp only [Option.getD_some]
          exact List.nodup_iff_count_le_one.mp
            (hwf4 (g, gv) (alistGet_mem hga) (s, sv) (alistGet_mem hsa)
              (m, mv) (alistGet_mem hma)) a
  -- the structure of the updated nodes
  have hG1sub : G1.subgenres = alistPut g0.subgenres s (updSubgenre s0 m a id1) := rfl
  have hG2sub : G2.subgenres =
      alistPut G1.subgenres s (updSubgenre ((alistGet G1.subgenres s).getD ⟨[]⟩) m a id2) := rfl
  have hgetS1 : alistGet G1.subgenres s = some (updSubgenre s0 m a id1) := by
    rw [hG1sub]; exact alistGet_put_self _ _ _
  have hgetS2 : alistGet G2.subgenres s = some (updSubgenre (updSubgenre s0 m a id1) m a id2) := by
    rw [hG2sub, hgetS1]
    exact alistGet_put_self _ _ _
  have hS1moods : (updSubgenre s0 m a id1).moods = alistPut s0.moods m (updMood m0 a id1) := rfl
  have hS2moods : (updSubgenre (updSubgenre s0 m a id1) m a id2).moods =
      alistPut (updSubgenre s0 m a id1).moods m
        (updMood ((alistGet (updSubgenre s0 m a id1).moods m).getD ⟨[]⟩) a id2) := rfl
  have hgetM1 : alistGet (updSubgenre s0 m a id1).moods m = some (updMood m0 a id1) := by
    rw [hS1moods]; exact alistGet_put_self _ _ _
  have hgetM2 : alistGet (updSubgenre (updSubgenre s0 m a id1) m a id2).moods m =
      some (updMood (updMood m0 a id1) a id2) := by
    rw [hS2moods, hgetM1]
    exact alistGet_put_self _ _ _
  have hM1art : (updMood m0 a id1).artists =
      alistPut m0.artists a (updArtist ((alistGet m0.artists a).getD ⟨[]⟩) id1) := rfl
  have hM2art : (updMood (updMood m0 a id1) a id2).artists =
      alistPut (updMood m0 a id1).artists a
        (updArtist ((alistGet (updMood m0 a id1).artists a).getD ⟨[]⟩) id2) := rfl
  refine ⟨?_, ?_, ?_, ?_⟩
  · show (((pet.AddSong id1 d1).AddSong id2 d2).genres.map Prod.fst).count g = 1
    rw [E2, count_map_fst_alistPut, E1, count_map_fst_alistPut]
    omega
  · unfold PlaylistExplorerTree.GetSubgenres
    simp only [hget2]
    rw [hG2sub, count_map_fst_alistPut, hG1sub, count_map_fst_alistPut]
    omega
  · unfold PlaylistExplorerTree.GetMoods
    simp only [hget2, hgetS2]
    rw [hS2moods, count_map_fst_alistPut, hS1moods, count_map_fst_alistPut]
    omega
  · unfold PlaylistExplorerTree.GetArtists
    simp only [hget2, hgetS2, hgetM2]
    rw [hM2art, count_map_fst_alistPut, hM1art, count_map_fst_alistPut]
    omega

/-- Witness for C9, the spec's scenario: genres `"rock "` and `"Rock"`
collapse to the single listing entry `"Rock"` (with matching subgenre,
mood and artist variants). -/
theorem tree_category_normalization_witness :
    ((PlaylistExplorerTree.new.AddSong "i1"
        ⟨"T1", "artist one", "rock ", "alt ", "HAPPY", 100, 0⟩).AddSong "i2"
        ⟨"T2", "Artist One", "Rock", "Alt", "happy ", 120, 0⟩).GetGenres.count "Rock" = 1 := by
  have h := (tree_category_normalization PlaylistExplorerTree.new "i1" "i2"
    ⟨"T1", "artist one", "rock ", "alt ", "HAPPY", 100, 0⟩
    ⟨"T2", "Artist One", "Rock", "Alt", "happy ", 120, 0⟩
    (by refine ⟨by decide, ?_, ?_, ?_⟩ <;>
        · intro p hp
          simp [PlaylistExplorerTree.new] at hp)
    (by decide) (by decide) (by decide) (by decide)).1
  have hnorm : PlaylistExplorerTree.normalizeCat "Rock" "Unknown Genre" = "Rock" := by decide
  rw [hnorm] at h
  exact h

/-! ## Hash-map lemmas (towards C3 and C4)

The chain operations, the bucket-index bound, and the behaviour of
`Get` under each mutating operation. -/

namespace SongHashMap

theorem chainGet_chainPut_self (b : List HashMapEntry) (k : String) (v : SongRef) :
    chainGet (chainPut b k v).1 k = some v := by
  induction b with
  | nil => simp [chainPut, chainGet]
  | cons e rest ih =>
    by_cases h : e.key = k
    · simp [chainPut, chainGet, h]
    · simp only [chainPut, if_neg h]
      simpa [chainGet, h] using ih

theorem chainGet_chainPut_other (b : List HashMapEntry) (k k' : String) (v : SongRef)
    (h : k' ≠ k) : chainGet (chainPut b k v).1 k' = chainGet b k' := by
  induction b with
  | nil => simp [chainPut, chainGet, Ne.symm h]
  | cons e rest ih =>
    by_cases he : e.key = k
    · have hk' : ¬e.key = k' := fun hk => h (hk ▸ he)
      simp only [chainPut, if_pos he]
      simp [chainGet, hk']
    · simp only [chainPut, if_neg he]
      by_cases hk : e.key = k'
      · simp [chainGet, hk]
      · simpa [chainGet, hk] using ih

theorem chainPut_mem {b : List HashMapEntry} {k : String} {v : SongRef}
    {e : HashMapEntry} (h : e ∈ (chainPut b k v).1) :
    e ∈ b ∨ e = ⟨k, v⟩ := by
  induction b with
  | nil =>
    simp [chainPut] at h
    subst h
    exact Or.inr rfl
  | cons e' rest ih =>
    by_cases he : e'.key = k
    · simp only [chainPut, if_pos he] at h
      rcases List.mem_cons.mp h with h1 | h1
      · subst h1; exact Or.inr (by rw [he])
      · exact Or.inl (List.mem_cons_of_mem _ h1)
    · simp only [chainPut, if_neg he] at h
      rcases List.mem_cons.mp h with h1 | h1
      · subst h1; exact Or.inl (List.mem_cons_self e rest)
      · rcases ih h1 with h2 | h2
        · exact Or.inl (List.mem_cons_of_mem _ h2)
        · exact Or.inr h2

theorem chainPut_keys_mem (b : List HashMapEntry) (k : String) (v : SongRef)
    (h : k ∈ b.map HashMapEntry.key) :
    ((chainPut b k v).1.map HashMapEntry.key) = b.map HashMapEntry.key := by
  induction b with
  | nil => simp at h
  | cons e rest ih =>
    by_cases he : e.key = k
    · simp [chainPut, he]
    · simp only [List.map_cons, List.mem_cons] at h
      rcases h with h | h
    <;> first
      | exact absurd h.symm he
      | simp only [chainPut, if_neg he, List.map_cons, ih h]

theorem chainPut_keys_not_mem (b : List HashMapEntry) (k : String) (v : SongRef)
    (h : k ∉ b.map HashMapEntry.key) :
    ((chainPut b k v).1.map HashMapEntry.key) = b.map HashMapEntry.key ++ [k] := by
  induction b with
  | nil => simp [chainPut]
  | cons e rest ih =>
    simp only [List.map_cons, List.mem_cons] at h
    push_neg at h
    simp only [chainPut, if_neg (fun he : e.key = k => h.1 he.symm), List.map_cons,
      ih h.2, List.cons_append]

theorem chainGet_some_mem {b : List HashMapEntry} {k : String} {v : SongRef}
    (h : chainGet b k = some v) : (⟨k, v⟩ : HashMapEntry) ∈ b := by
  induction b with
  | nil => simp [chainGet] at h
  | cons e rest ih =>
    by_cases he : e.key = k
    · simp only [chainGet, if_pos he, Option.some.injEq] at h
      have : e = ⟨k, v⟩ := by
        obtain ⟨ek, ev⟩ := e
        simp only at he h
        simp [he, h]
      exact this ▸ List.mem_cons_self e rest
    · simp only [chainGet, if_neg he] at h
      exact List.mem_cons_of_mem _ (ih h)

theorem chainGet_none_of_not_mem {b : List HashMapEntry} {k : String}
    (h : k ∉ b.map HashMapEntry.key) : chainGet b k = none := by
  induction b with
  | nil => simp [chainGet]
  | cons e rest ih =>
    simp only [List.map_cons, List.mem_cons] at h
    push_neg at h
    simp only [chainGet, if_neg (fun he : e.key = k => h.1 he.symm)]
    exact ih h.2

theorem chainGet_none_not_mem {b : List HashMapEntry} {k : String}
    (h : chainGet b k = none) : k ∉ b.map HashMapEntry.key := by
  induction b with
  | nil => simp
  | cons e rest ih =>
    by_cases he : e.key = k
    · simp [chainGet, he] at h
    · simp only [chainGet, if_neg he] at h
      simp only [List.map_cons, List.mem_cons]
      push_neg
      exact ⟨fun hc => he hc.symm, ih h⟩

theorem chainPut_snd_not_mem (b : List HashMapEntry) (k : String) (v : SongRef)
    (h : k ∉ b.map HashMapEntry.key) : (chainPut b k v).2 = true := by
  induction b with
  | nil => simp [chainPut]
  | cons e rest ih =>
    simp only [List.map_cons, List.mem_cons] at h
    push_neg at h
    simp only [chainPut, if_neg (fun he : e.key = k => h.1 he.symm)]
    exact ih h.2

theorem chainDelete_none_iff (b : List HashMapEntry) (k : String) :
    chainDelete b k = none ↔ chainGet b k = none := by
  induction b with
  | nil => simp [chainDelete, chainGet]
  | cons e rest ih =>
    by_cases he : e.key = k
    · simp [chainDelete, chainGet, he]
    · simp only [chainDelete, chainGet, if_neg he]
      rw [← ih]
      cases chainDelete rest k <;> simp

theorem chainDelete_some {b : List HashMapEntry} {k : String} {v : SongRef}
    {b' : List HashMapEntry} (hnd : (b.map HashMapEntry.key).Nodup)
    (h : chainDelete b k = some (v, b')) :
    chainGet b' k = none := by
  induction b generalizing b' with
  | nil => simp [chainDelete] at h
  | cons e rest ih =>
    simp only [List.map_cons, List.nodup_cons] at hnd
    by_cases he : e.key = k
    · simp only [chainDelete, if_pos he] at h
      obtain ⟨-, hb⟩ := Prod.mk.injEq .. ▸ (Option.some.injEq ..).mp h
      subst hb
      exact chainGet_none_of_not_mem (he ▸ hnd.1)
    · simp only [chainDelete, if_neg he] at h
      match hrest : chainDelete rest k with
      | none => rw [hrest] at h; simp at h
      | some (v2, rest') =>
        rw [hrest] at h
        simp only [Option.some.injEq, Prod.mk.injEq] at h
        obtain ⟨hv, hb⟩ := h
        subst hb
        simp only [chainGet, if_neg he]
        exact ih hnd.2 (hv ▸ hrest)

/-- The bucket index is always within range for a positive capacity. -/
theorem hashIdx_lt (k : String) (cap : Int) (h : 0 < cap) :
    hashIdx k cap < cap.toNat := by
  unfold hashIdx
  rcases le_or_lt 0 ((hashRaw k).tmod cap) with ht | ht
  · have hlt : (hashRaw k).tmod cap < cap := Int.tmod_lt_of_pos _ h
    omega
  · have : ((hashRaw k).tmod cap).toNat = 0 := by omega
    omega

theorem getD_set_self (L : List β) (i : Nat) (b d : β) (h : i < L.length) :
    (L.set i b).getD i d = b := by
  rw [List.getD_eq_getElem _ _ (by simpa using h)]
  simp [List.getElem_set_self]

theorem getD_set_other (L : List β) (i j : Nat) (b d : β) (h : i ≠ j) :
    (L.set i b).getD j d = L.getD j d := by
  simp [List.getD_eq_getElem?_getD, List.getElem?_set_ne h]

theorem flatten_set (L : List (List β)) (i : Nat) (b : List β) (h : i < L.length) :
    (L.set i b).flatten = (L.take i).flatten ++ b ++ (L.drop (i + 1)).flatten := by
  rw [List.set_eq_take_append_cons_drop]
  simp [h, List.flatten_append]

theorem flatten_parts (L : List (List β)) (i : Nat) (h : i < L.length) :
    L.flatten = (L.take i).flatten ++ L.getD i [] ++ (L.drop (i + 1)).flatten := by
  conv_lhs => rw [← List.take_append_drop i L]
  rw [List.flatten_append, List.drop_eq_getElem_cons h, List.flatten_cons,
    List.getD_eq_getElem _ _ h, List.append_assoc]

theorem putNR_capacity (m : SongHashMap) (s : SongRef) :
    (m.putNR s).capacity = m.capacity := by
  unfold putNR
  split <;> rfl

theorem putNR_length (m : SongHashMap) (s : SongRef) :
    (m.putNR s).buckets.length = m.buckets.length := by
  unfold putNR
  split
  · rfl
  · simp

theorem get_putNR_self (m : SongHashMap) (s : SongRef)
    (hcap : 0 < m.capacity) (hlen : m.buckets.length = m.capacity.toNat)
    (hid : s.id ≠ "") : (m.putNR s).Get s.id = some s := by
  unfold putNR Get
  rw [if_neg hid]
  dsimp only
  rw [if_neg hid]
  rw [getD_set_self _ _ _ _ (by rw [hlen]; exact hashIdx_lt s.id m.capacity hcap)]
  exact chainGet_chainPut_self _ _ _

theorem get_putNR_other (m : SongHashMap) (s : SongRef) (k : String)
    (hcap : 0 < m.capacity) (hlen : m.buckets.length = m.capacity.toNat)
    (hk : k ≠ s.id) : (m.putNR s).Get k = m.Get k := by
  unfold putNR Get
  by_cases hid : s.id = ""
  · rw [if_pos hid]
  · rw [if_neg hid]
    dsimp only
    by_cases hke : k = ""
    · rw [if_pos hke, if_pos hke]
    · rw [if_neg hke, if_neg hke]
      by_cases hsame : hashIdx k m.capacity = hashIdx s.id m.capacity
      · rw [hsame,
          getD_set_self _ _ _ _ (by rw [hlen]; exact hashIdx_lt s.id m.capacity hcap)]
        exact chainGet_chainPut_other _ _ _ _ hk
      · rw [getD_set_other _ _ _ _ _ (fun hc => hsame hc.symm)]

theorem getD_replicate (n i : Nat) :
    (List.replicate n ([] : List β)).getD i [] = [] := by
  rcases lt_or_le i n with h | h
  · rw [List.getD_eq_getElem _ _ (by simpa using h)]
    simp
  · rw [List.getD_eq_default _ _ (by simpa using h)]

/-- Every entry sits in the bucket its key hashes to (placement made
usable). -/
theorem mem_entries_bucket {m : SongHashMap}
    (hlen : m.buckets.length = m.capacity.toNat)
    (hplace : ∀ i < m.buckets.length, ∀ e ∈ m.buckets.getD i [],
      hashIdx e.key m.capacity = i)
    {e : HashMapEntry} (he : e ∈ m.entries) :
    e ∈ m.buckets.getD (hashIdx e.key m.capacity) [] := by
  obtain ⟨l, hl, hel⟩ := List.mem_flatten.mp he
  obtain ⟨j, hj, hlj⟩ := List.mem_iff_getElem.mp hl
  have hgetD : m.buckets.getD j [] = l := by
    rw [List.getD_eq_getElem _ _ hj, hlj]
  have := hplace j hj e (by rw [hgetD]; exact hel)
  rw [this, hgetD]
  exact hel

theorem take_flatten_subset (L : List (List β)) (i : Nat) :
    (L.take i).flatten ⊆ L.flatten := by
  intro x hx
  obtain ⟨l, hl, hxl⟩ := List.mem_flatten.mp hx
  exact List.mem_flatten.mpr ⟨l, List.mem_of_mem_take hl, hxl⟩

theorem drop_flatten_subset (L : List (List β)) (i : Nat) :
    (L.drop i).flatten ⊆ L.flatten := by
  intro x hx
  obtain ⟨l, hl, hxl⟩ := List.mem_flatten.mp hx
  exact List.mem_flatten.mpr ⟨l, List.mem_of_mem_drop hl, hxl⟩

/-- Entries of `putNR` are old entries or the freshly keyed one. -/
theorem entries_putNR_mem {m : SongHashMap} {s : SongRef}
    (hcap : 0 < m.capacity) (hlen : m.buckets.length = m.capacity.toNat)
    {e : HashMapEntry} (he : e ∈ (m.putNR s).entries) :
    e ∈ m.entries ∨ (s.id ≠ "" ∧ e = ⟨s.id, s⟩) := by
  unfold putNR at he
  by_cases hid : s.id = ""
  · rw [if_pos hid] at he
    exact Or.inl he
  · rw [if_neg hid] at he
    dsimp only at he
    unfold entries at he ⊢
    rw [flatten_set _ _ _ (by rw [hlen]; exact hashIdx_lt s.id m.capacity hcap)] at he
    have hparts := flatten_parts m.buckets (hashIdx s.id m.capacity)
      (by rw [hlen]; exact hashIdx_lt s.id m.capacity hcap)
    rcases List.mem_append.mp he with he1 | he1
    · rcases List.mem_append.mp he1 with he2 | he2
      · exact Or.inl (take_flatten_subset _ _ he2)
      · rcases chainPut_mem he2 with he3 | he3
        · refine Or.inl ?_
          rw [hparts]
          exact List.mem_append.mpr (Or.inl (List.mem_append.mpr (Or.inr he3)))
        · exact Or.inr ⟨hid, he3⟩
    · exact Or.inl (drop_flatten_subset _ _ he1)

/-- `putNR` preserves well-formedness. -/
theorem wf_putNR (m : SongHashMap) (s : SongRef) (hwf : HMWf m) :
    HMWf (m.putNR s) := by
  obtain ⟨hcap, hlen, hplace, hnd, hne⟩ := hwf
  by_cases hid : s.id = ""
  · unfold putNR
    rw [if_pos hid]
    exact ⟨hcap, hlen, hplace, hnd, hne⟩
  · have hidx := hashIdx_lt s.id m.capacity hcap
    have hidxlen : hashIdx s.id m.capacity < m.buckets.length := by rw [hlen]; exact hidx
    have hparts := flatten_parts m.buckets (hashIdx s.id m.capacity) hidxlen
    refine ⟨by rw [putNR_capacity]; exact hcap,
      by rw [putNR_length, putNR_capacity]; exact hlen, ?_, ?_, ?_⟩
    · -- placement
      intro i hi e he
      rw [putNR_capacity]
      unfold putNR at hi he
      rw [if_neg hid] at hi he
      dsimp only at hi he
      rw [List.length_set] at hi
      by_cases hsame : i = hashIdx s.id m.capacity
      · subst hsame
        rw [getD_set_self _ _ _ _ hidxlen] at he
        rcases chainPut_mem he with h1 | h1
        · exact hplace _ hidxlen e h1
        · rw [h1]
      · rw [getD_set_other _ _ _ _ _ (fun hc => hsame hc.symm)] at he
        exact hplace i hi e he
    · -- key multiset stays duplicate-free
      unfold putNR entries
      rw [if_neg hid]
      dsimp only
      rw [flatten_set _ _ _ hidxlen]
      by_cases hmem : s.id ∈ (m.buckets.getD (hashIdx s.id m.capacity) []).map HashMapEntry.key
      · rw [List.map_append, List.map_append,
          chainPut_keys_mem _ _ _ hmem, ← List.map_append, ← List.map_append, ← hparts]
        exact hnd
      · rw [List.map_append, List.map_append, chainPut_keys_not_mem _ _ _ hmem]
        have hold : (m.entries.map HashMapEntry.key) =
            ((m.buckets.take (hashIdx s.id m.capacity)).flatten.map HashMapEntry.key ++
              (m.buckets.getD (hashIdx s.id m.capacity) []).map HashMapEntry.key ++
              (m.buckets.drop (hashIdx s.id m.capacity + 1)).flatten.map HashMapEntry.key) := by
          unfold entries
          rw [hparts, List.map_append, List.map_append]
        -- s.id occurs in no bucket at all, by placement
        have hknotold : s.id ∉ m.entries.map HashMapEntry.key := by
          intro hc
          obtain ⟨e, hmem', hkey⟩ := List.mem_map.mp hc
          have := mem_entries_bucket hlen hplace hmem'
          rw [hkey] at this
          exact hmem (List.mem_map.mpr ⟨e, this, hkey⟩)
        -- the new key list is a permutation of s.id consed on the old one
        have hperm : ((m.buckets.take (hashIdx s.id m.capacity)).flatten.map HashMapEntry.key ++
              ((m.buckets.getD (hashIdx s.id m.capacity) []).map HashMapEntry.key ++ [s.id]) ++
              (m.buckets.drop (hashIdx s.id m.capacity + 1)).flatten.map HashMapEntry.key).Perm
            (s.id :: m.entries.map HashMapEntry.key) := by
          rw [hold, List.append_assoc]
          refine List.Perm.trans ?_ List.perm_middle
          rw [List.append_assoc]
          simp only [List.singleton_append, ← List.append_assoc]
          exact List.Perm.refl _
        exact hperm.nodup_iff.mpr (List.nodup_cons.mpr ⟨hknotold, hnd⟩)
    · -- keys stay non-empty
      intro e he
      rcases entries_putNR_mem hcap hlen he with h1 | ⟨h1, h2⟩
      · exact hne e h1
      · rw [h2]; exact h1

/-- `putNR` preserves the by-id keying discipline. -/
theorem byid_putNR (m : SongHashMap) (s : SongRef) (hwf : HMWf m) (hid : ById m) :
    ById (m.putNR s) := by
  obtain ⟨hcap, hlen, -, -, -⟩ := hwf
  intro e he
  rcases entries_putNR_mem hcap hlen he with h1 | ⟨-, h2⟩
  · exact hid e h1
  · rw [h2]

/-! The re-insertion fold of `resize`. -/

theorem fold_putNR_capacity (es : List HashMapEntry) (b : SongHashMap) :
    (es.foldl (fun m e => m.putNR e.value) b).capacity = b.capacity := by
  induction es generalizing b with
  | nil => rfl
  | cons e rest ih => rw [List.foldl_cons, ih, putNR_capacity]

theorem fold_putNR_length (es : List HashMapEntry) (b : SongHashMap) :
    (es.foldl (fun m e => m.putNR e.value) b).buckets.length = b.buckets.length := by
  induction es generalizing b with
  | nil => rfl
  | cons e rest ih => rw [List.foldl_cons, ih, putNR_length]

theorem get_fold_putNR_not_mem (es : List HashMapEntry) (b : SongHashMap) (k : String)
    (hcap : 0 < b.capacity) (hlen : b.buckets.length = b.capacity.toNat)
    (h : ∀ e ∈ es, e.value.id ≠ k) :
    (es.foldl (fun m e => m.putNR e.value) b).Get k = b.Get k := by
  induction es generalizing b with
  | nil => rfl
  | cons e rest ih =>
    rw [List.foldl_cons,
      ih _ (by rw [putNR_capacity]; exact hcap)
        (by rw [putNR_length, putNR_capacity]; exact hlen)
        (fun e' he' => h e' (List.mem_cons_of_mem _ he')),
      get_putNR_other _ _ _ hcap hlen (fun hc => h e (List.mem_cons_self e rest) hc.symm)]

theorem get_fold_putNR_mem (es : List HashMapEntry) (b : SongHashMap)
    (e0 : HashMapEntry)
    (hcap : 0 < b.capacity) (hlen : b.buckets.length = b.capacity.toNat)
    (hnd : (es.map (fun e => e.value.id)).Nodup)
    (hm : e0 ∈ es) (hne : e0.value.id ≠ "") :
    (es.foldl (fun m e => m.putNR e.value) b).Get e0.value.id = some e0.value := by
  induction es generalizing b with
  | nil => simp at hm
  | cons e rest ih =>
    simp only [List.map_cons, List.nodup_cons] at hnd
    rcases List.mem_cons.mp hm with hm1 | hm1
    · subst hm1
      rw [List.foldl_cons,
        get_fold_putNR_not_mem rest _ _
          (by rw [putNR_capacity]; exact hcap)
          (by rw [putNR_length, putNR_capacity]; exact hlen)
          (fun e' he' hc => hnd.1 (List.mem_map.mpr ⟨e', he', hc⟩)),
        get_putNR_self _ _ hcap hlen hne]
    · rw [List.foldl_cons]
      exact ih _ (by rw [putNR_capacity]; exact hcap)
        (by rw [putNR_length, putNR_capacity]; exact hlen) hnd.2 hm1

theorem resize_capacity (m : SongHashMap) : (m.resize).capacity = m.capacity * 2 := by
  unfold resize
  rw [fold_putNR_capacity]

theorem resize_length (m : SongHashMap) (hcap : 0 < m.capacity) :
    (m.resize).buckets.length = (m.resize).capacity.toNat := by
  unfold resize
  rw [fold_putNR_length, fold_putNR_capacity]
  simp

/-- Membership of `Get` results among the entries (no well-formedness
needed for this direction). -/
theorem get_some_mem_entries {m : SongHashMap} {k : String} {v : SongRef}
    (h : m.Get k = some v) : (⟨k, v⟩ : HashMapEntry) ∈ m.entries := by
  unfold Get at h
  by_cases hke : k = ""
  · rw [if_pos hke] at h; simp at h
  · rw [if_neg hke] at h
    have hmem := chainGet_some_mem h
    by_cases hidx : hashIdx k m.capacity < m.buckets.length
    · unfold entries
      rw [flatten_parts m.buckets _ hidx]
      exact List.mem_append.mpr (Or.inl (List.mem_append.mpr (Or.inr hmem)))
    · rw [List.getD_eq_default _ _ (by omega)] at hmem
      simp at hmem

/-- A `Get` hit survives `resize` on a well-formed by-id table. -/
theorem get_resize_some (m : SongHashMap) (k : String) (v : SongRef)
    (hwf : HMWf m) (hid : ById m) (h : m.Get k = some v) :
    (m.resize).Get k = some v := by
  obtain ⟨hcap, hlen, hplace, hnd, hne⟩ := hwf
  have hmem : (⟨k, v⟩ : HashMapEntry) ∈ m.entries := get_some_mem_entries h
  have hkv : v.id = k := (hid _ hmem).symm
  have hknne : k ≠ "" := hne _ hmem
  have hndv : (m.entries.map (fun e => e.value.id)).Nodup := by
    have : m.entries.map (fun e => e.value.id) = m.entries.map HashMapEntry.key := by
      exact List.map_congr_left (fun e he => (hid e he).symm)
    rw [this]
    exact hnd
  unfold resize
  have := get_fold_putNR_mem m.entries
    ⟨List.replicate (m.capacity * 2).toNat [], 0, m.capacity * 2⟩ ⟨k, v⟩
    (by dsimp only; omega) (by simp) hndv hmem (by dsimp only; rw [hkv]; exact hknne)
  dsimp only at this
  rw [hkv] at this
  exact this

/-- A `Get` miss stays a miss across `resize` on a well-formed by-id
table. -/
theorem get_resize_none (m : SongHashMap) (k : String)
    (hwf : HMWf m) (hid : ById m) (h : m.Get k = none) :
    (m.resize).Get k = none := by
  obtain ⟨hcap, hlen, hplace, hnd, hne⟩ := hwf
  unfold resize
  dsimp only
  by_cases hke : k = ""
  · subst hke
    rw [get_fold_putNR_not_mem _ _ _ (by dsimp only; omega) (by simp) ?hmiss]
    · rfl
    case hmiss =>
      intro e he hc
      exact hne e he ((hid e he).trans hc)
  · have hknotin : ∀ e ∈ m.buckets.flatten, e.value.id ≠ k := by
      intro e he hc
      have hkeyk : e.key = k := (hid e he).trans hc
      have hbucket := mem_entries_bucket hlen hplace he
      rw [hkeyk] at hbucket
      unfold Get at h
      rw [if_neg hke] at h
      exact chainGet_none_not_mem h (List.mem_map.mpr ⟨e, hbucket, hkeyk⟩)
    rw [get_fold_putNR_not_mem _ _ _ (by dsimp only; omega) (by simp) hknotin]
    unfold Get
    rw [if_neg hke]
    dsimp only
    rw [getD_replicate]
    rfl

/-! `Delete`. -/

theorem chainDelete_mem {b b' : List HashMapEntry} {k : String} {v : SongRef}
    (h : chainDelete b k = some (v, b')) {e : HashMapEntry} (he : e ∈ b') :
    e ∈ b := by
  induction b generalizing b' with
  | nil => simp [chainDelete] at h
  | cons e0 rest ih =>
    by_cases he0 : e0.key = k
    · simp only [chainDelete, if_pos he0, Option.some.injEq, Prod.mk.injEq] at h
      rw [← h.2] at he
      exact List.mem_cons_of_mem _ he
    · simp only [chainDelete, if_neg he0] at h
      match hrest : chainDelete rest k with
      | none => rw [hrest] at h; simp at h
      | some (v2, rest') =>
        rw [hrest] at h
        simp only [Option.some.injEq, Prod.mk.injEq] at h
        rw [← h.2] at he
        rcases List.mem_cons.mp he with he1 | he1
        · rw [he1]; exact List.mem_cons_self e0 rest
        · exact List.mem_cons_of_mem _ (ih (h.1 ▸ hrest) he1)

theorem chainDelete_keys_sublist {b b' : List HashMapEntry} {k : String} {v : SongRef}
    (h : chainDelete b k = some (v, b')) :
    (b'.map HashMapEntry.key).Sublist (b.map HashMapEntry.key) := by
  induction b generalizing b' with
  | nil => simp [chainDelete] at h
  | cons e0 rest ih =>
    by_cases he0 : e0.key = k
    · simp only [chainDelete, if_pos he0, Option.some.injEq, Prod.mk.injEq] at h
      rw [← h.2, List.map_cons]
      exact List.sublist_cons_self _ _
    · simp only [chainDelete, if_neg he0] at h
      match hrest : chainDelete rest k with
      | none => rw [hrest] at h; simp at h
      | some (v2, rest') =>
        rw [hrest] at h
        simp only [Option.some.injEq, Prod.mk.injEq] at h
        rw [← h.2, List.map_cons, List.map_cons]
        exact (ih (h.1 ▸ hrest)).cons₂ _

theorem chainGet_chainDelete_other {b b' : List HashMapEntry} {k k' : String}
    {v : SongRef} (h : chainDelete b k = some (v, b')) (hk : k' ≠ k) :
    chainGet b' k' = chainGet b k' := by
  induction b generalizing b' with
  | nil => simp [chainDelete] at h
  | cons e0 rest ih =>
    by_cases he0 : e0.key = k
    · simp only [chainDelete, if_pos he0, Option.some.injEq, Prod.mk.injEq] at h
      rw [← h.2]
      have : ¬e0.key = k' := fun hc => hk ((hc ▸ he0 : k' = k))
      simp [chainGet, this]
    · simp only [chainDelete, if_neg he0] at h
      match hrest : chainDelete rest k with
      | none => rw [hrest] at h; simp at h
      | some (v2, rest') =>
        rw [hrest] at h
        simp only [Option.some.injEq, Prod.mk.injEq] at h
        rw [← h.2]
        by_cases hk' : e0.key = k'
        · simp [chainGet, hk']
        · simp only [chainGet, if_neg hk']
          exact ih (h.1 ▸ hrest)

/-- The keys of any single bucket are duplicate-free. -/
theorem bucket_keys_nodup {m : SongHashMap}
    (hnd : (m.entries.map HashMapEntry.key).Nodup) (i : Nat)
    (hi : i < m.buckets.length) :
    ((m.buckets.getD i []).map HashMapEntry.key).Nodup := by
  unfold entries at hnd
  rw [flatten_parts m.buckets i hi, List.map_append, List.map_append] at hnd
  exact (hnd.of_append_left).of_append_right

theorem get_delete_self (m : SongHashMap) (k : String) (hwf : HMWf m) :
    ((m.Delete k).2).Get k = none := by
  obtain ⟨hcap, hlen, hplace, hnd, hne⟩ := hwf
  unfold Delete
  by_cases hke : k = ""
  · rw [if_pos hke]
    unfold Get
    rw [if_pos hke]
  · rw [if_neg hke]
    dsimp only
    match hdel : chainDelete (m.buckets.getD (hashIdx k m.capacity) []) k with
    | none =>
      unfold Get
      rw [if_neg hke]
      exact (chainDelete_none_iff _ _).mp hdel
    | some (v, b') =>
      unfold Get
      rw [if_neg hke]
      dsimp only
      rw [getD_set_self _ _ _ _ (by rw [hlen]; exact hashIdx_lt k m.capacity hcap)]
      exact chainDelete_some
        (bucket_keys_nodup hnd _ (by rw [hlen]; exact hashIdx_lt k m.capacity hcap)) hdel

theorem get_delete_other (m : SongHashMap) (k k' : String)
    (hcap : 0 < m.capacity) (hlen : m.buckets.length = m.capacity.toNat)
    (h : k' ≠ k) : ((m.Delete k).2).Get k' = m.Get k' := by
  unfold Delete
  by_cases hke : k = ""
  · rw [if_pos hke]
  · rw [if_neg hke]
    dsimp only
    match hdel : chainDelete (m.buckets.getD (hashIdx k m.capacity) []) k with
    | none => rfl
    | some (v, b') =>
      unfold Get
      by_cases hk'e : k' = ""
      · rw [if_pos hk'e, if_pos hk'e]
      · rw [if_neg hk'e, if_neg hk'e]
        dsimp only
        by_cases hsame : hashIdx k' m.capacity = hashIdx k m.capacity
        · rw [hsame, getD_set_self _ _ _ _ (by rw [hlen]; exact hashIdx_lt k m.capacity hcap)]
          exact chainGet_chainDelete_other hdel h
        · rw [getD_set_other _ _ _ _ _ (fun hc => hsame hc.symm)]

theorem delete_capacity (m : SongHashMap) (k : String) :
    ((m.Delete k).2).capacity = m.capacity := by
  unfold Delete
  split
  · rfl
  · dsimp only
    split <;> rfl

theorem delete_length (m : SongHashMap) (k : String) :
    ((m.Delete k).2).buckets.length = m.buckets.length := by
  unfold Delete
  split
  · rfl
  · dsimp only
    split
    · rfl
    · simp

theorem entries_delete_mem {m : SongHashMap} {k : String}
    (hcap : 0 < m.capacity) (hlen : m.buckets.length = m.capacity.toNat)
    {e : HashMapEntry} (he : e ∈ ((m.Delete k).2).entries) : e ∈ m.entries := by
  unfold Delete at he
  by_cases hke : k = ""
  · rw [if_pos hke] at he; exact he
  · rw [if_neg hke] at he
    dsimp only at he
    match hdel : chainDelete (m.buckets.getD (hashIdx k m.capacity) []) k with
    | none => rw [hdel] at he; exact he
    | some (v, b') =>
      rw [hdel] at he
      unfold entries at he ⊢
      have hidx : hashIdx k m.capacity < m.buckets.length := by
        rw [hlen]; exact hashIdx_lt k m.capacity hcap
      rw [flatten_set _ _ _ hidx] at he
      rw [flatten_parts m.buckets _ hidx]
      rcases List.mem_append.mp he with he1 | he1
      · rcases List.mem_append.mp he1 with he2 | he2
        · exact List.mem_append.mpr (Or.inl (List.mem_append.mpr (Or.inl he2)))
        · exact List.mem_append.mpr
            (Or.inl (List.mem_append.mpr (Or.inr (chainDelete_mem hdel he2))))
      · exact List.mem_append.mpr (Or.inr he1)

theorem wf_delete (m : SongHashMap) (k : String) (hwf : HMWf m) :
    HMWf ((m.Delete k).2) := by
  obtain ⟨hcap, hlen, hplace, hnd, hne⟩ := hwf
  refine ⟨by rw [delete_capacity]; exact hcap,
    by rw [delete_length, delete_capacity]; exact hlen, ?_, ?_, ?_⟩
  · intro i hi e he
    rw [delete_capacity]
    unfold Delete at hi he
    by_cases hke : k = ""
    · rw [if_pos hke] at hi he
      exact hplace i hi e he
    · rw [if_neg hke] at hi he
      dsimp only at hi he
      match hdel : chainDelete (m.buckets.getD (hashIdx k m.capacity) []) k with
      | none =>
        rw [hdel] at hi he
        exact hplace i hi e he
      | some (v, b') =>
        rw [hdel] at hi he
        dsimp only at hi he
        rw [List.length_set] at hi
        by_cases hsame : i = hashIdx k m.capacity
        · subst hsame
          rw [getD_set_self _ _ _ _ (by rw [hlen]; exact hashIdx_lt k m.capacity hcap)] at he
          exact hplace _ hi e (chainDelete_mem hdel he)
        · rw [getD_set_other _ _ _ _ _ (fun hc => hsame hc.symm)] at he
          exact hplace i hi e he
  · unfold Delete
    by_cases hke : k = ""
    · rw [if_pos hke]
      exact hnd
    · rw [if_neg hke]
      dsimp only
      match hdel : chainDelete (m.buckets.getD (hashIdx k m.capacity) []) k with
      | none => exact hnd
      | some (v, b') =>
        unfold entries
        have hidx : hashIdx k m.capacity < m.buckets.length := by
          rw [hlen]; exact hashIdx_lt k m.capacity hcap
        dsimp only
        rw [flatten_set _ _ _ hidx, List.map_append, List.map_append]
        have hold : (m.entries.map HashMapEntry.key) =
            ((m.buckets.take (hashIdx k m.capacity)).flatten.map HashMapEntry.key ++
              (m.buckets.getD (hashIdx k m.capacity) []).map HashMapEntry.key ++
              (m.buckets.drop (hashIdx k m.capacity + 1)).flatten.map HashMapEntry.key) := by
          unfold entries
          rw [flatten_parts m.buckets _ hidx, List.map_append, List.map_append]
        rw [hold] at hnd
        exact ((chainDelete_keys_sublist hdel).append_left _ |>.append_right _).nodup hnd
  · intro e he
    exact hne e (entries_delete_mem hcap hlen he)

theorem byid_delete (m : SongHashMap) (k : String) (hwf : HMWf m) (hid : ById m) :
    ById ((m.Delete k).2) := by
  obtain ⟨hcap, hlen, -, -, -⟩ := hwf
  intro e he
  exact hid e (entries_delete_mem hcap hlen he)

/-! `resize` well-formedness and the `Put` wrapper. -/

theorem flatten_replicate_nil (n : Nat) :
    (List.replicate n ([] : List β)).flatten = [] := by
  induction n with
  | zero => rfl
  | succ n ih => rw [List.replicate_succ, List.flatten_cons, ih]; rfl

theorem wf_fold_putNR (es : List HashMapEntry) (b : SongHashMap) (hwf : HMWf b) :
    HMWf (es.foldl (fun m e => m.putNR e.value) b) := by
  induction es generalizing b with
  | nil => exact hwf
  | cons e rest ih => exact ih _ (wf_putNR _ _ hwf)

theorem byid_fold_putNR (es : List HashMapEntry) (b : SongHashMap)
    (hwf : HMWf b) (hid : ById b) :
    ById (es.foldl (fun m e => m.putNR e.value) b) := by
  induction es generalizing b with
  | nil => exact hid
  | cons e rest ih => exact ih _ (wf_putNR _ _ hwf) (byid_putNR _ _ hwf hid)

theorem wf_resize (m : SongHashMap) (hwf : HMWf m) : HMWf (m.resize) := by
  obtain ⟨hcap, -, -, -, -⟩ := hwf
  unfold resize
  dsimp only
  refine wf_fold_putNR _ _ ⟨by dsimp only; omega, by simp, ?_, ?_, ?_⟩
  · intro i hi e he
    dsimp only at he
    rw [getD_replicate] at he
    simp at he
  · dsimp only
    unfold entries
    dsimp only
    rw [flatten_replicate_nil]
    exact List.nodup_nil
  · intro e he
    unfold entries at he
    dsimp only at he
    rw [flatten_replicate_nil] at he
    simp at he

theorem byid_resize (m : SongHashMap) (hwf : HMWf m) : ById (m.resize) := by
  obtain ⟨hcap, -, -, -, -⟩ := hwf
  unfold resize
  dsimp only
  refine byid_fold_putNR _ _ ⟨by dsimp only; omega, by simp, ?_, ?_, ?_⟩ ?_
  · intro i hi e he
    dsimp only at he
    rw [getD_replicate] at he
    simp at he
  · unfold entries
    dsimp only
    rw [flatten_replicate_nil]
    exact List.nodup_nil
  · intro e he
    unfold entries at he
    dsimp only at he
    rw [flatten_replicate_nil] at he
    simp at he
  · intro e he
    unfold entries at he
    dsimp only at he
    rw [flatten_replicate_nil] at he
    simp at he

/-- `Get` after `Put` at the inserted id (well-formed by-id table). -/
theorem get_Put_self (m : SongHashMap) (s : SongRef)
    (hwf : HMWf m) (hid : ById m) (hne : s.id ≠ "") :
    (m.Put s).Get s.id = some s := by
  have hcap := hwf.1
  have hlen := hwf.2.1
  unfold Put
  dsimp only
  split
  · exact get_putNR_self _ _ hcap hlen hne
  · split
    · exact get_resize_some _ _ _ (wf_putNR _ _ hwf) (byid_putNR _ _ hwf hid)
        (get_putNR_self _ _ hcap hlen hne)
    · exact get_putNR_self _ _ hcap hlen hne

/-- `Get` after `Put` at any other key (well-formed by-id table). -/
theorem get_Put_other (m : SongHashMap) (s : SongRef) (k : String)
    (hwf : HMWf m) (hid : ById m) (hk : k ≠ s.id) :
    (m.Put s).Get k = m.Get k := by
  have hcap := hwf.1
  have hlen := hwf.2.1
  unfold Put
  dsimp only
  have hother := get_putNR_other m s k hcap hlen hk
  split
  · exact hother
  · split
    · match hget : (m.putNR s).Get k with
      | some v =>
        rw [get_resize_some _ _ _ (wf_putNR _ _ hwf) (byid_putNR _ _ hwf hid) hget,
          ← hget, hother]
      | none =>
        rw [get_resize_none _ _ (wf_putNR _ _ hwf) (byid_putNR _ _ hwf hid) hget,
          ← hget, hother]
    · exact hother

theorem wf_Put (m : SongHashMap) (s : SongRef) (hwf : HMWf m) : HMWf (m.Put s) := by
  unfold Put
  dsimp only
  split
  · exact wf_putNR _ _ hwf
  · split
    · exact wf_resize _ (wf_putNR _ _ hwf)
    · exact wf_putNR _ _ hwf

theorem byid_Put (m : SongHashMap) (s : SongRef) (hwf : HMWf m) (hid : ById m) :
    ById (m.Put s) := by
  unfold Put
  dsimp only
  split
  · exact byid_putNR _ _ hwf hid
  · split
    · exact byid_resize _ (wf_putNR _ _ hwf)
    · exact byid_putNR _ _ hwf hid

end SongHashMap

/-! ## C3: resize behaviour of the direct-lookup index

The claim fails twice.  (1) The resize check sits only on `Put`'s
append-to-a-non-empty-chain path: the empty-bucket branch returns early,
so a threshold-crossing put into an empty bucket does *not* resize.
(2) `resize` re-inserts every entry through `Put`, which keys by
`song.ID`, so on the by-title instance title keys are lost by the
rehash.  The counterexample below exhibits both concretely; the amended
statement (proved) is the by-id half for the puts that do reach the
check. -/

set_option maxRecDepth 10000 in
/-- Counterexample to C3 as stated, in both directions.  First: at
capacity 2 the ids `"a"`, `"c"`, `"e"`, `"g"` all hash to bucket 0 and
fill the table to its threshold (`size = 2 × capacity`); the next `Put`
of id `"b"` lands in the *empty* bucket 1, making the size exceed
`2 × capacity` — yet the capacity does not double: the empty-bucket
branch returns before the resize check.  Second: a by-title table at
capacity 1 with two titles stored (`"ta"` retrievable); one more
`PutByTitle` appends to the non-empty chain, exceeds the threshold and
does resize (capacity doubles to 2), but the previously present key
`"ta"` no longer maps to its entity — the rehash re-keyed every entry
by id. -/
theorem putByTitle_resize_counterexample :
    (((((SongHashMap.new 2).Put ⟨"a", ""⟩).Put ⟨"c", ""⟩).Put ⟨"e", ""⟩).Put
      ⟨"g", ""⟩).size =
      2 * (((((SongHashMap.new 2).Put ⟨"a", ""⟩).Put ⟨"c", ""⟩).Put
        ⟨"e", ""⟩).Put ⟨"g", ""⟩).capacity ∧
    ((((((SongHashMap.new 2).Put ⟨"a", ""⟩).Put ⟨"c", ""⟩).Put ⟨"e", ""⟩).Put
      ⟨"g", ""⟩).Put ⟨"b", ""⟩).size >
      2 * ((((((SongHashMap.new 2).Put ⟨"a", ""⟩).Put ⟨"c", ""⟩).Put
        ⟨"e", ""⟩).Put ⟨"g", ""⟩).Put ⟨"b", ""⟩).capacity ∧
    ((((((SongHashMap.new 2).Put ⟨"a", ""⟩).Put ⟨"c", ""⟩).Put ⟨"e", ""⟩).Put
      ⟨"g", ""⟩).Put ⟨"b", ""⟩).capacity = 2 ∧
    (((SongHashMap.new 1).PutByTitle ⟨"id1", "ta"⟩).PutByTitle ⟨"id2", "tb"⟩).size =
      2 * (((SongHashMap.new 1).PutByTitle ⟨"id1", "ta"⟩).PutByTitle ⟨"id2", "tb"⟩).capacity ∧
    (((SongHashMap.new 1).PutByTitle ⟨"id1", "ta"⟩).PutByTitle ⟨"id2", "tb"⟩).GetByTitle "ta" =
      some ⟨"id1", "ta"⟩ ∧
    ((((SongHashMap.new 1).PutByTitle ⟨"id1", "ta"⟩).PutByTitle ⟨"id2", "tb"⟩).PutByTitle
      ⟨"id3", "tc"⟩).capacity = 2 ∧
    ((((SongHashMap.new 1).PutByTitle ⟨"id1", "ta"⟩).PutByTitle ⟨"id2", "tb"⟩).PutByTitle
      ⟨"id3", "tc"⟩).GetByTitle "ta" = none := by
  refine ⟨by decide, by decide, by decide, by decide, by decide, by decide,
    by decide⟩

/-- **C3 (amended)**.  Only a `Put` that appends a new entry to a
*non-empty* chain reaches the resize check (inserts into an empty bucket
and in-chain updates return early, so a threshold-crossing put into an
empty bucket leaves the capacity unchanged — see the counterexample).
For such a put from a table at (or below) its threshold, when the new
size exceeds `2 × capacity` the bucket count doubles and every entry is
rehashed keyed by its entity's id; on the by-id instance (keys are
entity ids) every key present before still maps to the same entity.
(On the by-title instance the rehash re-keys entries by id, so a title
key that differs from its entity's id is lost — see the
counterexample.) -/
theorem put_resize_preserves_byid (m : SongHashMap) (s : SongRef)
    (hwf : HMWf m) (hid : ById m) (hne : s.id ≠ "")
    (hbucket : m.buckets.getD (SongHashMap.hashIdx s.id m.capacity) [] ≠ [])
    (hnew : SongHashMap.chainGet
      (m.buckets.getD (SongHashMap.hashIdx s.id m.capacity) []) s.id = none)
    (hcount : m.size = m.entries.length)
    (hle : m.size ≤ m.capacity * 2)
    (htrig : (m.putNR s).size > (m.putNR s).capacity * 2) :
    (m.Put s).capacity = 2 * m.capacity ∧
    ∀ k v, k ≠ s.id → m.Get k = some v → (m.Put s).Get k = some v := by
  constructor
  · have htrue := SongHashMap.chainPut_snd_not_mem
      (m.buckets.getD (SongHashMap.hashIdx s.id m.capacity) []) s.id s
      (SongHashMap.chainGet_none_not_mem hnew)
    unfold SongHashMap.Put
    dsimp only
    rw [if_neg (by push_neg; exact ⟨hne, hbucket, by rw [htrue]; simp⟩),
      if_pos htrig, SongHashMap.resize_capacity, SongHashMap.putNR_capacity,
      Int.mul_comm]
  · intro k v hk h
    rw [SongHashMap.get_Put_other m s k hwf hid hk]
    exact h

set_option maxRecDepth 10000 in
/-- Witness for C3 (amended): a concrete by-id table at capacity 1,
filled to its threshold with both ids in the single (hence non-empty)
bucket; the third `Put` appends a new entry there and triggers the
resize; the key `"id1"` still maps to its entity afterwards, in the
doubled table. -/
theorem put_resize_preserves_byid_witness :
    ((((SongHashMap.new 1).Put ⟨"id1", "ta"⟩).Put ⟨"id2", "tb"⟩).Put
      ⟨"id3", "tc"⟩).capacity =
      2 * (((SongHashMap.new 1).Put ⟨"id1", "ta"⟩).Put ⟨"id2", "tb"⟩).capacity ∧
    ((((SongHashMap.new 1).Put ⟨"id1", "ta"⟩).Put ⟨"id2", "tb"⟩).Put
      ⟨"id3", "tc"⟩).Get "id1" = some ⟨"id1", "ta"⟩ := by
  have h := put_resize_preserves_byid
    (((SongHashMap.new 1).Put ⟨"id1", "ta"⟩).Put ⟨"id2", "tb"⟩) ⟨"id3", "tc"⟩
    (by unfold HMWf; refine ⟨by decide, by decide, by decide, by decide, by decide⟩)
    (by unfold ById; decide)
    (by decide)
    (by decide)
    (by decide)
    (by decide)
    (by decide)
    (by decide)
  exact ⟨h.1, h.2 "id1" ⟨"id1", "ta"⟩ (by decide) (by decide)⟩
/-! ## C4: engine `DeleteSong` and the two lookup indexes -/

/-- **C4**.  A successful `deleteSong(index)` removes the entry from the
by-id index (a subsequent get-by-id misses) but leaves the by-title
index entirely unchanged, so any stale title mapping — in particular the
deleted song's — is still retrievable. -/
theorem deleteSong_title_frame (e : Engine) (index : Int) (e' : Engine)
    (songID : String) (hwf : HMWf e.songLookup)
    (h : e.DeleteSong index = (e', some songID)) :
    e'.songLookup.Get songID = none ∧
    e'.titleLookup = e.titleLookup ∧
    (∀ title v, e.titleLookup.GetByTitle title = some v →
      e'.titleLookup.GetByTitle title = some v) := by
  unfold Engine.DeleteSong at h
  match hdel : e.currentPlaylist.DeleteSong index with
  | none =>
    rw [hdel] at h
    simp at h
  | some (sid, pl) =>
    rw [hdel] at h
    dsimp only at h
    injection h with h1 h2
    injection h2 with h2
    subst h2
    subst h1
    refine ⟨SongHashMap.get_delete_self _ _ hwf, rfl, fun _ _ hv => hv⟩

set_option maxRecDepth 10000 in
/-- Witness for C4: a concrete two-song engine; deleting index 0 leaves
the title `"A"` retrievable while the id lookup misses. -/
theorem deleteSong_title_frame_witness :
    ((((Engine.new "p").AddSong "A" "x" "" "g" "s" "m" 10 1 1).1.AddSong
        "B" "y" "" "g" "s" "m" 20 1 2).1.DeleteSong 0).1.songLookup.Get
      "a-x-1" = none ∧
    ((((Engine.new "p").AddSong "A" "x" "" "g" "s" "m" 10 1 1).1.AddSong
        "B" "y" "" "g" "s" "m" 20 1 2).1.DeleteSong 0).1.titleLookup =
      (((Engine.new "p").AddSong "A" "x" "" "g" "s" "m" 10 1 1).1.AddSong
        "B" "y" "" "g" "s" "m" 20 1 2).1.titleLookup := by
  have h := deleteSong_title_frame
    (((Engine.new "p").AddSong "A" "x" "" "g" "s" "m" 10 1 1).1.AddSong
      "B" "y" "" "g" "s" "m" 20 1 2).1
    0
    ((((Engine.new "p").AddSong "A" "x" "" "g" "s" "m" 10 1 1).1.AddSong
      "B" "y" "" "g" "s" "m" 20 1 2).1.DeleteSong 0).1
    "a-x-1"
    (by unfold HMWf; refine ⟨by decide, by decide, by decide, by decide, by decide⟩)
    (by decide)
  exact ⟨h.1, h.2.1⟩

/-! ## C1 groundwork: the rating BST through its in-order view -/

namespace BSTNode

theorem tkeys_leaf : tkeys .leaf = [] := rfl

theorem tkeys_node (l : BSTNode) (r : Int) (songs : List String) (rt : BSTNode) :
    tkeys (.node l r songs rt) = tkeys l ++ r :: tkeys rt := by
  simp [tkeys, toAssoc]

theorem mem_tkeys_node (A : BSTNode) (b : Int) (c : List String) (D : BSTNode)
    (k : Int) :
    k ∈ tkeys (.node A b c D) ↔ k ∈ tkeys A ∨ k = b ∨ k ∈ tkeys D := by
  rw [tkeys_node]
  simp

theorem mem_tkeys_of_mem {t : BSTNode} {p : Int × List String}
    (h : p ∈ toAssoc t) : p.1 ∈ tkeys t :=
  List.mem_map_of_mem Prod.fst h

theorem exists_of_mem_tkeys {t : BSTNode} {k : Int} (h : k ∈ tkeys t) :
    ∃ b, (k, b) ∈ toAssoc t := by
  rcases List.mem_map.1 h with ⟨⟨k', b⟩, hp, he⟩
  cases he
  exact ⟨b, hp⟩

theorem tsorted_pairwise {t : BSTNode} (hs : TSorted t) :
    (tkeys t).Pairwise (· < ·) := by
  induction hs with
  | leaf => exact List.Pairwise.nil
  | node hl hr _ _ ihl ihr =>
    rw [tkeys_node]
    refine List.pairwise_append.2 ⟨ihl, List.pairwise_cons.2 ⟨hr, ihr⟩, ?_⟩
    intro a ha b hb
    rcases List.mem_cons.1 hb with hb | hb
    · subst hb; exact hl a ha
    · exact lt_trans (hl a ha) (hr b hb)

theorem searchNode_some_mem {t : BSTNode} {r : Int} {b : List String}
    (h : searchNode t r = some b) : (r, b) ∈ toAssoc t := by
  induction t with
  | leaf => simp [searchNode] at h
  | node l r0 songs rt ihl ihr =>
    unfold searchNode at h
    by_cases h1 : r = r0
    · subst h1
      rw [if_pos rfl] at h
      injection h with h
      subst h
      simp [toAssoc]
    · rw [if_neg h1] at h
      by_cases h2 : r < r0
      · rw [if_pos h2] at h
        simp only [toAssoc, List.mem_append, List.mem_cons]
        exact Or.inl (ihl h)
      · rw [if_neg h2] at h
        simp only [toAssoc, List.mem_append, List.mem_cons]
        exact Or.inr (Or.inr (ihr h))

theorem searchNode_of_mem {t : BSTNode} (hs : TSorted t) {r : Int}
    {b : List String} (h : (r, b) ∈ toAssoc t) : searchNode t r = some b := by
  induction hs with
  | leaf => simp [toAssoc] at h
  | @node l rt r0 songs hl hr _ _ ihl ihr =>
    simp only [toAssoc, List.mem_append, List.mem_cons] at h
    unfold searchNode
    rcases h with h | h | h
    · have hk : r < r0 := hl r (mem_tkeys_of_mem (p := (r, b)) h)
      rw [if_neg (by omega), if_pos hk]
      exact ihl h
    · injection h with h1 h2
      subst h1 h2
      rw [if_pos rfl]
    · have hk : r0 < r := hr r (mem_tkeys_of_mem (p := (r, b)) h)
      rw [if_neg (by omega), if_neg (by omega)]
      exact ihr h

theorem searchNode_eq_none {t : BSTNode} (hs : TSorted t) {r : Int}
    (h : r ∉ tkeys t) : searchNode t r = none := by
  cases he : searchNode t r with
  | none => rfl
  | some b => exact absurd (mem_tkeys_of_mem (p := (r, b)) (searchNode_some_mem he)) h

theorem mem_tkeys_of_searchNode {t : BSTNode} {r : Int} {b : List String}
    (h : searchNode t r = some b) : r ∈ tkeys t :=
  mem_tkeys_of_mem (p := (r, b)) (searchNode_some_mem h)

theorem findSong_eq_some {t : BSTNode} {id sid : String}
    (h : findSongInSubtree t id = some sid) : sid = id := by
  induction t with
  | leaf => simp [findSongInSubtree] at h
  | node l r0 songs rt ihl ihr =>
    unfold findSongInSubtree at h
    cases hf : songs.find? (fun s => s = id) with
    | some s =>
      rw [hf] at h
      injection h with h
      subst h
      have hps := List.find?_some hf
      simpa using hps
    | none =>
      rw [hf] at h
      cases hl2 : findSongInSubtree l id with
      | some s => rw [hl2] at h; injection h with h; subst h; exact ihl hl2
      | none => rw [hl2] at h; exact ihr h

theorem findSong_none {t : BSTNode} {id : String}
    (h : findSongInSubtree t id = none) : ∀ p ∈ toAssoc t, id ∉ p.2 := by
  induction t with
  | leaf => intro p hp; simp [toAssoc] at hp
  | node l r0 songs rt ihl ihr =>
    unfold findSongInSubtree at h
    cases hf : songs.find? (fun s => s = id) with
    | some s => rw [hf] at h; exact absurd h (by simp)
    | none =>
      rw [hf] at h
      cases hl2 : findSongInSubtree l id with
      | some s => rw [hl2] at h; exact absurd h (by simp)
      | none =>
        rw [hl2] at h
        intro p hp
        simp only [toAssoc, List.mem_append, List.mem_cons] at hp
        rcases hp with hp | hp | hp
        · exact ihl hl2 p hp
        · subst hp
          intro hmem
          have := List.find?_eq_none.1 hf id hmem
          simp at this
        · exact ihr h p hp

theorem findSong_some_exists {t : BSTNode} {id : String}
    (h : findSongInSubtree t id ≠ none) : ∃ p ∈ toAssoc t, id ∈ p.2 := by
  induction t with
  | leaf => simp [findSongInSubtree] at h
  | node l r0 songs rt ihl ihr =>
    unfold findSongInSubtree at h
    cases hf : songs.find? (fun s => s = id) with
    | some s =>
      have hmem := List.mem_of_find?_eq_some hf
      have hs : s = id := by
        have hps := List.find?_some hf
        simpa using hps
      subst hs
      exact ⟨(r0, songs), by simp [toAssoc], hmem⟩
    | none =>
      rw [hf] at h
      cases hl2 : findSongInSubtree l id with
      | some s =>
        rcases ihl (by rw [hl2]; simp) with ⟨p, hp, hid⟩
        exact ⟨p, by simp only [toAssoc, List.mem_append, List.mem_cons]; exact Or.inl hp, hid⟩
      | none =>
        rw [hl2] at h
        rcases ihr h with ⟨p, hp, hid⟩
        exact ⟨p, by
          simp only [toAssoc, List.mem_append, List.mem_cons]
          exact Or.inr (Or.inr hp), hid⟩

theorem bucketRemove_not_mem {songs : List String} {id : String}
    (h : id ∉ songs) : bucketRemoveSong songs id = (songs, false) := by
  unfold bucketRemoveSong
  rw [List.findIdx?_eq_none_iff.2 ?_]
  intro x hx
  simp only [decide_eq_false_iff_not]
  exact fun he => h (he ▸ hx)

theorem bucketRemove_perm {songs : List String} {id : String} (h : id ∈ songs) :
    ((bucketRemoveSong songs id).1.Perm (songs.erase id)) ∧
    (bucketRemoveSong songs id).2 = true := by
  have hne : songs ≠ [] := List.ne_nil_of_mem h
  cases hf : songs.findIdx? (fun s => s = id) with
  | none =>
    have := List.findIdx?_eq_none_iff.1 hf id h
    simp at this
  | some i =>
    obtain ⟨hi, hidx⟩ := List.findIdx?_eq_some_iff_findIdx_eq.1 hf
    have hgi : songs[i] = id := by
      have hw : songs.findIdx (fun s => decide (s = id)) < songs.length := by
        rw [hidx]
        exact hi
      have := List.findIdx_getElem (p := fun s => decide (s = id)) (w := hw)
      simp only [hidx] at this
      exact of_decide_eq_true this
    have hmin : ∀ j (hj : j < i), songs.get ⟨j, lt_trans hj hi⟩ ≠ id := by
      intro j hj
      have hlt : j < songs.findIdx (fun s => decide (s = id)) := by
        rw [hidx]
        exact hj
      have := List.not_of_lt_findIdx hlt
      simpa using this
    have hidA : id ∉ songs.take i := by
      intro hmem
      rcases List.mem_take_iff_getElem.1 hmem with ⟨j, hj, he⟩
      exact hmin j (lt_of_lt_of_le hj (by exact inf_le_left)) he
    have hdecomp : songs.take i ++ id :: songs.drop (i + 1) = songs := by
      rw [← hgi, ← List.drop_eq_getElem_cons hi, List.take_append_drop]
    have herase : songs.erase id = songs.take i ++ songs.drop (i + 1) := by
      conv_lhs => rw [← hdecomp]
      rw [List.erase_append_right _ hidA, List.erase_cons_head]
    unfold bucketRemoveSong
    rw [hf]
    dsimp only
    refine ⟨?_, rfl⟩
    rw [List.set_eq_take_append_cons_drop, if_pos hi, herase]
    by_cases hlast : i = songs.length - 1
    · have hB : songs.drop (i + 1) = [] :=
        List.drop_eq_nil_of_le (by omega)
      have hval : songs.getLastD "" = id := by
        rw [List.getLastD_eq_getLast?]
        conv_lhs => rw [← hdecomp, hB]
        rw [List.getLast?_append_of_ne_nil _ (by simp)]
        rfl
      rw [hB, hval, List.dropLast_concat]
      simp
    · have hB : songs.drop (i + 1) ≠ [] := by
        intro hnil
        have := congrArg List.length hnil
        simp only [List.length_drop, List.length_nil] at this
        omega
      have hval : songs.getLastD "" = (songs.drop (i + 1)).getLast hB := by
        have h1 : songs.getLast? = (songs.drop (i + 1)).getLast? := by
          conv_lhs => rw [← hdecomp]
          rw [List.getLast?_append_of_ne_nil _ (by simp),
            show (id :: songs.drop (i + 1)) = [id] ++ songs.drop (i + 1) from rfl,
            List.getLast?_append_of_ne_nil _ hB]
        rw [List.getLastD_eq_getLast?, h1, List.getLast?_eq_getLast _ hB,
          Option.getD_some]
      rw [hval, List.dropLast_append_cons, List.dropLast_cons_of_ne_nil hB]
      refine List.Perm.append_left _ ?_
      have hBsplit := List.dropLast_append_getLast hB
      conv_rhs => rw [← hBsplit]
      exact (List.perm_append_singleton _ _).symm

theorem insert_tkeys (t : BSTNode) (s : String) (r : Int) (k : Int) :
    k ∈ tkeys (insertNode t s r).1 ↔ k ∈ tkeys t ∨ k = r := by
  induction t with
  | leaf =>
    simp [insertNode, tkeys, toAssoc]
  | node l r0 songs rt ihl ihr =>
    unfold insertNode
    by_cases h1 : r = r0
    · subst h1
      rw [if_pos rfl]
      dsimp only
      simp only [tkeys_node, List.mem_append, List.mem_cons]
      constructor
      · exact fun h => Or.inl h
      · rintro (h | h)
        · exact h
        · exact Or.inr (Or.inl h)
    · rw [if_neg h1]
      by_cases h2 : r < r0
      · rw [if_pos h2]
        dsimp only
        simp only [tkeys_node, List.mem_append, List.mem_cons, ihl]
        tauto
      · rw [if_neg h2]
        dsimp only
        simp only [tkeys_node, List.mem_append, List.mem_cons, ihr]
        tauto

theorem insert_sorted {t : BSTNode} (hs : TSorted t) (s : String) (r : Int) :
    TSorted (insertNode t s r).1 := by
  induction hs with
  | leaf =>
    exact TSorted.node (by simp [tkeys_leaf]) (by simp [tkeys_leaf]) .leaf .leaf
  | @node l rt r0 songs hl hr hsl hsr ihl ihr =>
    unfold insertNode
    by_cases h1 : r = r0
    · subst h1
      rw [if_pos rfl]
      exact TSorted.node hl hr hsl hsr
    · rw [if_neg h1]
      by_cases h2 : r < r0
      · rw [if_pos h2]
        refine TSorted.node ?_ hr ihl hsr
        intro k hk
        rcases (insert_tkeys l s r k).1 hk with h | h
        · exact hl k h
        · omega
      · rw [if_neg h2]
        refine TSorted.node hl ?_ hsl ihr
        intro k hk
        rcases (insert_tkeys rt s r k).1 hk with h | h
        · exact hr k h
        · omega

theorem search_insert_self (t : BSTNode) (s : String) (r : Int) :
    searchNode (insertNode t s r).1 r =
      some ((searchNode t r).getD [] ++ [s]) := by
  induction t with
  | leaf => simp [insertNode, searchNode]
  | node l r0 songs rt ihl ihr =>
    unfold insertNode
    by_cases h1 : r = r0
    · subst h1
      rw [if_pos rfl]
      dsimp only
      simp [searchNode]
    · rw [if_neg h1]
      by_cases h2 : r < r0
      · rw [if_pos h2]
        dsimp only
        simp only [searchNode, if_neg h1, if_pos h2]
        exact ihl
      · rw [if_neg h2]
        dsimp only
        simp only [searchNode, if_neg h1, if_neg h2]
        exact ihr

theorem search_insert_other (t : BSTNode) (s : String) (r r' : Int)
    (h : r' ≠ r) :
    searchNode (insertNode t s r).1 r' = searchNode t r' := by
  induction t with
  | leaf => simp [insertNode, searchNode, h]
  | node l r0 songs rt ihl ihr =>
    unfold insertNode
    by_cases h1 : r = r0
    · subst h1
      rw [if_pos rfl]
      dsimp only
      simp only [searchNode, if_neg h]
    · rw [if_neg h1]
      by_cases h2 : r < r0
      · rw [if_pos h2]
        dsimp only
        by_cases h3 : r' = r0
        · subst h3
          simp [searchNode]
        · by_cases h4 : r' < r0
          · simp only [searchNode, if_neg h3, if_pos h4]
            exact ihl
          · simp only [searchNode, if_neg h3, if_neg h4]
      · rw [if_neg h2]
        dsimp only
        by_cases h3 : r' = r0
        · subst h3
          simp [searchNode]
        · by_cases h4 : r' < r0
          · simp only [searchNode, if_neg h3, if_pos h4]
          · simp only [searchNode, if_neg h3, if_neg h4]
            exact ihr

theorem rfb_search_self (t : BSTNode) (r : Int) (id : String) :
    searchNode (removeFromBucket t r id).1 r =
      (searchNode t r).map (fun b => (bucketRemoveSong b id).1) := by
  induction t with
  | leaf => simp [removeFromBucket, searchNode]
  | node l r0 songs rt ihl ihr =>
    unfold removeFromBucket
    by_cases h1 : r = r0
    · subst h1
      rw [if_pos rfl]
      dsimp only
      simp [searchNode]
    · rw [if_neg h1]
      by_cases h2 : r < r0
      · rw [if_pos h2]
        dsimp only
        simp only [searchNode, if_neg h1, if_pos h2]
        exact ihl
      · rw [if_neg h2]
        dsimp only
        simp only [searchNode, if_neg h1, if_neg h2]
        exact ihr

theorem rfb_search_other (t : BSTNode) (r r' : Int) (id : String)
    (h : r' ≠ r) :
    searchNode (removeFromBucket t r id).1 r' = searchNode t r' := by
  induction t with
  | leaf => simp [removeFromBucket]
  | node l r0 songs rt ihl ihr =>
    unfold removeFromBucket
    by_cases h1 : r = r0
    · subst h1
      rw [if_pos rfl]
      dsimp only
      simp only [searchNode, if_neg h]
    · rw [if_neg h1]
      by_cases h2 : r < r0
      · rw [if_pos h2]
        dsimp only
        by_cases h3 : r' = r0
        · subst h3
          simp [searchNode]
        · by_cases h4 : r' < r0
          · simp only [searchNode, if_neg h3, if_pos h4]
            exact ihl
          · simp only [searchNode, if_neg h3, if_neg h4]
      · rw [if_neg h2]
        dsimp only
        by_cases h3 : r' = r0
        · subst h3
          simp [searchNode]
        · by_cases h4 : r' < r0
          · simp only [searchNode, if_neg h3, if_pos h4]
          · simp only [searchNode, if_neg h3, if_neg h4]
            exact ihr

theorem rfb_tkeys (t : BSTNode) (r : Int) (id : String) :
    tkeys (removeFromBucket t r id).1 = tkeys t := by
  induction t with
  | leaf => simp [removeFromBucket]
  | node l r0 songs rt ihl ihr =>
    unfold removeFromBucket
    by_cases h1 : r = r0
    · subst h1
      rw [if_pos rfl]
      dsimp only
      rw [tkeys_node, tkeys_node]
    · rw [if_neg h1]
      by_cases h2 : r < r0
      · rw [if_pos h2]
        dsimp only
        rw [tkeys_node, tkeys_node, ihl]
      · rw [if_neg h2]
        dsimp only
        rw [tkeys_node, tkeys_node, ihr]

theorem rfb_sorted {t : BSTNode} (hs : TSorted t) (r : Int) (id : String) :
    TSorted (removeFromBucket t r id).1 := by
  induction hs with
  | leaf => exact .leaf
  | @node l rt r0 songs hl hr hsl hsr ihl ihr =>
    unfold removeFromBucket
    by_cases h1 : r = r0
    · subst h1
      rw [if_pos rfl]
      exact TSorted.node hl hr hsl hsr
    · rw [if_neg h1]
      by_cases h2 : r < r0
      · rw [if_pos h2]
        exact TSorted.node (by rw [rfb_tkeys]; exact hl) hr ihl hsr
      · rw [if_neg h2]
        exact TSorted.node hl (by rw [rfb_tkeys]; exact hr) hsl ihr

theorem rfb_flags (t : BSTNode) (r : Int) (id : String) :
    (removeFromBucket t r id).2 =
      (match searchNode t r with
       | some b => ((bucketRemoveSong b id).2, (bucketRemoveSong b id).1.isEmpty)
       | none => (false, false)) := by
  induction t with
  | leaf => simp [removeFromBucket, searchNode]
  | node l r0 songs rt ihl ihr =>
    unfold removeFromBucket
    by_cases h1 : r = r0
    · subst h1
      rw [if_pos rfl]
      dsimp only
      simp [searchNode]
    · rw [if_neg h1]
      by_cases h2 : r < r0
      · rw [if_pos h2]
        dsimp only
        simp only [searchNode, if_neg h1, if_pos h2]
        exact ihl
      · rw [if_neg h2]
        dsimp only
        simp only [searchNode, if_neg h1, if_neg h2]
        exact ihr

theorem findMin_head (l : BSTNode) (r : Int) (s : List String) (rt : BSTNode) :
    ∃ rest, toAssoc (.node l r s rt) = findMinNode (.node l r s rt) :: rest := by
  induction l generalizing r s rt with
  | leaf => exact ⟨toAssoc rt, by simp [toAssoc, findMinNode]⟩
  | node ll lr ls lrt ihl _ =>
    rcases ihl lr ls lrt with ⟨rest, hrest⟩
    refine ⟨rest ++ (r, s) :: toAssoc rt, ?_⟩
    show toAssoc (.node ll lr ls lrt) ++ (r, s) :: toAssoc rt = _
    rw [hrest]
    rfl

theorem findMin_mem (l : BSTNode) (r : Int) (s : List String) (rt : BSTNode) :
    findMinNode (.node l r s rt) ∈ toAssoc (.node l r s rt) := by
  rcases findMin_head l r s rt with ⟨rest, h⟩
  rw [h]
  exact List.mem_cons_self _ _

theorem findMin_min {l : BSTNode} {r : Int} {s : List String} {rt : BSTNode}
    (hs : TSorted (.node l r s rt)) :
    ∀ k ∈ tkeys (.node l r s rt), (findMinNode (.node l r s rt)).1 ≤ k := by
  rcases findMin_head l r s rt with ⟨rest, h⟩
  have hp := tsorted_pairwise hs
  have hk : tkeys (.node l r s rt) =
      (findMinNode (.node l r s rt)).1 :: rest.map Prod.fst := by
    unfold tkeys
    rw [h, List.map_cons]
  rw [hk] at hp ⊢
  intro k hkm
  rcases List.mem_cons.1 hkm with he | he
  · exact le_of_eq he.symm
  · exact le_of_lt ((List.pairwise_cons.1 hp).1 k he)

theorem delete_tkeys {t : BSTNode} (hs : TSorted t) :
    ∀ q k, k ∈ tkeys (deleteNode t q) ↔ k ∈ tkeys t ∧ k ≠ q := by
  induction hs with
  | leaf => intro q k; simp [deleteNode, tkeys_leaf]
  | @node l rt r0 songs hl hr hsl hsr ihl ihr =>
    intro q k
    unfold deleteNode
    by_cases h1 : q < r0
    · rw [if_pos h1]
      simp only [tkeys_node, List.mem_append, List.mem_cons, ihl q k]
      constructor
      · rintro (⟨hk, hne⟩ | h | h)
        · exact ⟨Or.inl hk, hne⟩
        · subst h
          exact ⟨Or.inr (Or.inl rfl), by omega⟩
        · exact ⟨Or.inr (Or.inr h), by have := hr k h; omega⟩
      · rintro ⟨hk | hk | hk, hne⟩
        · exact Or.inl ⟨hk, hne⟩
        · exact Or.inr (Or.inl hk)
        · exact Or.inr (Or.inr hk)
    · rw [if_neg h1]
      by_cases h2 : r0 < q
      · rw [if_pos h2]
        simp only [tkeys_node, List.mem_append, List.mem_cons, ihr q k]
        constructor
        · rintro (h | h | ⟨hk, hne⟩)
          · exact ⟨Or.inl h, by have := hl k h; omega⟩
          · subst h
            exact ⟨Or.inr (Or.inl rfl), by omega⟩
          · exact ⟨Or.inr (Or.inr hk), hne⟩
        · rintro ⟨hk | hk | hk, hne⟩
          · exact Or.inl hk
          · exact Or.inr (Or.inl hk)
          · exact Or.inr (Or.inr ⟨hk, hne⟩)
      · rw [if_neg h2]
        have heq : q = r0 := by omega
        rw [heq]
        cases l with
        | leaf =>
          dsimp only
          rw [mem_tkeys_node]
          constructor
          · intro h
            refine ⟨Or.inr (Or.inr h), by have := hr k h; omega⟩
          · rintro ⟨h | h | h, hne⟩
            · exact absurd h (by rw [tkeys_leaf]; exact List.not_mem_nil k)
            · exact absurd h hne
            · exact h
        | node ll lr ls lrt =>
          cases rt with
          | leaf =>
            dsimp only
            rw [show ∀ x, (x ∈ tkeys (.node (.node ll lr ls lrt) r0 songs .leaf) ↔
                x ∈ tkeys (.node ll lr ls lrt) ∨ x = r0 ∨ x ∈ tkeys .leaf)
              from fun x => mem_tkeys_node _ _ _ _ x]
            constructor
            · intro h
              exact ⟨Or.inl h, by have := hl k h; omega⟩
            · rintro ⟨h | h | h, hne⟩
              · exact h
              · exact absurd h hne
              · exact absurd h (by rw [tkeys_leaf]; exact List.not_mem_nil k)
          | node rl rr rs rrt =>
            dsimp only
            have hsuccmem : (findMinNode (.node rl rr rs rrt)).1 ∈
                tkeys (.node rl rr rs rrt) :=
              mem_tkeys_of_mem (findMin_mem rl rr rs rrt)
            have hsuccgt : r0 < (findMinNode (.node rl rr rs rrt)).1 :=
              hr _ hsuccmem
            constructor
            · intro hmem
              rcases (mem_tkeys_node _ _ _ _ k).1 hmem with h | h | h
              · exact ⟨(mem_tkeys_node _ _ _ _ k).2 (Or.inl h),
                  by have := hl k h; omega⟩
              · subst h
                exact ⟨(mem_tkeys_node _ _ _ _ _).2 (Or.inr (Or.inr hsuccmem)),
                  by omega⟩
              · obtain ⟨hkR, hkne⟩ := (ihr (findMinNode (.node rl rr rs rrt)).1 k).1 h
                exact ⟨(mem_tkeys_node _ _ _ _ k).2 (Or.inr (Or.inr hkR)),
                  by have := hr k hkR; omega⟩
            · rintro ⟨hmem, hne⟩
              rcases (mem_tkeys_node _ _ _ _ k).1 hmem with h | h | h
              · exact (mem_tkeys_node _ _ _ _ k).2 (Or.inl h)
              · exact absurd h hne
              · by_cases hks : k = (findMinNode (.node rl rr rs rrt)).1
                · exact (mem_tkeys_node _ _ _ _ k).2 (Or.inr (Or.inl hks))
                · exact (mem_tkeys_node _ _ _ _ k).2 (Or.inr (Or.inr
                    ((ihr (findMinNode (.node rl rr rs rrt)).1 k).2 ⟨h, hks⟩)))

theorem delete_sorted {t : BSTNode} (hs : TSorted t) :
    ∀ q, TSorted (deleteNode t q) := by
  induction hs with
  | leaf => intro q; exact .leaf
  | @node l rt r0 songs hl hr hsl hsr ihl ihr =>
    intro q
    unfold deleteNode
    by_cases h1 : q < r0
    · rw [if_pos h1]
      refine TSorted.node ?_ hr (ihl q) hsr
      intro k hk
      exact hl k ((delete_tkeys hsl q k).1 hk).1
    · rw [if_neg h1]
      by_cases h2 : r0 < q
      · rw [if_pos h2]
        refine TSorted.node hl ?_ hsl (ihr q)
        intro k hk
        exact hr k ((delete_tkeys hsr q k).1 hk).1
      · rw [if_neg h2]
        cases l with
        | leaf => exact hsr
        | node ll lr ls lrt =>
          cases rt with
          | leaf => exact hsl
          | node rl rr rs rrt =>
            dsimp only
            have hsuccmem : (findMinNode (.node rl rr rs rrt)).1 ∈
                tkeys (.node rl rr rs rrt) :=
              mem_tkeys_of_mem (findMin_mem rl rr rs rrt)
            have hsuccgt : r0 < (findMinNode (.node rl rr rs rrt)).1 :=
              hr _ hsuccmem
            refine TSorted.node ?_ ?_ hsl (ihr _)
            · intro k hk
              have := hl k hk
              omega
            · intro k hk
              obtain ⟨hkmem, hkne⟩ :=
                (delete_tkeys hsr (findMinNode (.node rl rr rs rrt)).1 k).1 hk
              have := findMin_min hsr k hkmem
              omega

theorem search_delete_other {t : BSTNode} (hs : TSorted t) :
    ∀ q r', r' ≠ q → searchNode (deleteNode t q) r' = searchNode t r' := by
  induction hs with
  | leaf => intro q r' _; rfl
  | @node l rt r0 songs hl hr hsl hsr ihl ihr =>
    intro q r' hne
    unfold deleteNode
    by_cases h1 : q < r0
    · rw [if_pos h1]
      by_cases h3 : r' = r0
      · subst h3
        simp [searchNode]
      · by_cases h4 : r' < r0
        · simp only [searchNode, if_neg h3, if_pos h4]
          exact ihl q r' hne
        · simp only [searchNode, if_neg h3, if_neg h4]
    · rw [if_neg h1]
      by_cases h2 : r0 < q
      · rw [if_pos h2]
        by_cases h3 : r' = r0
        · subst h3
          simp [searchNode]
        · by_cases h4 : r' < r0
          · simp only [searchNode, if_neg h3, if_pos h4]
          · simp only [searchNode, if_neg h3, if_neg h4]
            exact ihr q r' hne
      · rw [if_neg h2]
        have heq : q = r0 := by omega
        rw [heq] at hne
        cases l with
        | leaf =>
          dsimp only
          by_cases h4 : r' < r0
          · rw [show searchNode (.node .leaf r0 songs rt) r' = none from by
              simp only [searchNode, if_neg hne, if_pos h4]]
            exact searchNode_eq_none hsr fun hmem => by have := hr r' hmem; omega
          · simp only [searchNode, if_neg hne, if_neg h4]
        | node ll lr ls lrt =>
          cases rt with
          | leaf =>
            dsimp only
            by_cases h4 : r' < r0
            · simp only [searchNode, if_neg hne, if_pos h4]
            · rw [show searchNode (.node (.node ll lr ls lrt) r0 songs .leaf) r' =
                  none from by
                simp only [searchNode, if_neg hne, if_neg h4]]
              exact searchNode_eq_none hsl fun hmem => by have := hl r' hmem; omega
          | node rl rr rs rrt =>
            dsimp only
            have hsuccmem : (findMinNode (.node rl rr rs rrt)).1 ∈
                tkeys (.node rl rr rs rrt) :=
              mem_tkeys_of_mem (findMin_mem rl rr rs rrt)
            have hsuccgt : r0 < (findMinNode (.node rl rr rs rrt)).1 :=
              hr _ hsuccmem
            by_cases h5 : r' = (findMinNode (.node rl rr rs rrt)).1
            · subst h5
              rw [show searchNode
                  (.node (.node ll lr ls lrt) (findMinNode (.node rl rr rs rrt)).1
                    (findMinNode (.node rl rr rs rrt)).2
                    (deleteNode (.node rl rr rs rrt) (findMinNode (.node rl rr rs rrt)).1))
                  (findMinNode (.node rl rr rs rrt)).1 =
                  some (findMinNode (.node rl rr rs rrt)).2 from by
                simp [searchNode]]
              rw [show searchNode (.node (.node ll lr ls lrt) r0 songs
                  (.node rl rr rs rrt)) (findMinNode (.node rl rr rs rrt)).1 =
                  searchNode (.node rl rr rs rrt)
                    (findMinNode (.node rl rr rs rrt)).1 from by
                simp only [searchNode, if_neg (by omega : ¬ (findMinNode
                  (.node rl rr rs rrt)).1 = r0),
                  if_neg (by omega : ¬ (findMinNode (.node rl rr rs rrt)).1 < r0)]]
              exact (searchNode_of_mem hsr (findMin_mem rl rr rs rrt)).symm
            · by_cases h6 : r' < (findMinNode (.node rl rr rs rrt)).1
              · rw [show searchNode
                    (.node (.node ll lr ls lrt) (findMinNode (.node rl rr rs rrt)).1
                      (findMinNode (.node rl rr rs rrt)).2
                      (deleteNode (.node rl rr rs rrt)
                        (findMinNode (.node rl rr rs rrt)).1)) r' =
                    searchNode (.node ll lr ls lrt) r' from by
                  simp only [searchNode, if_neg h5, if_pos h6]]
                by_cases h4 : r' < r0
                · simp only [searchNode, if_neg hne, if_pos h4]
                · have hnone1 : searchNode (.node ll lr ls lrt) r' = none :=
                    searchNode_eq_none hsl fun hmem => by have := hl r' hmem; omega
                  have hnone2 : searchNode (.node rl rr rs rrt) r' = none :=
                    searchNode_eq_none hsr fun hmem => by
                      have := findMin_min hsr r' hmem
                      omega
                  rw [hnone1,
                    show searchNode (.node (.node ll lr ls lrt) r0 songs
                      (.node rl rr rs rrt)) r' = searchNode (.node rl rr rs rrt) r'
                      from by simp only [searchNode, if_neg hne, if_neg h4],
                    hnone2]
              · rw [show searchNode
                    (.node (.node ll lr ls lrt) (findMinNode (.node rl rr rs rrt)).1
                      (findMinNode (.node rl rr rs rrt)).2
                      (deleteNode (.node rl rr rs rrt)
                        (findMinNode (.node rl rr rs rrt)).1)) r' =
                    searchNode (deleteNode (.node rl rr rs rrt)
                      (findMinNode (.node rl rr rs rrt)).1) r' from by
                  simp only [searchNode, if_neg h5, if_neg h6]]
                rw [ihr (findMinNode (.node rl rr rs rrt)).1 r' h5]
                simp only [searchNode, if_neg hne,
                  if_neg (by omega : ¬ r' < r0)]

theorem search_delete_self {t : BSTNode} (hs : TSorted t) (q : Int) :
    searchNode (deleteNode t q) q = none := by
  refine searchNode_eq_none (delete_sorted hs q) ?_
  intro hmem
  exact ((delete_tkeys hs q q).1 hmem).2 rfl

end BSTNode

/-! ## C1 groundwork: heap and lookup-map helpers -/

theorem storeGet_set_self (st : Store) (id : String) (d : SongData) :
    storeGet (storeSet st id d) id = some d := by
  induction st with
  | nil => simp [storeSet, storeGet, List.find?]
  | cons p rest ih =>
    unfold storeSet
    by_cases h : p.1 = id
    · rw [if_pos h]
      unfold storeGet
      rw [List.find?_cons_of_pos _ (by simpa using h)]
    · rw [if_neg h]
      unfold storeGet at ih ⊢
      rw [List.find?_cons_of_neg _ (by simpa using h)]
      exact ih

theorem storeGet_set_other (st : Store) (id k : String) (d : SongData)
    (h : k ≠ id) : storeGet (storeSet st id d) k = storeGet st k := by
  induction st with
  | nil =>
    unfold storeSet storeGet
    rw [List.find?_cons_of_neg _ (by simpa using Ne.symm h)]
  | cons p rest ih =>
    unfold storeSet
    by_cases hp : p.1 = id
    · rw [if_pos hp]
      unfold storeGet
      rw [List.find?_cons_of_neg _ (by simp [hp]; exact Ne.symm h),
        List.find?_cons_of_neg _ (by simp [hp]; exact Ne.symm h)]
    · rw [if_neg hp]
      unfold storeGet at ih ⊢
      by_cases hk : p.1 = k
      · rw [List.find?_cons_of_pos _ (by simpa using hk),
          List.find?_cons_of_pos _ (by simpa using hk)]
      · rw [List.find?_cons_of_neg _ (by simpa using hk),
          List.find?_cons_of_neg _ (by simpa using hk)]
        exact ih

theorem storeGet_setRating_other (st : Store) (id k : String) (r : Int)
    (h : k ≠ id) : storeGet (storeSetRating st id r) k = storeGet st k := by
  unfold storeSetRating
  cases hd : storeGet st id with
  | none => rfl
  | some d => exact storeGet_set_other st id k _ h

theorem storeRating_setRating_other (st : Store) (id k : String) (r : Int)
    (h : k ≠ id) : storeRating (storeSetRating st id r) k = storeRating st k := by
  unfold storeRating
  rw [storeGet_setRating_other st id k r h]

theorem storeRating_setRating_self (st : Store) (id : String) (r : Int)
    (hd : storeGet st id ≠ none) (hr : 1 ≤ r ∧ r ≤ 5) :
    storeRating (storeSetRating st id r) id = r := by
  unfold storeSetRating
  cases hdg : storeGet st id with
  | none => exact absurd hdg hd
  | some d =>
    unfold storeRating
    rw [storeGet_set_self]
    unfold storeSetRating.songSetRating'
    rw [if_pos hr]
    rfl

theorem storeGet_setRating_none_iff (st : Store) (id k : String) (r : Int) :
    storeGet (storeSetRating st id r) k = none ↔ storeGet st k = none := by
  unfold storeSetRating
  cases hdg : storeGet st id with
  | none => exact Iff.rfl
  | some d =>
    by_cases h : k = id
    · subst h
      rw [storeGet_set_self, hdg]
      simp
    · rw [storeGet_set_other st id k _ h]

theorem storeRating_set_self (st : Store) (id : String) (d : SongData) :
    storeRating (storeSet st id d) id = d.rating := by
  unfold storeRating
  rw [storeGet_set_self]
  rfl

theorem storeRating_set_other (st : Store) (id k : String) (d : SongData)
    (h : k ≠ id) : storeRating (storeSet st id d) k = storeRating st k := by
  unfold storeRating
  rw [storeGet_set_other st id k d h]

theorem set_getD_self (L : List α) (i : Nat) (d : α) :
    L.set i (L.getD i d) = L := by
  induction L generalizing i with
  | nil => rfl
  | cons a rest ih =>
    cases i with
    | zero => rfl
    | succ n =>
      show a :: rest.set n (rest.getD n d) = a :: rest
      rw [ih]

namespace SongHashMap

theorem chainUpdate_self (b : List HashMapEntry) (k : String) (v : SongRef)
    (h : chainGet b k = some v) : UpdateSong.chainUpdate b k v = b := by
  induction b with
  | nil => rfl
  | cons e rest ih =>
    unfold UpdateSong.chainUpdate
    unfold chainGet at h
    by_cases he : e.key = k
    · rw [if_pos he] at h ⊢
      injection h with h
      subst h
      rfl
    · rw [if_neg he] at h ⊢
      rw [ih h]

theorem updateSong_id (m : SongHashMap) (song : SongRef)
    (h : m.Get song.id = some song) : m.UpdateSong song = m := by
  have hne : song.id ≠ "" := by
    intro he
    unfold Get at h
    rw [if_pos he] at h
    exact Option.noConfusion h
  unfold UpdateSong
  rw [if_neg hne]
  unfold Get at h
  rw [if_neg hne] at h
  dsimp only
  rw [chainUpdate_self _ _ _ h, set_getD_self]

theorem get_some_id {m : SongHashMap} (hid : ById m) {k : String} {v : SongRef}
    (h : m.Get k = some v) : v.id = k :=
  (hid _ (get_some_mem_entries h)).symm

theorem wf_new (c : Int) : HMWf (SongHashMap.new c) := by
  unfold SongHashMap.new HMWf entries
  dsimp only
  refine ⟨?_, ?_, ?_, ?_, ?_⟩
  · split <;> omega
  · simp
  · intro i hi e he
    rw [getD_replicate] at he
    simp at he
  · rw [flatten_replicate_nil]
    exact List.nodup_nil
  · intro e he
    rw [flatten_replicate_nil] at he
    simp at he

theorem byid_new (c : Int) : ById (SongHashMap.new c) := by
  intro e he
  unfold SongHashMap.new entries at he
  dsimp only at he
  rw [flatten_replicate_nil] at he
  simp at he

theorem get_new_none (c : Int) (k : String) :
    (SongHashMap.new c).Get k = none := by
  unfold SongHashMap.new Get
  dsimp only
  split
  · rfl
  · rw [getD_replicate]
    rfl

end SongHashMap

/-- Specification of the rating tree's `DeleteSong` under the invariant
hypotheses: the result is still a search tree, every surviving bucket is
an original bucket with at most the deleted song removed, the deleted
song is in no surviving bucket, and every other song keeps its bucket. -/
theorem bst_delete_spec (bst : SongRatingBST) (store : Store) (id : String)
    (hs : BSTNode.TSorted bst.root)
    (hmem : ∀ r b, BSTNode.searchNode bst.root r = some b →
      ∀ s ∈ b, storeRating store s = r)
    (hnd : ∀ r b, BSTNode.searchNode bst.root r = some b → b.Nodup) :
    BSTNode.TSorted (bst.DeleteSong store id).1.root ∧
    (∀ r b', BSTNode.searchNode (bst.DeleteSong store id).1.root r = some b' →
      ∃ b, BSTNode.searchNode bst.root r = some b ∧
        (b' = b ∨ b'.Perm (b.erase id))) ∧
    (∀ r b', BSTNode.searchNode (bst.DeleteSong store id).1.root r = some b' →
      id ∉ b') ∧
    (∀ s r b, s ≠ id → BSTNode.searchNode bst.root r = some b → s ∈ b →
      ∃ b', BSTNode.searchNode (bst.DeleteSong store id).1.root r = some b' ∧
        s ∈ b') := by
  unfold SongRatingBST.DeleteSong
  cases hfind : BSTNode.findSongInSubtree bst.root id with
  | none =>
    dsimp only
    refine ⟨hs, ?_, ?_, ?_⟩
    · intro r b' h
      exact ⟨b', h, Or.inl rfl⟩
    · intro r b' h hin
      exact BSTNode.findSong_none hfind (r, b') (BSTNode.searchNode_some_mem h) hin
    · intro s r b _ h hsb
      exact ⟨b, h, hsb⟩
  | some sid =>
    have hsid := BSTNode.findSong_eq_some hfind
    subst hsid
    obtain ⟨p, hp, hidp⟩ := BSTNode.findSong_some_exists
      (show BSTNode.findSongInSubtree bst.root sid ≠ none by rw [hfind]; simp)
    have hsearch_p : BSTNode.searchNode bst.root p.1 = some p.2 :=
      BSTNode.searchNode_of_mem hs hp
    have hrat : storeRating store sid = p.1 := hmem p.1 p.2 hsearch_p sid hidp
    dsimp only
    rw [hrat, hsearch_p]
    dsimp only
    have hbr := BSTNode.bucketRemove_perm hidp
    have hflags := BSTNode.rfb_flags bst.root p.1 sid
    rw [hsearch_p] at hflags
    dsimp only at hflags
    have hflag1 : (BSTNode.removeFromBucket bst.root p.1 sid).2.1 = true := by
      rw [hflags]
      exact hbr.2
    have hflag2 : (BSTNode.removeFromBucket bst.root p.1 sid).2.2 =
        (BSTNode.bucketRemoveSong p.2 sid).1.isEmpty := by
      rw [hflags]
    have hs1 : BSTNode.TSorted (BSTNode.removeFromBucket bst.root p.1 sid).1 :=
      BSTNode.rfb_sorted hs p.1 sid
    by_cases hemp : (BSTNode.bucketRemoveSong p.2 sid).1.isEmpty = true
    · rw [if_pos (by rw [hflag2]; exact ⟨hflag1, hemp⟩)]
      dsimp only
      have hnil : (BSTNode.bucketRemoveSong p.2 sid).1 = [] :=
        List.isEmpty_iff.1 hemp
      have herasenil : p.2.erase sid = [] := by
        have hx := hbr.1
        rw [hnil] at hx
        exact (hx.symm).eq_nil
      refine ⟨BSTNode.delete_sorted hs1 p.1, ?_, ?_, ?_⟩
      · intro r b' h
        by_cases hr0 : r = p.1
        · subst hr0
          rw [BSTNode.search_delete_self hs1 p.1] at h
          cases h
        · rw [BSTNode.search_delete_other hs1 p.1 r hr0,
            BSTNode.rfb_search_other bst.root p.1 r sid hr0] at h
          exact ⟨b', h, Or.inl rfl⟩
      · intro r b' h hin
        by_cases hr0 : r = p.1
        · subst hr0
          rw [BSTNode.search_delete_self hs1 p.1] at h
          cases h
        · rw [BSTNode.search_delete_other hs1 p.1 r hr0,
            BSTNode.rfb_search_other bst.root p.1 r sid hr0] at h
          have := hmem r b' h sid hin
          exact hr0 (by rw [← this, hrat])
      · intro s r b hsne h hsb
        by_cases hr0 : r = p.1
        · subst hr0
          exfalso
          have hb : b = p.2 := Option.some.inj (h.symm.trans hsearch_p)
          have hmem2 : s ∈ p.2.erase sid :=
            (List.mem_erase_of_ne hsne).2 (hb ▸ hsb)
          rw [herasenil] at hmem2
          simp at hmem2
        · refine ⟨b, ?_, hsb⟩
          rw [BSTNode.search_delete_other hs1 p.1 r hr0,
            BSTNode.rfb_search_other bst.root p.1 r sid hr0]
          exact h
    · rw [if_neg (by
        rintro ⟨-, h2⟩
        rw [hflag2] at h2
        exact hemp h2)]
      dsimp only
      refine ⟨hs1, ?_, ?_, ?_⟩
      · intro r b' h
        by_cases hr0 : r = p.1
        · subst hr0
          rw [BSTNode.rfb_search_self bst.root p.1 sid, hsearch_p,
            Option.map_some'] at h
          injection h with h
          subst h
          exact ⟨p.2, hsearch_p, Or.inr hbr.1⟩
        · rw [BSTNode.rfb_search_other bst.root p.1 r sid hr0] at h
          exact ⟨b', h, Or.inl rfl⟩
      · intro r b' h hin
        by_cases hr0 : r = p.1
        · subst hr0
          rw [BSTNode.rfb_search_self bst.root p.1 sid, hsearch_p,
            Option.map_some'] at h
          injection h with h
          subst h
          have hndp := hnd p.1 p.2 hsearch_p
          exact hndp.not_mem_erase (hbr.1.mem_iff.1 hin)
        · rw [BSTNode.rfb_search_other bst.root p.1 r sid hr0] at h
          have := hmem r b' h sid hin
          exact hr0 (by rw [← this, hrat])
      · intro s r b hsne h hsb
        by_cases hr0 : r = p.1
        · subst hr0
          have hb : b = p.2 := Option.some.inj (h.symm.trans hsearch_p)
          refine ⟨(BSTNode.bucketRemoveSong p.2 sid).1, ?_, ?_⟩
          · rw [BSTNode.rfb_search_self bst.root p.1 sid, hsearch_p,
              Option.map_some']
          · exact hbr.1.mem_iff.2 ((List.mem_erase_of_ne hsne).2 (hb ▸ hsb))
        · exact ⟨b, by
            rw [BSTNode.rfb_search_other bst.root p.1 r sid hr0]
            exact h, hsb⟩

/-! ## C1: invariant preservation along engine traces -/

theorem engineInv_new (name : String) : EngineInv (Engine.new name) := by
  unfold EngineInv Engine.new
  dsimp only
  refine ⟨SongHashMap.wf_new 64, SongHashMap.byid_new 64, ?_, ?_, .leaf, ?_, ?_⟩
  · intro k hk
    exact absurd (SongHashMap.get_new_none 64 k) hk
  · intro k
    have h0 : storeRating [] k = 0 := rfl
    rw [h0]
    omega
  · intro r b h
    simp [BSTNode.searchNode] at h
  · intro s hs
    exact absurd (SongHashMap.get_new_none 64 s) hs

theorem contains_false_get_none {m : SongHashMap} {k : String}
    (h : ¬ m.Contains k = true) : m.Get k = none := by
  unfold SongHashMap.Contains at h
  exact Option.not_isSome_iff_eq_none.1 h

theorem engineInv_addSong (e : Engine)
    (title artist album genre subgenre mood : String) (duration bpm now : Int)
    (hI : EngineInv e) :
    EngineInv (e.AddSong title artist album genre subgenre mood duration bpm now).1 := by
  obtain ⟨hwf, hid, hdom, hrange, hts, hbuck, hcomp⟩ := hI
  unfold Engine.AddSong
  by_cases hv : goTrimSpace title = "" ∨ goTrimSpace artist = ""
  · rw [if_pos hv]
    exact ⟨hwf, hid, hdom, hrange, hts, hbuck, hcomp⟩
  · rw [if_neg hv]
    dsimp only
    by_cases hdup : e.songLookup.Contains (Engine.generateSongID title artist now) = true
    · rw [if_pos hdup]
      exact ⟨hwf, hid, hdom, hrange, hts, hbuck, hcomp⟩
    · rw [if_neg hdup]
      dsimp only
      have hgnone : e.songLookup.Get (Engine.generateSongID title artist now) = none :=
        contains_false_get_none hdup
      have hr0 : storeRating
          (storeSet e.store (Engine.generateSongID title artist now)
            ⟨title, artist, genre, subgenre, mood, duration, 0⟩)
          (Engine.generateSongID title artist now) = 0 := by
        rw [storeRating_set_self]
      rw [hr0]
      rw [if_neg (by omega : ¬ (0 : Int) > 0)]
      dsimp only
      refine ⟨SongHashMap.wf_Put _ _ hwf, SongHashMap.byid_Put _ _ hwf hid,
        ?_, ?_, hts, ?_, ?_⟩
      · intro k hk
        by_cases hks : k = Engine.generateSongID title artist now
        · subst hks
          rw [storeGet_set_self]
          simp
        · rw [SongHashMap.get_Put_other e.songLookup _ k hwf hid hks] at hk
          rw [storeGet_set_other _ _ _ _ hks]
          exact hdom k hk
      · intro k
        by_cases hks : k = Engine.generateSongID title artist now
        · subst hks
          rw [storeRating_set_self]
          dsimp only
          omega
        · rw [storeRating_set_other _ _ _ _ hks]
          exact hrange k
      · intro r b h
        obtain ⟨hr15, hnd3, hmem3⟩ := hbuck r b h
        refine ⟨hr15, hnd3, ?_⟩
        intro s hsb
        obtain ⟨hsr, hsl⟩ := hmem3 s hsb
        have hssid : s ≠ Engine.generateSongID title artist now := by
          intro he
          rw [he, hgnone] at hsl
          exact hsl rfl
        rw [storeRating_set_other _ _ _ _ hssid,
          SongHashMap.get_Put_other e.songLookup _ s hwf hid hssid]
        exact ⟨hsr, hsl⟩
      · intro s hg hpos
        by_cases hssid : s = Engine.generateSongID title artist now
        · subst hssid
          rw [storeRating_set_self] at hpos
          dsimp only at hpos
          omega
        · rw [SongHashMap.get_Put_other e.songLookup _ s hwf hid hssid] at hg
          rw [storeRating_set_other _ _ _ _ hssid] at hpos ⊢
          exact hcomp s hg hpos

theorem engineInv_deleteSong (e : Engine) (index : Int) (hI : EngineInv e) :
    EngineInv (e.DeleteSong index).1 := by
  obtain ⟨hwf, hid, hdom, hrange, hts, hbuck, hcomp⟩ := hI
  unfold Engine.DeleteSong
  cases hdel : e.currentPlaylist.DeleteSong index with
  | none =>
    dsimp only
    exact ⟨hwf, hid, hdom, hrange, hts, hbuck, hcomp⟩
  | some pr =>
    obtain ⟨songID, pl⟩ := pr
    dsimp only
    have hget_self := SongHashMap.get_delete_self e.songLookup songID hwf
    have hget_other : ∀ k, k ≠ songID →
        ((e.songLookup.Delete songID).2).Get k = e.songLookup.Get k :=
      fun k hk => SongHashMap.get_delete_other e.songLookup songID k hwf.1 hwf.2.1 hk
    refine ⟨SongHashMap.wf_delete _ _ hwf, SongHashMap.byid_delete _ _ hwf hid,
      ?_, hrange, ?_, ?_, ?_⟩
    · intro k hk
      by_cases hks : k = songID
      · subst hks
        rw [hget_self] at hk
        exact absurd rfl hk
      · rw [hget_other k hks] at hk
        exact hdom k hk
    · by_cases hpos : storeRating e.store songID > 0
      · rw [if_pos hpos]
        exact (bst_delete_spec e.ratingTree e.store songID hts
          (fun r b h s hs => ((hbuck r b h).2.2 s hs).1)
          (fun r b h => (hbuck r b h).2.1)).1
      · rw [if_neg hpos]
        exact hts
    · intro r b h
      by_cases hpos : storeRating e.store songID > 0
      · rw [if_pos hpos] at h
        obtain ⟨-, hdsB, hdsNo, -⟩ := bst_delete_spec e.ratingTree e.store songID hts
          (fun r b h s hs => ((hbuck r b h).2.2 s hs).1)
          (fun r b h => (hbuck r b h).2.1)
        obtain ⟨b0, hb0, hcase⟩ := hdsB r b h
        obtain ⟨hr15, hnd3, hmem3⟩ := hbuck r b0 hb0
        have hnodup : b.Nodup := by
          rcases hcase with he | hperm
          · rw [he]
            exact hnd3
          · exact hperm.symm.nodup (hnd3.erase songID)
        refine ⟨hr15, hnodup, ?_⟩
        intro s hsb
        have hsmem0 : s ∈ b0 := by
          rcases hcase with he | hperm
          · rw [← he]
            exact hsb
          · exact (b0.erase_sublist songID).mem (hperm.mem_iff.1 hsb)
        have hsne : s ≠ songID := fun he => hdsNo r b h (he ▸ hsb)
        obtain ⟨hsr, hsl⟩ := hmem3 s hsmem0
        rw [hget_other s hsne]
        exact ⟨hsr, hsl⟩
      · rw [if_neg hpos] at h
        obtain ⟨hr15, hnd3, hmem3⟩ := hbuck r b h
        refine ⟨hr15, hnd3, ?_⟩
        intro s hsb
        obtain ⟨hsr, hsl⟩ := hmem3 s hsb
        have hsne : s ≠ songID := by
          intro he
          subst he
          omega
        rw [hget_other s hsne]
        exact ⟨hsr, hsl⟩
    · intro s hg hpos2
      have hsne : s ≠ songID := by
        intro he
        subst he
        rw [hget_self] at hg
        exact hg rfl
      rw [hget_other s hsne] at hg
      obtain ⟨b, hb, hsb⟩ := hcomp s hg hpos2
      by_cases hpos : storeRating e.store songID > 0
      · rw [if_pos hpos]
        obtain ⟨-, -, -, hdsKeep⟩ := bst_delete_spec e.ratingTree e.store songID hts
          (fun r b h s hs => ((hbuck r b h).2.2 s hs).1)
          (fun r b h => (hbuck r b h).2.1)
        exact hdsKeep s _ b hsne hb hsb
      · rw [if_neg hpos]
        exact ⟨b, hb, hsb⟩

theorem engineInv_rateSong (e : Engine) (songID : String) (rating : Int)
    (hI : EngineInv e) : EngineInv (e.RateSong songID rating).1 := by
  obtain ⟨hwf, hid, hdom, hrange, hts, hbuck, hcomp⟩ := hI
  unfold Engine.RateSong
  by_cases hv : rating < 1 ∨ rating > 5
  · rw [if_pos hv]
    exact ⟨hwf, hid, hdom, hrange, hts, hbuck, hcomp⟩
  · rw [if_neg hv]
    cases hg : e.songLookup.Get songID with
    | none =>
      dsimp only
      exact ⟨hwf, hid, hdom, hrange, hts, hbuck, hcomp⟩
    | some song =>
      dsimp only
      have hsid : song.id = songID := SongHashMap.get_some_id hid hg
      rw [hsid]
      have hupd : e.songLookup.UpdateSong song = e.songLookup :=
        SongHashMap.updateSong_id _ _ (by rw [hsid]; exact hg)
      rw [hupd]
      unfold SongRatingBST.InsertSong
      rw [if_neg hv]
      dsimp only
      have hvr : 1 ≤ rating ∧ rating ≤ 5 := by omega
      have hglookup : e.songLookup.Get songID ≠ none := by rw [hg]; simp
      have hdomID : storeGet e.store songID ≠ none := hdom songID hglookup
      have hdom1 : storeGet (storeSetRating e.store songID rating) songID ≠ none := by
        intro hnone
        exact hdomID ((storeGet_setRating_none_iff _ _ _ _).1 hnone)
      have hrat2self : storeRating
          (storeSetRating (storeSetRating e.store songID rating) songID rating)
          songID = rating :=
        storeRating_setRating_self _ _ _ hdom1 hvr
      have hrat2other : ∀ k, k ≠ songID → storeRating
          (storeSetRating (storeSetRating e.store songID rating) songID rating) k =
          storeRating e.store k := by
        intro k hk
        rw [storeRating_setRating_other _ _ _ _ hk,
          storeRating_setRating_other _ _ _ _ hk]
      have hdom2 : ∀ k, storeGet
          (storeSetRating (storeSetRating e.store songID rating) songID rating) k
            = none ↔ storeGet e.store k = none := by
        intro k
        rw [storeGet_setRating_none_iff, storeGet_setRating_none_iff]
      have key : BSTNode.TSorted (if storeRating e.store songID > 0
            then (e.ratingTree.DeleteSong e.store songID).1
            else e.ratingTree).root ∧
          (∀ r b', BSTNode.searchNode (if storeRating e.store songID > 0
              then (e.ratingTree.DeleteSong e.store songID).1
              else e.ratingTree).root r = some b' →
            (1 ≤ r ∧ r ≤ 5) ∧ b'.Nodup ∧
            ∀ s ∈ b', s ≠ songID ∧ storeRating e.store s = r ∧
              e.songLookup.Get s ≠ none) ∧
          (∀ s r b, s ≠ songID → BSTNode.searchNode e.ratingTree.root r = some b →
            s ∈ b → ∃ b', BSTNode.searchNode (if storeRating e.store songID > 0
              then (e.ratingTree.DeleteSong e.store songID).1
              else e.ratingTree).root r = some b' ∧ s ∈ b') := by
        by_cases hpos : storeRating e.store songID > 0
        · rw [if_pos hpos]
          obtain ⟨hds, hdsB, hdsNo, hdsKeep⟩ :=
            bst_delete_spec e.ratingTree e.store songID hts
              (fun r b h s hs => ((hbuck r b h).2.2 s hs).1)
              (fun r b h => (hbuck r b h).2.1)
          refine ⟨hds, ?_, hdsKeep⟩
          intro r b' h
          obtain ⟨b0, hb0, hcase⟩ := hdsB r b' h
          obtain ⟨hr15, hnd3, hmem3⟩ := hbuck r b0 hb0
          have hnodup : b'.Nodup := by
            rcases hcase with he | hperm
            · rw [he]
              exact hnd3
            · exact hperm.symm.nodup (hnd3.erase songID)
          refine ⟨hr15, hnodup, ?_⟩
          intro s hsb
          have hsmem0 : s ∈ b0 := by
            rcases hcase with he | hperm
            · rw [← he]
              exact hsb
            · exact (b0.erase_sublist songID).mem (hperm.mem_iff.1 hsb)
          obtain ⟨hsr, hsl⟩ := hmem3 s hsmem0
          exact ⟨fun he => hdsNo r b' h (he ▸ hsb), hsr, hsl⟩
        · rw [if_neg hpos]
          refine ⟨hts, ?_, ?_⟩
          · intro r b' h
            obtain ⟨hr15, hnd3, hmem3⟩ := hbuck r b' h
            refine ⟨hr15, hnd3, ?_⟩
            intro s hsb
            obtain ⟨hsr, hsl⟩ := hmem3 s hsb
            refine ⟨?_, hsr, hsl⟩
            intro he
            subst he
            omega
          · intro s r b _ hb hsb
            exact ⟨b, hb, hsb⟩
      obtain ⟨hk1, hk2, hk3⟩ := key
      unfold EngineInv
      dsimp only
      generalize hT : (if storeRating e.store songID > 0
          then (e.ratingTree.DeleteSong e.store songID).1
          else e.ratingTree) = T
      rw [hT] at hk1 hk2 hk3
      refine ⟨hwf, hid, ?_, ?_, ?_, ?_, ?_⟩
      · intro k hk hnone
        exact (hdom k hk) ((hdom2 k).1 hnone)
      · intro k
        by_cases hks : k = songID
        · subst hks
          rw [hrat2self]
          omega
        · rw [hrat2other k hks]
          exact hrange k
      · exact BSTNode.insert_sorted hk1 songID rating
      · intro r b h
        by_cases hr : r = rating
        · subst hr
          rw [BSTNode.search_insert_self] at h
          injection h with h
          subst h
          refine ⟨hvr, ?_, ?_⟩
          · cases hsr1 : BSTNode.searchNode T.root r with
            | none =>
              simp
            | some b0 =>
              obtain ⟨-, hnd3, hmem3⟩ := hk2 r b0 hsr1
              simp only [Option.getD_some]
              rw [List.nodup_append]
              refine ⟨hnd3, List.nodup_singleton _, ?_⟩
              intro a ha hb2
              have : a = songID := by simpa using hb2
              exact (hmem3 a ha).1 this
          · intro s hsb
            rcases List.mem_append.1 hsb with hs1 | hs2
            · cases hsr1 : BSTNode.searchNode T.root r with
              | none =>
                rw [hsr1] at hs1
                simp at hs1
              | some b0 =>
                rw [hsr1] at hs1
                simp only [Option.getD_some] at hs1
                obtain ⟨hne, hsr', hsl'⟩ := (hk2 r b0 hsr1).2.2 s hs1
                rw [hrat2other s hne]
                exact ⟨hsr', hsl'⟩
            · have hse : s = songID := by simpa using hs2
              subst hse
              exact ⟨hrat2self, hglookup⟩
        · rw [BSTNode.search_insert_other _ _ _ _ hr] at h
          obtain ⟨hr15, hnd3, hmem3⟩ := hk2 r b h
          refine ⟨hr15, hnd3, ?_⟩
          intro s hsb
          obtain ⟨hne, hsr', hsl'⟩ := hmem3 s hsb
          rw [hrat2other s hne]
          exact ⟨hsr', hsl'⟩
      · intro s hsl2 hpos2
        by_cases hssid : s = songID
        · subst hssid
          rw [hrat2self]
          rw [BSTNode.search_insert_self]
          exact ⟨_, rfl, List.mem_append.2 (Or.inr (List.mem_singleton.2 rfl))⟩
        · rw [hrat2other s hssid] at hpos2 ⊢
          obtain ⟨b, hb, hsb⟩ := hcomp s hsl2 hpos2
          obtain ⟨b', hb', hsb'⟩ := hk3 s _ b hssid hb hsb
          by_cases hrr : storeRating e.store s = rating
          · rw [hrr]
            rw [BSTNode.search_insert_self]
            refine ⟨_, rfl, ?_⟩
            rw [hrr] at hb'
            rw [hb']
            simp only [Option.getD_some]
            exact List.mem_append.2 (Or.inl hsb')
          · rw [BSTNode.search_insert_other _ _ _ (storeRating e.store s) hrr]
            exact ⟨b', hb', hsb'⟩

theorem reach_engineInv {e : Engine} (h : Engine.Reach e) : EngineInv e := by
  induction h with
  | new name => exact engineInv_new name
  | addSong title artist album genre subgenre mood duration bpm now _ ih =>
    exact engineInv_addSong _ title artist album genre subgenre mood
      duration bpm now ih
  | rateSong songID rating _ ih => exact engineInv_rateSong _ songID rating ih
  | deleteSong index _ ih => exact engineInv_deleteSong _ index ih

/-- **C1**.  In every engine state reachable by any sequence of
`addSong` / `rateSong` / `deleteSong` calls, every indexed entity whose
heap rating is positive appears exactly once in the rating-tree bucket
keyed by its exact rating, and in no bucket with any other key — in
particular `rateSong` moves the entity out of its old bucket before
inserting it into the new one. -/
theorem rating_bucket_invariant (e : Engine) (hreach : Engine.Reach e)
    (s : String) (hs : e.songLookup.Get s ≠ none)
    (hr : 0 < storeRating e.store s) :
    (e.GetSongsByRating (storeRating e.store s)).count s = 1 ∧
    ∀ r, r ≠ storeRating e.store s → s ∉ e.GetSongsByRating r := by
  obtain ⟨hwf, hid, hdom, hrange, hts, hbuck, hcomp⟩ := reach_engineInv hreach
  obtain ⟨b, hb, hsb⟩ := hcomp s hs hr
  have hb5 := (hrange s).2
  constructor
  · unfold Engine.GetSongsByRating SongRatingBST.SearchByRating
    rw [if_neg (by omega), hb]
    simp only [Option.getD_some]
    exact List.count_eq_one_of_mem (hbuck _ b hb).2.1 hsb
  · intro r hrne
    unfold Engine.GetSongsByRating SongRatingBST.SearchByRating
    by_cases hvr : r < 1 ∨ r > 5
    · rw [if_pos hvr]
      simp
    · rw [if_neg hvr]
      cases hb2 : BSTNode.searchNode e.ratingTree.root r with
      | none => simp
      | some b2 =>
        simp only [Option.getD_some]
        intro hmem
        exact hrne (((hbuck r b2 hb2).2.2 s hmem).1).symm

set_option maxRecDepth 10000 in
/-- Witness for C1: the reachable state new → addSong → rateSong 4; the
song's id sits exactly once in the bucket of its rating and not in the
bucket keyed 3. -/
theorem rating_bucket_invariant_witness :
    ((((Engine.new "p").AddSong "A" "x" "" "g" "sg" "m" 10 1 1).1.RateSong
        "a-x-1" 4).1.GetSongsByRating
      (storeRating (((Engine.new "p").AddSong "A" "x" "" "g" "sg" "m"
        10 1 1).1.RateSong "a-x-1" 4).1.store "a-x-1")).count "a-x-1" = 1 ∧
    "a-x-1" ∉ (((Engine.new "p").AddSong "A" "x" "" "g" "sg" "m"
      10 1 1).1.RateSong "a-x-1" 4).1.GetSongsByRating 3 := by
  have h := rating_bucket_invariant
    ((((Engine.new "p").AddSong "A" "x" "" "g" "sg" "m" 10 1 1).1.RateSong
      "a-x-1" 4).1)
    (Engine.Reach.rateSong "a-x-1" 4
      (Engine.Reach.addSong "A" "x" "" "g" "sg" "m" 10 1 1
        (Engine.Reach.new "p")))
    "a-x-1" (by decide) (by decide)
  exact ⟨h.1, h.2 3 (by decide)⟩

/-! ## C2 groundwork: the comparator is a total preorder -/

theorem strCompare_neg (a b : String) : strCompare b a = -(strCompare a b) := by
  unfold strCompare
  rcases lt_trichotomy a b with h | h | h
  · rw [if_neg (lt_asymm h), if_pos h, if_pos h]
    omega
  · subst h
    simp [lt_irrefl]
  · rw [if_pos h, if_neg (lt_asymm h), if_pos h]

theorem strCompare_le_iff (a b : String) : strCompare a b ≤ 0 ↔ a ≤ b := by
  unfold strCompare
  rcases lt_trichotomy a b with h | h | h
  · rw [if_pos h]
    simp [le_of_lt h]
  · subst h
    rw [if_neg (lt_irrefl a), if_neg (lt_irrefl a)]
    simp
  · rw [if_neg (lt_asymm h), if_pos h]
    simp [not_le.2 h]

theorem strCompare_lt_iff (a b : String) : strCompare a b < 0 ↔ a < b := by
  unfold strCompare
  rcases lt_trichotomy a b with h | h | h
  · rw [if_pos h]
    simp [h]
  · subst h
    rw [if_neg (lt_irrefl a), if_neg (lt_irrefl a)]
    simp
  · rw [if_neg (lt_asymm h), if_pos h]
    simp [not_lt_of_gt h]

theorem strCompare_eq_zero_iff (a b : String) : strCompare a b = 0 ↔ a = b := by
  unfold strCompare
  rcases lt_trichotomy a b with h | h | h
  · rw [if_pos h]
    simp [ne_of_lt h]
  · subst h
    rw [if_neg (lt_irrefl a), if_neg (lt_irrefl a)]
    simp
  · rw [if_neg (lt_asymm h), if_pos h]
    simp [(ne_of_lt h).symm]

theorem strLex_trans (u1 v1 w1 u2 v2 w2 : String)
    (h1 : (if strCompare u1 v1 = 0 then strCompare u2 v2 else strCompare u1 v1) ≤ 0)
    (h2 : (if strCompare v1 w1 = 0 then strCompare v2 w2 else strCompare v1 w1) ≤ 0) :
    (if strCompare u1 w1 = 0 then strCompare u2 w2 else strCompare u1 w1) ≤ 0 := by
  have H1 : u1 < v1 ∨ (u1 = v1 ∧ u2 ≤ v2) := by
    by_cases h : strCompare u1 v1 = 0
    · rw [if_pos h] at h1
      exact Or.inr ⟨(strCompare_eq_zero_iff _ _).1 h, (strCompare_le_iff _ _).1 h1⟩
    · rw [if_neg h] at h1
      exact Or.inl ((strCompare_lt_iff _ _).1 (lt_of_le_of_ne h1 h))
  have H2 : v1 < w1 ∨ (v1 = w1 ∧ v2 ≤ w2) := by
    by_cases h : strCompare v1 w1 = 0
    · rw [if_pos h] at h2
      exact Or.inr ⟨(strCompare_eq_zero_iff _ _).1 h, (strCompare_le_iff _ _).1 h2⟩
    · rw [if_neg h] at h2
      exact Or.inl ((strCompare_lt_iff _ _).1 (lt_of_le_of_ne h2 h))
  have goal_of_lt : u1 < w1 →
      (if strCompare u1 w1 = 0 then strCompare u2 w2 else strCompare u1 w1) ≤ 0 := by
    intro h
    rw [if_neg (fun h0 => absurd ((strCompare_eq_zero_iff _ _).1 h0) (ne_of_lt h))]
    exact le_of_lt ((strCompare_lt_iff _ _).2 h)
  rcases H1 with h1' | ⟨e1, t1⟩ <;> rcases H2 with h2' | ⟨e2, t2⟩
  · exact goal_of_lt (lt_trans h1' h2')
  · exact goal_of_lt (e2 ▸ h1')
  · exact goal_of_lt (e1 ▸ h2')
  · rw [if_pos ((strCompare_eq_zero_iff _ _).2 (e1.trans e2))]
    exact (strCompare_le_iff _ _).2 (le_trans t1 t2)

theorem intLex_trans (ra rb rc : Int) (ta tb tc : String)
    (h1 : (if rb - ra = 0 then strCompare ta tb else rb - ra) ≤ 0)
    (h2 : (if rc - rb = 0 then strCompare tb tc else rc - rb) ≤ 0) :
    (if rc - ra = 0 then strCompare ta tc else rc - ra) ≤ 0 := by
  have H1 : rb < ra ∨ (rb = ra ∧ ta ≤ tb) := by
    by_cases h : rb - ra = 0
    · rw [if_pos h] at h1
      exact Or.inr ⟨by omega, (strCompare_le_iff _ _).1 h1⟩
    · rw [if_neg h] at h1
      exact Or.inl (by omega)
  have H2 : rc < rb ∨ (rc = rb ∧ tb ≤ tc) := by
    by_cases h : rc - rb = 0
    · rw [if_pos h] at h2
      exact Or.inr ⟨by omega, (strCompare_le_iff _ _).1 h2⟩
    · rw [if_neg h] at h2
      exact Or.inl (by omega)
  have goal_of_lt : rc < ra →
      (if rc - ra = 0 then strCompare ta tc else rc - ra) ≤ 0 := by
    intro h
    rw [if_neg (by omega)]
    omega
  rcases H1 with h1' | ⟨e1, t1⟩ <;> rcases H2 with h2' | ⟨e2, t2⟩
  · exact goal_of_lt (by omega)
  · exact goal_of_lt (by omega)
  · exact goal_of_lt (by omega)
  · rw [if_pos (by omega)]
    exact (strCompare_le_iff _ _).2 (le_trans t1 t2)

theorem compareSongs_neg (c : SortCriteria) (a b : Song) :
    compareSongs c b a = -(compareSongs c a b) := by
  cases c with
  | SortByTitle => exact strCompare_neg _ _
  | SortByArtist =>
    simp only [compareSongs]
    by_cases h : strCompare (goToLower a.artist) (goToLower b.artist) = 0
    · rw [if_pos h, if_pos (by rw [strCompare_neg, h]; rfl)]
      exact strCompare_neg _ _
    · rw [if_neg h, if_neg (by rw [strCompare_neg]; omega)]
      exact strCompare_neg _ _
  | SortByDurationAsc =>
    simp only [compareSongs]
    omega
  | SortByDurationDesc =>
    simp only [compareSongs]
    omega
  | SortByRecentlyAdded =>
    simp only [compareSongs]
    rcases lt_trichotomy a.addedAt b.addedAt with h | h | h <;>
      · split_ifs <;> omega
  | SortByOldestAdded =>
    simp only [compareSongs]
    rcases lt_trichotomy a.addedAt b.addedAt with h | h | h <;>
      · split_ifs <;> omega
  | SortByRating =>
    simp only [compareSongs]
    by_cases h : b.rating - a.rating = 0
    · rw [if_pos h, if_pos (by omega)]
      exact strCompare_neg _ _
    · rw [if_neg h, if_neg (by omega)]
      omega
  | SortByPlayCount =>
    simp only [compareSongs]
    by_cases h : b.playCount - a.playCount = 0
    · rw [if_pos h, if_pos (by omega)]
      exact strCompare_neg _ _
    · rw [if_neg h, if_neg (by omega)]
      omega

theorem compareSongs_trans (c : SortCriteria) (a b d : Song)
    (h1 : compareSongs c a b ≤ 0) (h2 : compareSongs c b d ≤ 0) :
    compareSongs c a d ≤ 0 := by
  cases c with
  | SortByTitle =>
    simp only [compareSongs] at h1 h2 ⊢
    rw [strCompare_le_iff] at h1 h2 ⊢
    exact le_trans h1 h2
  | SortByArtist =>
    simp only [compareSongs] at h1 h2 ⊢
    exact strLex_trans _ _ _ _ _ _ h1 h2
  | SortByDurationAsc =>
    simp only [compareSongs] at h1 h2 ⊢
    omega
  | SortByDurationDesc =>
    simp only [compareSongs] at h1 h2 ⊢
    omega
  | SortByRecentlyAdded =>
    simp only [compareSongs] at h1 h2 ⊢
    split_ifs at h1 h2 ⊢ <;> omega
  | SortByOldestAdded =>
    simp only [compareSongs] at h1 h2 ⊢
    split_ifs at h1 h2 ⊢ <;> omega
  | SortByRating =>
    simp only [compareSongs] at h1 h2 ⊢
    exact intLex_trans _ _ _ _ _ _ h1 h2
  | SortByPlayCount =>
    simp only [compareSongs] at h1 h2 ⊢
    exact intLex_trans _ _ _ _ _ _ h1 h2

/-! ## C2 groundwork: sortedness observable and merge sort -/

theorem isStableSorted_iff_pairwise (cmp : Cmp)
    (htrans : ∀ a b d, cmp a b ≤ 0 → cmp b d ≤ 0 → cmp a d ≤ 0) :
    ∀ l, IsStableSorted cmp l = true ↔
      l.Pairwise (fun a b => cmp a b ≤ 0) := by
  intro l
  induction l with
  | nil => simp [IsStableSorted]
  | cons a t ih =>
    cases t with
    | nil => simp [IsStableSorted]
    | cons b rest =>
      rw [show IsStableSorted cmp (a :: b :: rest) =
          (decide (cmp a b ≤ 0) && IsStableSorted cmp (b :: rest)) from rfl]
      rw [Bool.and_eq_true, decide_eq_true_iff, ih]
      constructor
      · rintro ⟨hab, hp⟩
        refine List.pairwise_cons.2 ⟨?_, hp⟩
        intro x hx
        rcases List.mem_cons.1 hx with he | hm
        · subst he
          exact hab
        · exact htrans a b x hab ((List.pairwise_cons.1 hp).1 x hm)
      · intro hp
        obtain ⟨h1, hp2⟩ := List.pairwise_cons.1 hp
        exact ⟨h1 b (List.mem_cons_self b rest), hp2⟩

theorem mergeLists_perm (cmp : Cmp) :
    ∀ n (l r : List Song), l.length + r.length ≤ n →
      (mergeLists cmp l r).Perm (l ++ r) := by
  intro n
  induction n with
  | zero =>
    intro l r h
    have hl : l = [] := List.length_eq_zero.1 (by omega)
    have hr : r = [] := List.length_eq_zero.1 (by omega)
    subst hl hr
    simp [mergeLists]
  | succ n ih =>
    intro l r h
    rcases l with _ | ⟨a, l⟩
    · simp [mergeLists]
    rcases r with _ | ⟨b, r⟩
    · simp [mergeLists]
    rw [show mergeLists cmp (a :: l) (b :: r) =
        if cmp a b ≤ 0 then a :: mergeLists cmp l (b :: r)
        else b :: mergeLists cmp (a :: l) r from by rw [mergeLists]]
    by_cases hc : cmp a b ≤ 0
    · rw [if_pos hc]
      exact (ih l (b :: r) (by simp at h ⊢; omega)).cons a
    · rw [if_neg hc]
      exact ((ih (a :: l) r (by simp at h ⊢; omega)).cons b).trans
        List.perm_middle.symm

theorem mergeLists_sorted (cmp : Cmp)
    (hneg : ∀ a b, cmp b a = -(cmp a b))
    (htrans : ∀ a b d, cmp a b ≤ 0 → cmp b d ≤ 0 → cmp a d ≤ 0) :
    ∀ n (l r : List Song), l.length + r.length ≤ n →
      l.Pairwise (fun a b => cmp a b ≤ 0) →
      r.Pairwise (fun a b => cmp a b ≤ 0) →
      (mergeLists cmp l r).Pairwise (fun a b => cmp a b ≤ 0) := by
  intro n
  induction n with
  | zero =>
    intro l r h _ _
    have hl : l = [] := List.length_eq_zero.1 (by omega)
    have hr : r = [] := List.length_eq_zero.1 (by omega)
    subst hl hr
    rw [show mergeLists cmp [] [] = [] from by rw [mergeLists]]
    exact List.Pairwise.nil
  | succ n ih =>
    intro l r h hpl hpr
    rcases l with _ | ⟨a, l⟩
    · simpa [mergeLists] using hpr
    rcases r with _ | ⟨b, r⟩
    · simpa [mergeLists] using hpl
    rw [show mergeLists cmp (a :: l) (b :: r) =
        if cmp a b ≤ 0 then a :: mergeLists cmp l (b :: r)
        else b :: mergeLists cmp (a :: l) r from by rw [mergeLists]]
    by_cases hc : cmp a b ≤ 0
    · rw [if_pos hc]
      obtain ⟨ha, hpl'⟩ := List.pairwise_cons.1 hpl
      refine List.pairwise_cons.2
        ⟨?_, ih l (b :: r) (by simp at h ⊢; omega) hpl' hpr⟩
      intro x hx
      have hx2 : x ∈ l ++ b :: r :=
        (mergeLists_perm cmp (l.length + (b :: r).length) l (b :: r)
          le_rfl).mem_iff.1 hx
      rcases List.mem_append.1 hx2 with hm | hm
      · exact ha x hm
      · rcases List.mem_cons.1 hm with he | hm2
        · subst he
          exact hc
        · exact htrans a b x hc ((List.pairwise_cons.1 hpr).1 x hm2)
    · rw [if_neg hc]
      have hba : cmp b a ≤ 0 := by rw [hneg]; omega
      obtain ⟨hb, hpr'⟩ := List.pairwise_cons.1 hpr
      refine List.pairwise_cons.2
        ⟨?_, ih (a :: l) r (by simp at h ⊢; omega) hpl hpr'⟩
      intro x hx
      have hx2 : x ∈ (a :: l) ++ r :=
        (mergeLists_perm cmp ((a :: l).length + r.length) (a :: l) r
          le_rfl).mem_iff.1 hx
      rcases List.mem_append.1 hx2 with hm | hm
      · rcases List.mem_cons.1 hm with he | hm2
        · subst he
          exact hba
        · exact htrans b a x hba ((List.pairwise_cons.1 hpl).1 x hm2)
      · exact hb x hm

theorem pairwise_of_length_le_one {cmp : Cmp} {l : List Song}
    (h : l.length ≤ 1) : l.Pairwise (fun a b => cmp a b ≤ 0) := by
  rcases l with _ | ⟨a, _ | ⟨b, t⟩⟩
  · exact List.Pairwise.nil
  · exact List.pairwise_singleton _ _
  · simp at h

theorem mergeSortSeg_spec (cmp : Cmp)
    (hneg : ∀ a b, cmp b a = -(cmp a b))
    (htrans : ∀ a b d, cmp a b ≤ 0 → cmp b d ≤ 0 → cmp a d ≤ 0) :
    ∀ n (l : List Song), l.length ≤ n →
      (mergeSortSeg cmp l).Perm l ∧
      (mergeSortSeg cmp l).Pairwise (fun a b => cmp a b ≤ 0) := by
  intro n
  induction n with
  | zero =>
    intro l h
    have hl : l = [] := List.length_eq_zero.1 (by omega)
    subst hl
    rw [show mergeSortSeg cmp [] = [] from by
      rw [mergeSortSeg]
      simp]
    exact ⟨.refl _, .nil⟩
  | succ n ih =>
    intro l h
    by_cases hlen : l.length ≤ 1
    · rw [show mergeSortSeg cmp l = l from by
        rw [mergeSortSeg, if_pos hlen]]
      exact ⟨.refl _, pairwise_of_length_le_one hlen⟩
    · have heq : mergeSortSeg cmp l =
          mergeLists cmp (mergeSortSeg cmp (l.take ((l.length - 1) / 2 + 1)))
            (mergeSortSeg cmp (l.drop ((l.length - 1) / 2 + 1))) := by
        rw [mergeSortSeg, if_neg hlen]
      rw [heq]
      have htl : (l.take ((l.length - 1) / 2 + 1)).length ≤ n := by
        rw [List.length_take]
        omega
      have hdl : (l.drop ((l.length - 1) / 2 + 1)).length ≤ n := by
        rw [List.length_drop]
        omega
      obtain ⟨hp1, hs1⟩ := ih _ htl
      obtain ⟨hp2, hs2⟩ := ih _ hdl
      constructor
      · refine (mergeLists_perm cmp _ _ _ le_rfl).trans ?_
        refine (hp1.append hp2).trans ?_
        rw [List.take_append_drop]
      · exact mergeLists_sorted cmp hneg htrans _ _ _ le_rfl hs1 hs2

theorem mergeSort_spec (cmp : Cmp)
    (hneg : ∀ a b, cmp b a = -(cmp a b))
    (htrans : ∀ a b d, cmp a b ≤ 0 → cmp b d ≤ 0 → cmp a d ≤ 0)
    (l : List Song) :
    (MergeSort cmp l).Perm l ∧
    (MergeSort cmp l).Pairwise (fun a b => cmp a b ≤ 0) := by
  unfold MergeSort
  by_cases h : l.length ≤ 1
  · rw [if_pos h]
    exact ⟨.refl _, pairwise_of_length_le_one h⟩
  · rw [if_neg h]
    exact mergeSortSeg_spec cmp hneg htrans l.length l le_rfl

/-! ## C2 groundwork: the in-place swap -/

theorem swapIdx_length (a : List Song) (i j : Nat) :
    (swapIdx a i j).length = a.length := by
  unfold swapIdx
  rw [List.length_set, List.length_set]

theorem swapIdx_getD_other (a : List Song) (i j p : Nat) (h1 : p ≠ i)
    (h2 : p ≠ j) : (swapIdx a i j).getD p default = a.getD p default := by
  unfold swapIdx
  rw [SongHashMap.getD_set_other _ _ _ _ _ (Ne.symm h2), SongHashMap.getD_set_other _ _ _ _ _ (Ne.symm h1)]

theorem swapIdx_getD_left (a : List Song) (i j : Nat) (hi : i < a.length) :
    (swapIdx a i j).getD i default = a.getD j default := by
  unfold swapIdx
  by_cases he : i = j
  · subst he
    rw [SongHashMap.getD_set_self _ _ _ _ (by rwa [List.length_set])]
  · rw [SongHashMap.getD_set_other _ _ _ _ _ (fun h => he h.symm), SongHashMap.getD_set_self _ _ _ _ hi]

theorem swapIdx_getD_right (a : List Song) (i j : Nat) (hj : j < a.length) :
    (swapIdx a i j).getD j default = a.getD i default := by
  unfold swapIdx
  rw [SongHashMap.getD_set_self _ _ _ _ (by rwa [List.length_set])]

theorem swapIdx_self (a : List Song) (i : Nat) : swapIdx a i i = a := by
  unfold swapIdx
  rw [set_getD_self, set_getD_self]

theorem swapIdx_comm (a : List Song) (i j : Nat) (h : i ≠ j) :
    swapIdx a i j = swapIdx a j i := by
  unfold swapIdx
  rw [List.set_comm _ _ _ h]

theorem cons_set_perm (l : List Song) (k : Nat) (hk : k < l.length) (v : Song) :
    ((l.getD k default) :: l.set k v).Perm (v :: l) := by
  have hdecomp : l.take k ++ l.getD k default :: l.drop (k + 1) = l := by
    rw [List.getD_eq_getElem _ _ hk, ← List.drop_eq_getElem_cons hk,
      List.take_append_drop]
  have hset : l.set k v = l.take k ++ v :: l.drop (k + 1) := by
    rw [List.set_eq_take_append_cons_drop, if_pos hk]
  rw [hset]
  conv_rhs => rw [← hdecomp]
  exact List.Perm.trans (.cons _ List.perm_middle)
    (List.Perm.trans (List.Perm.swap v _ _) (.cons _ List.perm_middle.symm))

theorem swapIdx_perm (a : List Song) (i j : Nat) (hi : i < a.length)
    (hj : j < a.length) : (swapIdx a i j).Perm a := by
  induction a generalizing i j with
  | nil => simp at hi
  | cons x xs ih =>
    by_cases he : i = j
    · subst he
      rw [swapIdx_self]
    · cases i with
      | zero =>
        cases j with
        | zero => exact absurd rfl he
        | succ m =>
          have hm : m < xs.length := by simpa using hj
          simp only [swapIdx, List.getD_cons_succ, List.getD_cons_zero,
            List.set_cons_zero, List.set_cons_succ]
          exact cons_set_perm xs m hm x
      | succ n =>
        cases j with
        | zero =>
          rw [swapIdx_comm _ _ _ he]
          have hn : n < xs.length := by simpa using hi
          simp only [swapIdx, List.getD_cons_succ, List.getD_cons_zero,
            List.set_cons_zero, List.set_cons_succ]
          exact cons_set_perm xs n hn x
        | succ m =>
          have hn : n < xs.length := by simpa using hi
          have hm : m < xs.length := by simpa using hj
          simp only [swapIdx, List.getD_cons_succ, List.set_cons_succ]
          exact .cons x (ih n m hn hm)

/-! ## C2 groundwork: Lomuto partition and quicksort -/

theorem lomutoLoop_spec (cmp : Cmp) (pivot : Song) :
    ∀ k (a : List Song) (i1 j : Nat),
      i1 ≤ j → j + k ≤ a.length →
      (∀ p, p < i1 → cmp (a.getD p default) pivot ≤ 0) →
      (∀ p, i1 ≤ p → p < j → ¬ cmp (a.getD p default) pivot ≤ 0) →
      (lomutoLoop cmp pivot k a i1 j).1.Perm a ∧
      (lomutoLoop cmp pivot k a i1 j).1.length = a.length ∧
      i1 ≤ (lomutoLoop cmp pivot k a i1 j).2 ∧
      (lomutoLoop cmp pivot k a i1 j).2 ≤ j + k ∧
      (∀ p, p < (lomutoLoop cmp pivot k a i1 j).2 →
        cmp ((lomutoLoop cmp pivot k a i1 j).1.getD p default) pivot ≤ 0) ∧
      (∀ p, (lomutoLoop cmp pivot k a i1 j).2 ≤ p → p < j + k →
        ¬ cmp ((lomutoLoop cmp pivot k a i1 j).1.getD p default) pivot ≤ 0) ∧
      (∀ p, j + k ≤ p →
        (lomutoLoop cmp pivot k a i1 j).1.getD p default = a.getD p default) := by
  intro k
  induction k with
  | zero =>
    intro a i1 j hij hlen hlow hhigh
    rw [show lomutoLoop cmp pivot 0 a i1 j = (a, i1) from rfl]
    exact ⟨.refl _, rfl, le_rfl, by omega, hlow,
      fun p h1 h2 => hhigh p h1 (by omega), fun p _ => rfl⟩
  | succ k ih =>
    intro a i1 j hij hlen hlow hhigh
    rw [show lomutoLoop cmp pivot (k + 1) a i1 j =
        (if cmp (a.getD j default) pivot ≤ 0 then
          lomutoLoop cmp pivot k (swapIdx a i1 j) (i1 + 1) (j + 1)
        else lomutoLoop cmp pivot k a i1 (j + 1)) from rfl]
    by_cases hc : cmp (a.getD j default) pivot ≤ 0
    · rw [if_pos hc]
      have hjlen : j < a.length := by omega
      have hi1len : i1 < a.length := by omega
      have hswlen : (swapIdx a i1 j).length = a.length := swapIdx_length a i1 j
      have hlow2 : ∀ p, p < i1 + 1 →
          cmp ((swapIdx a i1 j).getD p default) pivot ≤ 0 := by
        intro p hp
        by_cases hpe : p = i1
        · subst hpe
          rw [swapIdx_getD_left a p j hi1len]
          exact hc
        · rw [swapIdx_getD_other a i1 j p hpe (by omega)]
          exact hlow p (by omega)
      have hhigh2 : ∀ p, i1 + 1 ≤ p → p < j + 1 →
          ¬ cmp ((swapIdx a i1 j).getD p default) pivot ≤ 0 := by
        intro p hp1 hp2
        by_cases hpe : p = j
        · subst hpe
          rw [swapIdx_getD_right a i1 p hjlen]
          exact hhigh i1 le_rfl (by omega)
        · rw [swapIdx_getD_other a i1 j p (by omega) hpe]
          exact hhigh p (by omega) (by omega)
      obtain ⟨P, L, I1, I2, LOW, HIGH, FIX⟩ := ih (swapIdx a i1 j) (i1 + 1) (j + 1)
        (by omega) (by rw [hswlen]; omega) hlow2 hhigh2
      refine ⟨P.trans (swapIdx_perm a i1 j hi1len hjlen), by rw [L, hswlen],
        by omega, by omega, LOW, ?_, ?_⟩
      · intro p hp1 hp2
        exact HIGH p hp1 (by omega)
      · intro p hp
        rw [FIX p (by omega), swapIdx_getD_other a i1 j p (by omega) (by omega)]
    · rw [if_neg hc]
      have hhigh2 : ∀ p, i1 ≤ p → p < j + 1 →
          ¬ cmp (a.getD p default) pivot ≤ 0 := by
        intro p hp1 hp2
        by_cases hpe : p = j
        · subst hpe
          exact hc
        · exact hhigh p hp1 (by omega)
      obtain ⟨P, L, I1, I2, LOW, HIGH, FIX⟩ := ih a i1 (j + 1)
        (by omega) (by omega) hlow hhigh2
      refine ⟨P, L, I1, by omega, LOW, ?_, ?_⟩
      · intro p hp1 hp2
        exact HIGH p hp1 (by omega)
      · intro p hp
        exact FIX p (by omega)

theorem partitionSeg_spec (cmp : Cmp) (a : List Song) (h2 : 2 ≤ a.length) :
    (partitionSeg cmp a).1.Perm a ∧
    (partitionSeg cmp a).1.length = a.length ∧
    (partitionSeg cmp a).2 < a.length ∧
    (∀ p, p < (partitionSeg cmp a).2 →
      cmp ((partitionSeg cmp a).1.getD p default)
        ((partitionSeg cmp a).1.getD (partitionSeg cmp a).2 default) ≤ 0) ∧
    (∀ p, (partitionSeg cmp a).2 < p → p < a.length →
      ¬ cmp ((partitionSeg cmp a).1.getD p default)
        ((partitionSeg cmp a).1.getD (partitionSeg cmp a).2 default) ≤ 0) := by
  obtain ⟨P, L, I1, I2, LOW, HIGH, FIX⟩ := lomutoLoop_spec cmp
    (a.getD (a.length - 1) default) (a.length - 1) a 0 0
    le_rfl (by omega) (fun p hp => absurd hp (Nat.not_lt_zero p))
    (fun p h1 h2 => absurd h2 (by omega))
  have hres : partitionSeg cmp a =
      (swapIdx (lomutoLoop cmp (a.getD (a.length - 1) default)
          (a.length - 1) a 0 0).1
        (lomutoLoop cmp (a.getD (a.length - 1) default) (a.length - 1) a 0 0).2
        (a.length - 1),
       (lomutoLoop cmp (a.getD (a.length - 1) default) (a.length - 1) a 0 0).2) := by
    unfold partitionSeg
    dsimp only
  rw [hres]
  dsimp only
  have hI2 : (lomutoLoop cmp (a.getD (a.length - 1) default)
      (a.length - 1) a 0 0).2 ≤ a.length - 1 := by omega
  have hlast : a.length - 1 < (lomutoLoop cmp (a.getD (a.length - 1) default)
      (a.length - 1) a 0 0).1.length := by omega
  have hi1lt : (lomutoLoop cmp (a.getD (a.length - 1) default)
      (a.length - 1) a 0 0).2 < (lomutoLoop cmp (a.getD (a.length - 1) default)
      (a.length - 1) a 0 0).1.length := by omega
  have hpivotEq : (swapIdx (lomutoLoop cmp (a.getD (a.length - 1) default)
        (a.length - 1) a 0 0).1
      (lomutoLoop cmp (a.getD (a.length - 1) default) (a.length - 1) a 0 0).2
      (a.length - 1)).getD
      (lomutoLoop cmp (a.getD (a.length - 1) default) (a.length - 1) a 0 0).2
      default = a.getD (a.length - 1) default := by
    rw [swapIdx_getD_left _ _ _ hi1lt, FIX (a.length - 1) (by omega)]
  refine ⟨?_, ?_, by omega, ?_, ?_⟩
  · exact (swapIdx_perm _ _ _ hi1lt hlast).trans P
  · rw [swapIdx_length, L]
  · intro p hp
    rw [hpivotEq, swapIdx_getD_other _ _ _ _ (by omega) (by omega)]
    exact LOW p hp
  · intro p hp1 hp2
    rw [hpivotEq]
    by_cases hpe : p = a.length - 1
    · subst hpe
      rw [swapIdx_getD_right _ _ _ hlast]
      exact HIGH _ le_rfl (by omega)
    · rw [swapIdx_getD_other _ _ _ _ (by omega) hpe]
      exact HIGH p (by omega) (by omega)

theorem quickSortFuel_spec (cmp : Cmp)
    (hneg : ∀ a b, cmp b a = -(cmp a b))
    (htrans : ∀ a b d, cmp a b ≤ 0 → cmp b d ≤ 0 → cmp a d ≤ 0) :
    ∀ fuel (a : List Song), a.length ≤ fuel →
      (quickSortFuel cmp fuel a).Perm a ∧
      (quickSortFuel cmp fuel a).Pairwise (fun x y => cmp x y ≤ 0) := by
  intro fuel
  induction fuel with
  | zero =>
    intro a h
    have ha : a = [] := List.length_eq_zero.1 (by omega)
    subst ha
    exact ⟨.refl _, .nil⟩
  | succ fuel ih =>
    intro a h
    rw [show quickSortFuel cmp (fuel + 1) a =
        (if a.length ≤ 1 then a else
          quickSortFuel cmp fuel
              ((partitionSeg cmp a).1.take (partitionSeg cmp a).2) ++
            (partitionSeg cmp a).1.getD (partitionSeg cmp a).2 default ::
              quickSortFuel cmp fuel
                ((partitionSeg cmp a).1.drop ((partitionSeg cmp a).2 + 1)))
        from rfl]
    by_cases h1 : a.length ≤ 1
    · rw [if_pos h1]
      exact ⟨.refl _, pairwise_of_length_le_one h1⟩
    · rw [if_neg h1]
      obtain ⟨P, L, Hlt, LOW, HIGH⟩ := partitionSeg_spec cmp a (by omega)
      have htl : ((partitionSeg cmp a).1.take (partitionSeg cmp a).2).length
          ≤ fuel := by
        rw [List.length_take]
        omega
      have hdl : ((partitionSeg cmp a).1.drop
          ((partitionSeg cmp a).2 + 1)).length ≤ fuel := by
        rw [List.length_drop]
        omega
      obtain ⟨Pt, St⟩ := ih _ htl
      obtain ⟨Pd, Sd⟩ := ih _ hdl
      have hAdecomp : (partitionSeg cmp a).1.take (partitionSeg cmp a).2 ++
          (partitionSeg cmp a).1.getD (partitionSeg cmp a).2 default ::
            (partitionSeg cmp a).1.drop ((partitionSeg cmp a).2 + 1) =
          (partitionSeg cmp a).1 := by
        rw [List.getD_eq_getElem _ _ (by omega),
          ← List.drop_eq_getElem_cons (by omega), List.take_append_drop]
      have hmemtake : ∀ x ∈ (partitionSeg cmp a).1.take (partitionSeg cmp a).2,
          cmp x ((partitionSeg cmp a).1.getD (partitionSeg cmp a).2 default)
            ≤ 0 := by
        intro x hx
        rcases List.mem_take_iff_getElem.1 hx with ⟨i, hm, he⟩
        have hi : i < (partitionSeg cmp a).2 := lt_of_lt_of_le hm inf_le_left
        have := LOW i hi
        rwa [List.getD_eq_getElem _ _ (by omega), he] at this
      have hmemdrop : ∀ x ∈ (partitionSeg cmp a).1.drop
          ((partitionSeg cmp a).2 + 1),
          cmp ((partitionSeg cmp a).1.getD (partitionSeg cmp a).2 default) x
            ≤ 0 := by
        intro x hx
        rcases List.mem_drop_iff_getElem.1 hx with ⟨i, hm, he⟩
        have hgt := HIGH ((partitionSeg cmp a).2 + 1 + i) (by omega) (by omega)
        rw [List.getD_eq_getElem _ _ (by omega), he] at hgt
        rw [hneg]
        omega
      constructor
      · refine ((Pt.append (Pd.cons _)).trans ?_).trans P
        rw [hAdecomp]
      · rw [List.pairwise_append]
        refine ⟨St, List.pairwise_cons.2 ⟨?_, Sd⟩, ?_⟩
        · intro x hx
          exact hmemdrop x (Pd.mem_iff.1 hx)
        · intro x hx y hy
          have hxle := hmemtake x (Pt.mem_iff.1 hx)
          rcases List.mem_cons.1 hy with he | hm
          · subst he
            exact hxle
          · exact htrans x _ y hxle (hmemdrop y (Pd.mem_iff.1 hm))

theorem quickSort_spec (cmp : Cmp)
    (hneg : ∀ a b, cmp b a = -(cmp a b))
    (htrans : ∀ a b d, cmp a b ≤ 0 → cmp b d ≤ 0 → cmp a d ≤ 0)
    (l : List Song) :
    (QuickSort cmp l).Perm l ∧
    (QuickSort cmp l).Pairwise (fun a b => cmp a b ≤ 0) := by
  unfold QuickSort
  by_cases h : l.length ≤ 1
  · rw [if_pos h]
    exact ⟨.refl _, pairwise_of_length_le_one h⟩
  · rw [if_neg h]
    exact quickSortFuel_spec cmp hneg htrans l.length l le_rfl

/-! ## C2 groundwork: heapsort -/

theorem heapify_basic (cmp : Cmp) :
    ∀ m (a : List Song) (n i : Nat), n - i ≤ m → n ≤ a.length →
      (heapify cmp a n i).Perm a ∧
      (heapify cmp a n i).length = a.length ∧
      (∀ p, p < i ∨ n ≤ p →
        (heapify cmp a n i).getD p default = a.getD p default) := by
  intro m
  induction m with
  | zero =>
    intro a n i h hn
    rw [heapify]
    rw [if_neg (by omega : ¬ (2*i+1 < n ∧
      cmp (a.getD (2*i+1) default) (a.getD i default) > 0)),
      if_neg (by omega : ¬ (2*i+2 < n ∧
      cmp (a.getD (2*i+2) default) (a.getD i default) > 0)),
      if_neg (by omega : ¬ ((i : Nat) ≠ i))]
    exact ⟨.refl _, rfl, fun p _ => rfl⟩
  | succ m ihm =>
    intro a n i h hn
    rw [heapify]
    by_cases hc1 : 2*i+1 < n ∧ cmp (a.getD (2*i+1) default) (a.getD i default) > 0
    · rw [if_pos hc1]
      by_cases hc2 : 2*i+2 < n ∧
          cmp (a.getD (2*i+2) default) (a.getD (2*i+1) default) > 0
      · rw [if_pos hc2, if_pos (by omega : (2*i+2 : Nat) ≠ i)]
        obtain ⟨P, L, F⟩ := ihm (swapIdx a i (2*i+2)) n (2*i+2)
          (by omega) (by rw [swapIdx_length]; exact hn)
        refine ⟨P.trans (swapIdx_perm a i (2*i+2) (by omega) (by omega)),
          by rw [L, swapIdx_length], ?_⟩
        intro p hp
        rw [F p (by omega), swapIdx_getD_other a i (2*i+2) p (by omega) (by omega)]
      · rw [if_neg hc2, if_pos (by omega : (2*i+1 : Nat) ≠ i)]
        obtain ⟨P, L, F⟩ := ihm (swapIdx a i (2*i+1)) n (2*i+1)
          (by omega) (by rw [swapIdx_length]; exact hn)
        refine ⟨P.trans (swapIdx_perm a i (2*i+1) (by omega) (by omega)),
          by rw [L, swapIdx_length], ?_⟩
        intro p hp
        rw [F p (by omega), swapIdx_getD_other a i (2*i+1) p (by omega) (by omega)]
    · rw [if_neg hc1]
      by_cases hc2 : 2*i+2 < n ∧
          cmp (a.getD (2*i+2) default) (a.getD i default) > 0
      · rw [if_pos hc2, if_pos (by omega : (2*i+2 : Nat) ≠ i)]
        obtain ⟨P, L, F⟩ := ihm (swapIdx a i (2*i+2)) n (2*i+2)
          (by omega) (by rw [swapIdx_length]; exact hn)
        refine ⟨P.trans (swapIdx_perm a i (2*i+2) (by omega) (by omega)),
          by rw [L, swapIdx_length], ?_⟩
        intro p hp
        rw [F p (by omega), swapIdx_getD_other a i (2*i+2) p (by omega) (by omega)]
      · rw [if_neg hc2, if_neg (by omega : ¬ ((i : Nat) ≠ i))]
        exact ⟨.refl _, rfl, fun p _ => rfl⟩

theorem heapify_swap_side (cmp : Cmp) (a : List Song) (n i cur L : Nat)
    (hn : n ≤ a.length)
    (hL : L = 2 * cur + 1 ∨ L = 2 * cur + 2) (hLn : L < n) (hicur : i ≤ cur)
    (hexc : ∀ j c, i ≤ j → j ≠ cur → (c = 2 * j + 1 ∨ c = 2 * j + 2) → c < n →
      cmp (a.getD c default) (a.getD j default) ≤ 0)
    (hgrand : ∀ p c, i ≤ p → (cur = 2 * p + 1 ∨ cur = 2 * p + 2) →
      (c = 2 * cur + 1 ∨ c = 2 * cur + 2) → c < n →
      cmp (a.getD c default) (a.getD p default) ≤ 0)
    (hswap : cmp (a.getD cur default) (a.getD L default) ≤ 0)
    (hother : ∀ c, (c = 2 * cur + 1 ∨ c = 2 * cur + 2) → c ≠ L → c < n →
      cmp (a.getD c default) (a.getD L default) ≤ 0) :
    (∀ j c, i ≤ j → j ≠ L → (c = 2 * j + 1 ∨ c = 2 * j + 2) → c < n →
      cmp ((swapIdx a cur L).getD c default)
        ((swapIdx a cur L).getD j default) ≤ 0) ∧
    (∀ p c, i ≤ p → (L = 2 * p + 1 ∨ L = 2 * p + 2) →
      (c = 2 * L + 1 ∨ c = 2 * L + 2) → c < n →
      cmp ((swapIdx a cur L).getD c default)
        ((swapIdx a cur L).getD p default) ≤ 0) := by
  have hcurlen : cur < a.length := by omega
  have hLlen : L < a.length := by omega
  have hbcur : (swapIdx a cur L).getD cur default = a.getD L default :=
    swapIdx_getD_left a cur L hcurlen
  have hbL : (swapIdx a cur L).getD L default = a.getD cur default :=
    swapIdx_getD_right a cur L hLlen
  constructor
  · intro j c hij hjL hcj hcn
    by_cases hjcur : j = cur
    · subst hjcur
      rw [hbcur]
      by_cases hcL : c = L
      · subst hcL
        rw [hbL]
        exact hswap
      · rw [swapIdx_getD_other a j L c (by omega) hcL]
        exact hother c hcj hcL hcn
    · rw [swapIdx_getD_other a cur L j hjcur hjL]
      by_cases hccur : c = cur
      · subst hccur
        rw [hbcur]
        exact hgrand j L hij (by omega) hL hLn
      · by_cases hcL : c = L
        · omega
        · rw [swapIdx_getD_other a cur L c hccur hcL]
          exact hexc j c hij hjcur hcj hcn
  · intro p c hip hparent hchild hcn
    have hp : p = cur := by omega
    subst hp
    rw [hbcur]
    have hccur : c ≠ p := by omega
    have hcL : c ≠ L := by omega
    rw [swapIdx_getD_other a p L c hccur hcL]
    exact hexc L c (by omega) (by omega) hchild hcn

theorem heapify_correct (cmp : Cmp)
    (hneg : ∀ x y, cmp y x = -(cmp x y))
    (htrans : ∀ x y z, cmp x y ≤ 0 → cmp y z ≤ 0 → cmp x z ≤ 0) :
    ∀ m (a : List Song) (n i cur : Nat), n - cur ≤ m → n ≤ a.length →
      i ≤ cur →
      (∀ j c, i ≤ j → j ≠ cur → (c = 2 * j + 1 ∨ c = 2 * j + 2) → c < n →
        cmp (a.getD c default) (a.getD j default) ≤ 0) →
      (∀ p c, i ≤ p → (cur = 2 * p + 1 ∨ cur = 2 * p + 2) →
        (c = 2 * cur + 1 ∨ c = 2 * cur + 2) → c < n →
        cmp (a.getD c default) (a.getD p default) ≤ 0) →
      ∀ j c, i ≤ j → (c = 2 * j + 1 ∨ c = 2 * j + 2) → c < n →
        cmp ((heapify cmp a n cur).getD c default)
          ((heapify cmp a n cur).getD j default) ≤ 0 := by
  intro m
  induction m with
  | zero =>
    intro a n i cur h hn hicur hexc hgrand j c hij hcj hcn
    rw [heapify,
      if_neg (by omega : ¬ (2*cur+1 < n ∧
        cmp (a.getD (2*cur+1) default) (a.getD cur default) > 0)),
      if_neg (by omega : ¬ (2*cur+2 < n ∧
        cmp (a.getD (2*cur+2) default) (a.getD cur default) > 0)),
      if_neg (by omega : ¬ ((cur : Nat) ≠ cur))]
    by_cases hjc : j = cur
    · omega
    · exact hexc j c hij hjc hcj hcn
  | succ m ihm =>
    intro a n i cur h hn hicur hexc hgrand j c hij hcj hcn
    rw [heapify]
    by_cases hc1 : 2*cur+1 < n ∧
        cmp (a.getD (2*cur+1) default) (a.getD cur default) > 0
    · rw [if_pos hc1]
      have hflip1 : cmp (a.getD cur default) (a.getD (2*cur+1) default) ≤ 0 := by
        have := hneg (a.getD (2*cur+1) default) (a.getD cur default)
        omega
      by_cases hc2 : 2*cur+2 < n ∧
          cmp (a.getD (2*cur+2) default) (a.getD (2*cur+1) default) > 0
      · rw [if_pos hc2, if_pos (by omega : (2*cur+2 : Nat) ≠ cur)]
        have hflip2 : cmp (a.getD (2*cur+1) default)
            (a.getD (2*cur+2) default) ≤ 0 := by
          have := hneg (a.getD (2*cur+2) default) (a.getD (2*cur+1) default)
          omega
        have hside := heapify_swap_side cmp a n i cur (2*cur+2) hn
          (Or.inr rfl) hc2.1 hicur hexc hgrand
          (htrans _ _ _ hflip1 hflip2)
          (by
            intro c' hc' hne hcn'
            have hc'' : c' = 2*cur+1 := by omega
            subst hc''
            exact hflip2)
        exact ihm (swapIdx a cur (2*cur+2)) n i (2*cur+2) (by omega)
          (by rw [swapIdx_length]; exact hn) (by omega) hside.1 hside.2
          j c hij hcj hcn
      · rw [if_neg hc2, if_pos (by omega : (2*cur+1 : Nat) ≠ cur)]
        have hside := heapify_swap_side cmp a n i cur (2*cur+1) hn
          (Or.inl rfl) hc1.1 hicur hexc hgrand hflip1
          (by
            intro c' hc' hne hcn'
            have hc'' : c' = 2*cur+2 := by omega
            subst hc''
            omega)
        exact ihm (swapIdx a cur (2*cur+1)) n i (2*cur+1) (by omega)
          (by rw [swapIdx_length]; exact hn) (by omega) hside.1 hside.2
          j c hij hcj hcn
    · rw [if_neg hc1]
      by_cases hc2 : 2*cur+2 < n ∧
          cmp (a.getD (2*cur+2) default) (a.getD cur default) > 0
      · rw [if_pos hc2, if_pos (by omega : (2*cur+2 : Nat) ≠ cur)]
        have hflip2 : cmp (a.getD cur default)
            (a.getD (2*cur+2) default) ≤ 0 := by
          have := hneg (a.getD (2*cur+2) default) (a.getD cur default)
          omega
        have hside := heapify_swap_side cmp a n i cur (2*cur+2) hn
          (Or.inr rfl) hc2.1 hicur hexc hgrand hflip2
          (by
            intro c' hc' hne hcn'
            have hc'' : c' = 2*cur+1 := by omega
            subst hc''
            have hle : cmp (a.getD (2*cur+1) default)
                (a.getD cur default) ≤ 0 := by omega
            exact htrans _ _ _ hle hflip2)
        exact ihm (swapIdx a cur (2*cur+2)) n i (2*cur+2) (by omega)
          (by rw [swapIdx_length]; exact hn) (by omega) hside.1 hside.2
          j c hij hcj hcn
      · rw [if_neg hc2, if_neg (by omega : ¬ ((cur : Nat) ≠ cur))]
        by_cases hjc : j = cur
        · subst hjc
          rcases hcj with hcj | hcj <;> subst hcj <;> omega
        · exact hexc j c hij hjc hcj hcn

theorem buildLoop_spec (cmp : Cmp)
    (hneg : ∀ x y, cmp y x = -(cmp x y))
    (htrans : ∀ x y z, cmp x y ≤ 0 → cmp y z ≤ 0 → cmp x z ≤ 0) :
    ∀ k (a : List Song) (n : Nat), n ≤ a.length → HeapAbove cmp a n k →
      (buildLoop cmp n k a).Perm a ∧
      (buildLoop cmp n k a).length = a.length ∧
      HeapAbove cmp (buildLoop cmp n k a) n 0 := by
  intro k
  induction k with
  | zero =>
    intro a n hn hheap
    exact ⟨.refl _, rfl, hheap⟩
  | succ k ih =>
    intro a n hn hheap
    rw [show buildLoop cmp n (k + 1) a =
        buildLoop cmp n k (heapify cmp a n k) from rfl]
    have hb := heapify_basic cmp (n - k) a n k le_rfl hn
    have hheap2 : HeapAbove cmp (heapify cmp a n k) n k := by
      intro j c hkj hcj hcn
      exact heapify_correct cmp hneg htrans (n - k) a n k k le_rfl hn le_rfl
        (fun j' c' hkj' hne' hcj' hcn' => hheap j' c' (by omega) hcj' hcn')
        (fun p c' hip hpar _ _ => by omega)
        j c hkj hcj hcn
    obtain ⟨P, L, H⟩ := ih (heapify cmp a n k) n (by rw [hb.2.1]; exact hn) hheap2
    exact ⟨P.trans hb.1, by rw [L, hb.2.1], H⟩

theorem heap_le_root (cmp : Cmp)
    (hneg : ∀ x y, cmp y x = -(cmp x y))
    (htrans : ∀ x y z, cmp x y ≤ 0 → cmp y z ≤ 0 → cmp x z ≤ 0)
    (a : List Song) (nn : Nat) (h : HeapAbove cmp a nn 0) :
    ∀ j, j < nn → cmp (a.getD j default) (a.getD 0 default) ≤ 0 := by
  intro j
  induction j using Nat.strong_induction_on with
  | _ j ih =>
    intro hj
    rcases Nat.eq_zero_or_pos j with hj0 | hj0
    · subst hj0
      have := hneg (a.getD 0 default) (a.getD 0 default)
      omega
    · have hparent : j = 2 * ((j - 1) / 2) + 1 ∨ j = 2 * ((j - 1) / 2) + 2 := by
        omega
      have h1 := h ((j - 1) / 2) j (Nat.zero_le _) hparent hj
      have h2 := ih ((j - 1) / 2) (by omega) (by omega)
      exact htrans _ _ _ h1 h2

theorem perm_take_of_perm_of_drop_eq (l₁ l₂ : List Song) (k : Nat)
    (hp : l₁.Perm l₂) (hd : l₁.drop k = l₂.drop k) :
    (l₁.take k).Perm (l₂.take k) := by
  have h1 : l₁.take k ++ l₁.drop k = l₁ := List.take_append_drop k l₁
  have h2 : l₂.take k ++ l₂.drop k = l₂ := List.take_append_drop k l₂
  rw [← h1, ← h2, hd] at hp
  exact (List.perm_append_right_iff _).1 hp

theorem drop_eq_of_getD_eq (l₁ l₂ : List Song) (k : Nat)
    (hlen : l₁.length = l₂.length)
    (h : ∀ p, k ≤ p → l₁.getD p default = l₂.getD p default) :
    l₁.drop k = l₂.drop k := by
  apply List.ext_getElem (by rw [List.length_drop, List.length_drop, hlen])
  intro n h₁ h₂
  rw [List.getElem_drop, List.getElem_drop]
  have hb1 : k + n < l₁.length := by
    rw [List.length_drop] at h₁
    omega
  have hb2 : k + n < l₂.length := by
    rw [List.length_drop] at h₂
    omega
  have := h (k + n) (by omega)
  rwa [List.getD_eq_getElem _ _ hb1, List.getD_eq_getElem _ _ hb2] at this

theorem extractLoop_spec (cmp : Cmp)
    (hneg : ∀ x y, cmp y x = -(cmp x y))
    (htrans : ∀ x y z, cmp x y ≤ 0 → cmp y z ≤ 0 → cmp x z ≤ 0) :
    ∀ i (a : List Song), i + 1 ≤ a.length →
      HeapAbove cmp a (i + 1) 0 →
      (∀ q, i < q → q + 1 < a.length →
        cmp (a.getD q default) (a.getD (q + 1) default) ≤ 0) →
      (∀ p q, p ≤ i → i < q → q < a.length →
        cmp (a.getD p default) (a.getD q default) ≤ 0) →
      (extractLoop cmp i a).Perm a ∧
      (extractLoop cmp i a).length = a.length ∧
      (∀ q, q + 1 < a.length →
        cmp ((extractLoop cmp i a).getD q default)
          ((extractLoop cmp i a).getD (q + 1) default) ≤ 0) := by
  intro i
  induction i with
  | zero =>
    intro a hlen hheap hsorted hsep
    refine ⟨.refl _, rfl, ?_⟩
    intro q hq
    rcases Nat.eq_zero_or_pos q with h0 | h0
    · subst h0
      exact hsep 0 1 le_rfl (by omega) (by omega)
    · exact hsorted q (by omega) hq
  | succ i ih =>
    intro a hlen hheap hsorted hsep
    rw [show extractLoop cmp (i + 1) a =
        extractLoop cmp i (heapify cmp (swapIdx a 0 (i + 1)) (i + 1) 0)
        from rfl]
    have h0len : 0 < a.length := by omega
    have hi1len : i + 1 < a.length := by omega
    have hblen : (swapIdx a 0 (i + 1)).length = a.length := swapIdx_length _ _ _
    have hb0 : (swapIdx a 0 (i + 1)).getD 0 default = a.getD (i + 1) default :=
      swapIdx_getD_left _ _ _ h0len
    have hbtop : (swapIdx a 0 (i + 1)).getD (i + 1) default =
        a.getD 0 default :=
      swapIdx_getD_right _ _ _ hi1len
    have hbother : ∀ p, p ≠ 0 → p ≠ i + 1 →
        (swapIdx a 0 (i + 1)).getD p default = a.getD p default :=
      fun p h1 h2 => swapIdx_getD_other a 0 (i + 1) p h1 h2
    have hherm := heapify_basic cmp (i + 1) (swapIdx a 0 (i + 1)) (i + 1) 0
      (by omega) (by omega)
    have hclen : (heapify cmp (swapIdx a 0 (i + 1)) (i + 1) 0).length =
        a.length := by
      rw [hherm.2.1, hblen]
    have hcfix : ∀ p, i + 1 ≤ p →
        (heapify cmp (swapIdx a 0 (i + 1)) (i + 1) 0).getD p default =
          (swapIdx a 0 (i + 1)).getD p default :=
      fun p hp => hherm.2.2 p (Or.inr hp)
    have hcheap : HeapAbove cmp
        (heapify cmp (swapIdx a 0 (i + 1)) (i + 1) 0) (i + 1) 0 := by
      intro j c hj hcj hcn
      refine heapify_correct cmp hneg htrans (i + 1) (swapIdx a 0 (i + 1))
        (i + 1) 0 0 (by omega) (by omega) le_rfl ?_ ?_ j c hj hcj hcn
      · intro j' c' _ hne hcj' hcn'
        rw [hbother c' (by omega) (by omega), hbother j' hne (by omega)]
        exact hheap j' c' (Nat.zero_le _) hcj' (by omega)
      · intro p c' _ hpar _ _
        omega
    have hdropeq : (heapify cmp (swapIdx a 0 (i + 1)) (i + 1) 0).drop (i + 1) =
        (swapIdx a 0 (i + 1)).drop (i + 1) :=
      drop_eq_of_getD_eq _ _ (i + 1) (by rw [hherm.2.1]) hcfix
    have htake := perm_take_of_perm_of_drop_eq _ _ (i + 1) hherm.1 hdropeq
    have hval : ∀ v ∈ (swapIdx a 0 (i + 1)).take (i + 1),
        ∀ q, i < q → q < a.length →
        cmp v ((swapIdx a 0 (i + 1)).getD q default) ≤ 0 := by
      intro v hv q hq hqlen
      rcases List.mem_take_iff_getElem.1 hv with ⟨p', hp', he⟩
      have hp'lt : p' < i + 1 := lt_of_lt_of_le hp' inf_le_left
      have hvb : v = (swapIdx a 0 (i + 1)).getD p' default := by
        rw [List.getD_eq_getElem _ _ (by rw [hblen]; omega), he]
      rcases Nat.eq_zero_or_pos p' with h0 | h0
      · subst h0
        rw [hvb, hb0]
        by_cases hqi : q = i + 1
        · subst hqi
          rw [hbtop]
          exact heap_le_root cmp hneg htrans a (i + 1 + 1) hheap (i + 1)
            (by omega)
        · rw [hbother q (by omega) hqi]
          exact hsep (i + 1) q le_rfl (by omega) hqlen
      · rw [hvb, hbother p' (by omega) (by omega)]
        by_cases hqi : q = i + 1
        · subst hqi
          rw [hbtop]
          exact heap_le_root cmp hneg htrans a (i + 1 + 1) hheap p' (by omega)
        · rw [hbother q (by omega) hqi]
          exact hsep p' q (by omega) (by omega) hqlen
    have hKey : ∀ p q, p ≤ i → i < q → q < a.length →
        cmp ((heapify cmp (swapIdx a 0 (i + 1)) (i + 1) 0).getD p default)
          ((heapify cmp (swapIdx a 0 (i + 1)) (i + 1) 0).getD q default)
          ≤ 0 := by
      intro p q hp hq hqlen
      rw [hcfix q (by omega)]
      refine hval _ ?_ q hq hqlen
      refine htake.mem_iff.1 ?_
      refine List.mem_take_iff_getElem.2 ⟨p, ?_, ?_⟩
      · refine lt_min_iff.2 ⟨by omega, by rw [hclen]; omega⟩
      · rw [← List.getD_eq_getElem _ default (by rw [hclen]; omega)]
    have hSorted : ∀ q, i < q → q + 1 < a.length →
        cmp ((heapify cmp (swapIdx a 0 (i + 1)) (i + 1) 0).getD q default)
          ((heapify cmp (swapIdx a 0 (i + 1)) (i + 1) 0).getD (q + 1) default)
          ≤ 0 := by
      intro q hq hq1
      rw [hcfix q (by omega), hcfix (q + 1) (by omega)]
      by_cases hqi : q = i + 1
      · subst hqi
        rw [hbtop, hbother (i + 1 + 1) (by omega) (by omega)]
        exact hsep 0 (i + 1 + 1) (by omega) (by omega) (by omega)
      · rw [hbother q (by omega) hqi, hbother (q + 1) (by omega) (by omega)]
        exact hsorted q (by omega) hq1
    obtain ⟨P, L, S⟩ := ih (heapify cmp (swapIdx a 0 (i + 1)) (i + 1) 0)
      (by rw [hclen]; omega) hcheap
      (by
        intro q hq hq1
        rw [hclen] at hq1
        exact hSorted q hq hq1)
      (by
        intro p q hp hq hqlen
        rw [hclen] at hqlen
        exact hKey p q hp hq hqlen)
    refine ⟨P.trans (hherm.1.trans (swapIdx_perm a 0 (i + 1) h0len hi1len)),
      by rw [L, hclen], ?_⟩
    intro q hq
    exact S q (by rw [hclen]; exact hq)

theorem adjacent_sorted_pairwise (cmp : Cmp)
    (htrans : ∀ x y z, cmp x y ≤ 0 → cmp y z ≤ 0 → cmp x z ≤ 0)
    (l : List Song)
    (h : ∀ q, q + 1 < l.length →
      cmp (l.getD q default) (l.getD (q + 1) default) ≤ 0) :
    l.Pairwise (fun a b => cmp a b ≤ 0) := by
  have hstep : ∀ d p, p + d < l.length → 0 < d →
      cmp (l.getD p default) (l.getD (p + d) default) ≤ 0 := by
    intro d
    induction d with
    | zero =>
      intro p _ h0
      omega
    | succ d ihd =>
      intro p hp hd
      rcases Nat.eq_zero_or_pos d with h0 | h0
      · subst h0
        exact h p (by omega)
      · refine htrans _ _ _ (ihd p (by omega) h0) ?_
        have := h (p + d) (by omega)
        rwa [show p + d + 1 = p + (d + 1) from by omega] at this
  rw [List.pairwise_iff_getElem]
  intro i j hi hj hij
  have := hstep (j - i) i (by omega) (by omega)
  rwa [show i + (j - i) = j from by omega,
    List.getD_eq_getElem _ _ hi, List.getD_eq_getElem _ _ hj] at this

theorem heapSort_spec (cmp : Cmp)
    (hneg : ∀ x y, cmp y x = -(cmp x y))
    (htrans : ∀ x y z, cmp x y ≤ 0 → cmp y z ≤ 0 → cmp x z ≤ 0)
    (l : List Song) :
    (HeapSort cmp l).Perm l ∧
    (HeapSort cmp l).Pairwise (fun a b => cmp a b ≤ 0) := by
  unfold HeapSort
  by_cases h : l.length ≤ 1
  · rw [if_pos h]
    exact ⟨.refl _, pairwise_of_length_le_one h⟩
  · rw [if_neg h]
    obtain ⟨PB, LB, HB⟩ := buildLoop_spec cmp hneg htrans (l.length / 2) l
      l.length le_rfl
      (by
        intro j c hj hcj hcn
        omega)
    obtain ⟨PE, LE, SE⟩ := extractLoop_spec cmp hneg htrans (l.length - 1)
      (buildLoop cmp l.length (l.length / 2) l)
      (by rw [LB]; omega)
      (by
        rw [show l.length - 1 + 1 = l.length from by omega]
        exact HB)
      (by
        intro q hq hq1
        rw [LB] at hq1
        omega)
      (by
        intro p q hp hq hqlen
        rw [LB] at hqlen
        omega)
    refine ⟨PE.trans PB, ?_⟩
    refine adjacent_sorted_pairwise cmp htrans _ ?_
    intro q hq
    rw [LE, LB] at hq
    exact SE q (by rw [LB]; exact hq)

theorem sorted_perm_unique (cmp : Cmp)
    (hneg : ∀ x y, cmp y x = -(cmp x y)) :
    ∀ (l₁ l₂ : List Song),
      (∀ a ∈ l₁, ∀ b ∈ l₁, cmp a b = 0 → a = b) →
      l₁.Perm l₂ →
      l₁.Pairwise (fun a b => cmp a b ≤ 0) →
      l₂.Pairwise (fun a b => cmp a b ≤ 0) →
      l₁ = l₂ := by
  intro l₁
  induction l₁ with
  | nil =>
    intro l₂ _ hp _ _
    exact hp.symm.eq_nil.symm
  | cons a t ih =>
    intro l₂ hanti hp h₁ h₂
    cases l₂ with
    | nil => exact absurd hp.eq_nil (by simp)
    | cons b t₂ =>
      have hab : a = b := by
        have ha2 : a ∈ b :: t₂ := hp.mem_iff.1 (.head _)
        have hb1 : b ∈ a :: t := hp.symm.mem_iff.1 (.head _)
        rcases List.mem_cons.1 ha2 with h | h
        · exact h
        rcases List.mem_cons.1 hb1 with h' | h'
        · exact h'.symm
        have hba : cmp b a ≤ 0 := (List.pairwise_cons.1 h₂).1 a h
        have hab' : cmp a b ≤ 0 := (List.pairwise_cons.1 h₁).1 b h'
        refine hanti a (.head _) b (.tail _ h') ?_
        have := hneg a b
        omega
      subst hab
      have hp' : t.Perm t₂ := hp.cons_inv
      have ht := ih t₂
        (fun x hx y hy h0 => hanti x (.tail _ hx) y (.tail _ hy) h0)
        hp' (List.pairwise_cons.1 h₁).2 (List.pairwise_cons.1 h₂).2
      rw [ht]

set_option maxRecDepth 4000 in
/-- C2 counterexample: two distinct songs whose titles tie under
`SortByTitle`.  The tied input is already sorted and merge sort keeps its
order, but heap sort swaps the two entities: the algorithms do not agree
on this input, and heap sort applied to an already-sorted input changes
the ordering. -/
theorem sort_cross_agreement_counterexample :
    IsStableSorted (compareSongs .SortByTitle)
      [⟨"id1", "same", "art", "", 100, "", "", "", 0, 0, 0, 0⟩,
       ⟨"id2", "same", "art", "", 120, "", "", "", 0, 0, 0, 0⟩] = true ∧
    MergeSort (compareSongs .SortByTitle)
      [⟨"id1", "same", "art", "", 100, "", "", "", 0, 0, 0, 0⟩,
       ⟨"id2", "same", "art", "", 120, "", "", "", 0, 0, 0, 0⟩] =
      [⟨"id1", "same", "art", "", 100, "", "", "", 0, 0, 0, 0⟩,
       ⟨"id2", "same", "art", "", 120, "", "", "", 0, 0, 0, 0⟩] ∧
    HeapSort (compareSongs .SortByTitle)
      [⟨"id1", "same", "art", "", 100, "", "", "", 0, 0, 0, 0⟩,
       ⟨"id2", "same", "art", "", 120, "", "", "", 0, 0, 0, 0⟩] =
      [⟨"id2", "same", "art", "", 120, "", "", "", 0, 0, 0, 0⟩,
       ⟨"id1", "same", "art", "", 100, "", "", "", 0, 0, 0, 0⟩] ∧
    MergeSort (compareSongs .SortByTitle)
      [⟨"id1", "same", "art", "", 100, "", "", "", 0, 0, 0, 0⟩,
       ⟨"id2", "same", "art", "", 120, "", "", "", 0, 0, 0, 0⟩] ≠
    HeapSort (compareSongs .SortByTitle)
      [⟨"id1", "same", "art", "", 100, "", "", "", 0, 0, 0, 0⟩,
       ⟨"id2", "same", "art", "", 120, "", "", "", 0, 0, 0, 0⟩] ∧
    HeapSort (compareSongs .SortByTitle)
      [⟨"id1", "same", "art", "", 100, "", "", "", 0, 0, 0, 0⟩,
       ⟨"id2", "same", "art", "", 120, "", "", "", 0, 0, 0, 0⟩] ≠
      [⟨"id1", "same", "art", "", 100, "", "", "", 0, 0, 0, 0⟩,
       ⟨"id2", "same", "art", "", 120, "", "", "", 0, 0, 0, 0⟩] := by
  refine ⟨?_, ?_, ?_, ?_, ?_⟩ <;>
    simp +decide [MergeSort, mergeSortSeg, mergeLists, HeapSort, buildLoop,
      extractLoop, heapify, swapIdx, IsStableSorted, compareSongs, strCompare,
      goToLower]

/-- C2 (amended): on inputs with no member-level ties — no two distinct
entities of the input compare equal under the criterion — `MergeSort`,
`QuickSort` and `HeapSort` return the same list, that list is a sorted
permutation of the input (`IsStableSorted`), and each algorithm is
idempotent: re-sorting its own output returns it unchanged.  (On tied
inputs the agreement and the no-op law fail: see the counterexample.) -/
theorem sort_cross_agreement (c : SortCriteria) (l : List Song)
    (hanti : ∀ a ∈ l, ∀ b ∈ l, compareSongs c a b = 0 → a = b) :
    MergeSort (compareSongs c) l = QuickSort (compareSongs c) l ∧
    MergeSort (compareSongs c) l = HeapSort (compareSongs c) l ∧
    (MergeSort (compareSongs c) l).Perm l ∧
    IsStableSorted (compareSongs c) (MergeSort (compareSongs c) l) = true ∧
    MergeSort (compareSongs c) (MergeSort (compareSongs c) l) =
      MergeSort (compareSongs c) l ∧
    QuickSort (compareSongs c) (QuickSort (compareSongs c) l) =
      QuickSort (compareSongs c) l ∧
    HeapSort (compareSongs c) (HeapSort (compareSongs c) l) =
      HeapSort (compareSongs c) l := by
  have hneg : ∀ x y, compareSongs c y x = -(compareSongs c x y) :=
    fun x y => compareSongs_neg c x y
  have htrans : ∀ x y z, compareSongs c x y ≤ 0 → compareSongs c y z ≤ 0 →
      compareSongs c x z ≤ 0 :=
    fun x y z => compareSongs_trans c x y z
  have hm := mergeSort_spec (compareSongs c) hneg htrans l
  have hq := quickSort_spec (compareSongs c) hneg htrans l
  have hh := heapSort_spec (compareSongs c) hneg htrans l
  have hantiM : ∀ a ∈ MergeSort (compareSongs c) l,
      ∀ b ∈ MergeSort (compareSongs c) l, compareSongs c a b = 0 → a = b :=
    fun a ha b hb => hanti a (hm.1.subset ha) b (hm.1.subset hb)
  have hMQ : MergeSort (compareSongs c) l = QuickSort (compareSongs c) l :=
    sorted_perm_unique (compareSongs c) hneg _ _ hantiM
      (hm.1.trans hq.1.symm) hm.2 hq.2
  have hMH : MergeSort (compareSongs c) l = HeapSort (compareSongs c) l :=
    sorted_perm_unique (compareSongs c) hneg _ _ hantiM
      (hm.1.trans hh.1.symm) hm.2 hh.2
  have hm2 := mergeSort_spec (compareSongs c) hneg htrans
    (MergeSort (compareSongs c) l)
  have hMM : MergeSort (compareSongs c) (MergeSort (compareSongs c) l) =
      MergeSort (compareSongs c) l :=
    sorted_perm_unique (compareSongs c) hneg _ _
      (fun a ha b hb => hantiM a (hm2.1.subset ha) b (hm2.1.subset hb))
      hm2.1 hm2.2 hm.2
  have hq2 := quickSort_spec (compareSongs c) hneg htrans
    (MergeSort (compareSongs c) l)
  have hQM : QuickSort (compareSongs c) (MergeSort (compareSongs c) l) =
      MergeSort (compareSongs c) l :=
    sorted_perm_unique (compareSongs c) hneg _ _
      (fun a ha b hb => hantiM a (hq2.1.subset ha) b (hq2.1.subset hb))
      hq2.1 hq2.2 hm.2
  have hh2 := heapSort_spec (compareSongs c) hneg htrans
    (MergeSort (compareSongs c) l)
  have hHM : HeapSort (compareSongs c) (MergeSort (compareSongs c) l) =
      MergeSort (compareSongs c) l :=
    sorted_perm_unique (compareSongs c) hneg _ _
      (fun a ha b hb => hantiM a (hh2.1.subset ha) b (hh2.1.subset hb))
      hh2.1 hh2.2 hm.2
  refine ⟨hMQ, hMH, hm.1, (isStableSorted_iff_pairwise (compareSongs c)
    htrans _).2 hm.2, hMM, ?_, ?_⟩
  · rw [← hMQ, hQM, hMQ]
  · rw [← hMH, hHM, hMH]

set_option maxRecDepth 4000 in
/-- Witness for the amended C2 theorem: a concrete tie-free two-song
input under `SortByTitle` on which the hypothesis holds and all seven
conclusions are realized. -/
theorem sort_cross_agreement_witness :
    (∀ a ∈ ([⟨"id1", "alpha", "art", "", 100, "", "", "", 0, 0, 0, 0⟩,
             ⟨"id2", "beta", "art", "", 120, "", "", "", 0, 0, 0, 0⟩] :
             List Song),
      ∀ b ∈ ([⟨"id1", "alpha", "art", "", 100, "", "", "", 0, 0, 0, 0⟩,
              ⟨"id2", "beta", "art", "", 120, "", "", "", 0, 0, 0, 0⟩] :
              List Song),
      compareSongs .SortByTitle a b = 0 → a = b) ∧
    (MergeSort (compareSongs .SortByTitle)
      [⟨"id1", "alpha", "art", "", 100, "", "", "", 0, 0, 0, 0⟩,
       ⟨"id2", "beta", "art", "", 120, "", "", "", 0, 0, 0, 0⟩] =
     QuickSort (compareSongs .SortByTitle)
      [⟨"id1", "alpha", "art", "", 100, "", "", "", 0, 0, 0, 0⟩,
       ⟨"id2", "beta", "art", "", 120, "", "", "", 0, 0, 0, 0⟩] ∧
     MergeSort (compareSongs .SortByTitle)
      [⟨"id1", "alpha", "art", "", 100, "", "", "", 0, 0, 0, 0⟩,
       ⟨"id2", "beta", "art", "", 120, "", "", "", 0, 0, 0, 0⟩] =
     HeapSort (compareSongs .SortByTitle)
      [⟨"id1", "alpha", "art", "", 100, "", "", "", 0, 0, 0, 0⟩,
       ⟨"id2", "beta", "art", "", 120, "", "", "", 0, 0, 0, 0⟩] ∧
     (MergeSort (compareSongs .SortByTitle)
      [⟨"id1", "alpha", "art", "", 100, "", "", "", 0, 0, 0, 0⟩,
       ⟨"id2", "beta", "art", "", 120, "", "", "", 0, 0, 0, 0⟩]).Perm
      [⟨"id1", "alpha", "art", "", 100, "", "", "", 0, 0, 0, 0⟩,
       ⟨"id2", "beta", "art", "", 120, "", "", "", 0, 0, 0, 0⟩] ∧
     IsStableSorted (compareSongs .SortByTitle)
      (MergeSort (compareSongs .SortByTitle)
        [⟨"id1", "alpha", "art", "", 100, "", "", "", 0, 0, 0, 0⟩,
         ⟨"id2", "beta", "art", "", 120, "", "", "", 0, 0, 0, 0⟩]) = true ∧
     MergeSort (compareSongs .SortByTitle)
      (MergeSort (compareSongs .SortByTitle)
        [⟨"id1", "alpha", "art", "", 100, "", "", "", 0, 0, 0, 0⟩,
         ⟨"id2", "beta", "art", "", 120, "", "", "", 0, 0, 0, 0⟩]) =
     MergeSort (compareSongs .SortByTitle)
        [⟨"id1", "alpha", "art", "", 100, "", "", "", 0, 0, 0, 0⟩,
         ⟨"id2", "beta", "art", "", 120, "", "", "", 0, 0, 0, 0⟩] ∧
     QuickSort (compareSongs .SortByTitle)
      (QuickSort (compareSongs .SortByTitle)
        [⟨"id1", "alpha", "art", "", 100, "", "", "", 0, 0, 0, 0⟩,
         ⟨"id2", "beta", "art", "", 120, "", "", "", 0, 0, 0, 0⟩]) =
     QuickSort (compareSongs .SortByTitle)
        [⟨"id1", "alpha", "art", "", 100, "", "", "", 0, 0, 0, 0⟩,
         ⟨"id2", "beta", "art", "", 120, "", "", "", 0, 0, 0, 0⟩] ∧
     HeapSort (compareSongs .SortByTitle)
      (HeapSort (compareSongs .SortByTitle)
        [⟨"id1", "alpha", "art", "", 100, "", "", "", 0, 0, 0, 0⟩,
         ⟨"id2", "beta", "art", "", 120, "", "", "", 0, 0, 0, 0⟩]) =
     HeapSort (compareSongs .SortByTitle)
        [⟨"id1", "alpha", "art", "", 100, "", "", "", 0, 0, 0, 0⟩,
         ⟨"id2", "beta", "art", "", 120, "", "", "", 0, 0, 0, 0⟩]) :=
  ⟨by simp +decide [compareSongs, strCompare, goToLower],
   sort_cross_agreement .SortByTitle
    [⟨"id1", "alpha", "art", "", 100, "", "", "", 0, 0, 0, 0⟩,
     ⟨"id2", "beta", "art", "", 120, "", "", "", 0, 0, 0, 0⟩]
    (by simp +decide [compareSongs, strCompare, goToLower])⟩

end Playwise
